import Mathlib

/-!
# Conversion of genai contents to Anthropic messages

A shallow embedding of `converters/request.go`: the turn assembler
(`ContentsToMessages`, `contentToMessage`, `mergeConsecutiveMessages`), the
content block translator (`PartToContentBlock` and its helpers) and their
structured-output (beta) counterparts; of `converters/tools.go`: the schema
mapper (`SchemaToMap`), the tool translator (`FunctionDeclarationToTool`) and
the tool choice translator (`ToolConfigToToolChoice`) and their
structured-output counterparts, and the thinking budget
(`resolveThinkingBudget`); and of `anthropic.go`: the model constructor
(`NewModel`), the markdown fence stripping (`stripMarkdownFromResponse` and its
two patterns), the request builders (`convertRequest`, `convertBetaRequest`,
`maybeAppendUserContent`), the rewrite of the prompt-based JSON fallback
(`generateWithPromptBasedJSON`) and the loop of `generateStream`.

Conventions of the embedding:

* a Go pointer `*T` is `Option T` (`nil` is `none`); a Go slice is a `List`
  (a nil slice and an empty slice are both `[]`, the code only ever asks for
  their length); a Go `map[string]any` is `Option (List (String × GoValue))`,
  where `none` is the nil map;
* a result `(*T, error)` is `Except String (Option T)`: the error carries the
  message built by `fmt.Errorf`;
* the library functions the code calls but which are not part of the
  repository are either written out (`base64.StdEncoding.EncodeToString`,
  `strings.HasPrefix`, the ASCII part of `strings.ToLower`) or taken from a
  `GoLib` record (`json.Marshal`, `json.MarshalIndent`, the Unicode lower-case
  table, the conversion of a `float32` to `int64`);
* a Go panic is `none` in an `Option` result.
-/

namespace AdkAnthropic

/-! ## Library values -/

/-- One byte of a Go `[]byte`. -/
abbrev Byte := Fin 256

/-- A Go value of static type `any`, as far as JSON-like payloads and schema
maps need it: the nil interface (`null`), `bool`, `int64` (`int`), `float64`
given by its bit pattern (`float`), `string` (`str`), `[]any` (`list`),
`[]string` (`strings`, `none` being the nil slice), `map[string]any` (`map`,
`none` being the nil map), `[]map[string]any` (`maps`). `other` stands for a
value of any other dynamic type, named by `desc`. -/
inductive GoValue where
  | null : GoValue
  | bool (b : Bool) : GoValue
  | int (n : Int) : GoValue
  | float (bits : Nat) : GoValue
  | str (s : String) : GoValue
  | list (xs : List GoValue) : GoValue
  | strings (xs : Option (List String)) : GoValue
  | map (kvs : Option (List (String × GoValue))) : GoValue
  | maps (xs : List (List (String × GoValue))) : GoValue
  | other (desc : String) : GoValue

/-- A non-nil Go `map[string]any`. -/
abbrev GoMap := List (String × GoValue)

/-- Go's `m[key] = value` on a non-nil `map[string]any`: the entry of the key
is replaced, or added when the key is new. -/
def goMapSet (m : GoMap) (key : String) (value : GoValue) : GoMap :=
  match m with
  | [] => [(key, value)]
  | (k, v) :: rest =>
    if k = key then (key, value) :: rest else (k, v) :: goMapSet rest key value

/-- Go's `m[key]` on a `map[string]any`: the nil interface when the map is nil
or has no such key. -/
def goMapGet (m : Option GoMap) (key : String) : GoValue :=
  match m with
  | none => .null
  | some kvs =>
    match kvs.lookup key with
    | none => .null
    | some v => v

/-- Go's `len` on a `map[string]any`: a nil map has length 0. -/
def goMapLen (m : Option GoMap) : Nat :=
  match m with
  | none => 0
  | some kvs => kvs.length

/-- The library functions the converters call whose definition lies outside
the repository. -/
structure GoLib where
  /-- Go's `unicode.ToLower` on runes outside ASCII. -/
  unicodeToLower : Char → Char
  /-- Go's `json.Marshal` on a non-nil `map[string]any`. -/
  jsonMarshal : GoMap → Except String String
  /-- Go's `json.MarshalIndent(m, "", "  ")` on a `map[string]any`, `none` being
  the nil map. -/
  jsonMarshalIndent : Option GoMap → Except String String
  /-- Go's conversion `int64(x)` of a `float32` given by its bit pattern. -/
  float32ToInt64 : Nat → Int

/-- Go's `unicode.ToLower`: ASCII upper-case letters are shifted to lower
case, other ASCII runes are unchanged, and runes outside ASCII go through the
Unicode table. -/
def runeToLower (lib : GoLib) (c : Char) : Char :=
  if c.toNat < 128 then
    (if 65 ≤ c.toNat ∧ c.toNat ≤ 90 then Char.ofNat (c.toNat + 32) else c)
  else lib.unicodeToLower c

/-- Go's `strings.ToLower`. -/
def stringsToLower (lib : GoLib) (s : String) : String :=
  String.mk (s.data.map (runeToLower lib))

/-- Go's `strings.HasPrefix s p`. -/
def stringsHasPrefixOf (s p : String) : Bool :=
  List.isPrefixOf p.data s.data

/-- The alphabet of `base64.StdEncoding`. -/
def base64Alphabet : List Char :=
  "ABCDEFGHIJKLMNOPQRSTUVWXYZabcdefghijklmnopqrstuvwxyz0123456789+/".data

/-- The character of a 6-bit group. -/
def base64Char (n : Nat) : Char :=
  base64Alphabet.getD (n % 64) '='

/-- The characters of `base64.StdEncoding.EncodeToString`: three bytes give
four characters, a last group of one or two bytes is padded with `=`. -/
def base64Chars : List Byte → List Char
  | a :: b :: c :: rest =>
      base64Char (a.val / 4)
        :: base64Char (a.val % 4 * 16 + b.val / 16)
        :: base64Char (b.val % 16 * 4 + c.val / 64)
        :: base64Char (c.val % 64)
        :: base64Chars rest
  | [a, b] =>
      [base64Char (a.val / 4), base64Char (a.val % 4 * 16 + b.val / 16),
        base64Char (b.val % 16 * 4), '=']
  | [a] => [base64Char (a.val / 4), base64Char (a.val % 4 * 16), '=', '=']
  | [] => []

/-- Go's `base64.StdEncoding.EncodeToString`. -/
def base64EncodeToString (data : List Byte) : String :=
  String.mk (base64Chars data)

/-! ## The genai input types -/

/-- The type `genai.Blob`: inline binary data. -/
structure Blob where
  MIMEType : String
  Data : List Byte

/-- The type `genai.FileData`: a URI reference. -/
structure FileData where
  MIMEType : String
  FileURI : String

/-- The type `genai.FunctionResponse`: a tool result. -/
structure FunctionResponse where
  ID : String
  Name : String
  Response : Option GoMap

/-- The type `genai.FunctionCall`: a tool call. -/
structure FunctionCall where
  ID : String
  Name : String
  Args : Option GoMap

/-- The type `genai.ExecutableCode`. -/
structure ExecutableCode where
  Code : String
  Language : String

/-- The type `genai.CodeExecutionResult`. -/
structure CodeExecutionResult where
  Outcome : String
  Output : String

/-- The type `genai.Part`, with the fields the converters read. The zero value
of every field is the default. -/
structure Part where
  Text : String := ""
  Thought : Bool := false
  ThoughtSignature : List Byte := []
  InlineData : Option Blob := none
  FileData : Option FileData := none
  FunctionResponse : Option FunctionResponse := none
  FunctionCall : Option FunctionCall := none
  ExecutableCode : Option ExecutableCode := none
  CodeExecutionResult : Option CodeExecutionResult := none

/-- The type `genai.Content`: one turn. -/
structure Content where
  Role : String
  Parts : List (Option Part)

/-! ## The Anthropic output types (standard surface) -/

/-- The string type `anthropic.MessageParamRole`. -/
abbrev MessageParamRole := String

/-- SDK constant `anthropic.MessageParamRoleUser`. -/
def MessageParamRoleUser : MessageParamRole := "user"

/-- SDK constant `anthropic.MessageParamRoleAssistant`. -/
def MessageParamRoleAssistant : MessageParamRole := "assistant"

/-- The string type `anthropic.Base64ImageSourceMediaType`. -/
abbrev Base64ImageSourceMediaType := String

/-- SDK constant `anthropic.Base64ImageSourceMediaTypeImageJPEG`. -/
def Base64ImageSourceMediaTypeImageJPEG : Base64ImageSourceMediaType := "image/jpeg"

/-- SDK constant `anthropic.Base64ImageSourceMediaTypeImagePNG`. -/
def Base64ImageSourceMediaTypeImagePNG : Base64ImageSourceMediaType := "image/png"

/-- SDK constant `anthropic.Base64ImageSourceMediaTypeImageGIF`. -/
def Base64ImageSourceMediaTypeImageGIF : Base64ImageSourceMediaType := "image/gif"

/-- SDK constant `anthropic.Base64ImageSourceMediaTypeImageWebP`. -/
def Base64ImageSourceMediaTypeImageWebP : Base64ImageSourceMediaType := "image/webp"

/-- The union `anthropic.ImageBlockParamSourceUnion`. -/
inductive ImageSource where
  | OfBase64 (Data : String) (MediaType : Base64ImageSourceMediaType) : ImageSource
  | OfURL (URL : String) : ImageSource

/-- The union `anthropic.DocumentBlockParamSourceUnion`. -/
inductive DocumentSource where
  | OfBase64 (Data : String) : DocumentSource
  | OfURL (URL : String) : DocumentSource

/-- The union `anthropic.ContentBlockParamUnion`, with the variants the
converters build. `OfToolResult` holds the texts of its text content blocks
and the `IsError` option; `OfToolUse` holds the `Input` as the Go map it was
given (`none` is a nil map). -/
inductive ContentBlockParamUnion where
  | OfText (Text : String) : ContentBlockParamUnion
  | OfThinking (Thinking : String) (Signature : String) : ContentBlockParamUnion
  | OfImage (Source : ImageSource) : ContentBlockParamUnion
  | OfDocument (Source : DocumentSource) : ContentBlockParamUnion
  | OfToolUse (ID : String) (Input : Option GoMap) (Name : String) : ContentBlockParamUnion
  | OfToolResult (ToolUseID : String) (Content : List String) (IsError : Option Bool) :
      ContentBlockParamUnion

/-- The type `anthropic.MessageParam`. -/
structure MessageParam where
  Role : MessageParamRole
  Content : List ContentBlockParamUnion

/-- SDK constructor `anthropic.NewTextBlock`. -/
def NewTextBlock (text : String) : ContentBlockParamUnion :=
  .OfText text

/-- SDK constructor `anthropic.NewToolResultBlock`. -/
def NewToolResultBlock (toolUseID content : String) (isError : Bool) : ContentBlockParamUnion :=
  .OfToolResult toolUseID [content] (some isError)

/-- SDK constructor `anthropic.NewToolUseBlock`. -/
def NewToolUseBlock (id : String) (input : Option GoMap) (name : String) :
    ContentBlockParamUnion :=
  .OfToolUse id input name

/-! ## Content block translator (standard surface) -/

/-- The function `mapRole`: lower-cases the role and maps it. -/
def mapRole (lib : GoLib) (role : String) : Except String MessageParamRole :=
  let lowered := stringsToLower lib role
  if lowered = "user" then .ok MessageParamRoleUser
  else if lowered = "model" ∨ lowered = "assistant" then .ok MessageParamRoleAssistant
  else .error ("unsupported role: " ++ role)

/-- The function `mapImageMediaType`. -/
def mapImageMediaType (mimeType : String) : Except String Base64ImageSourceMediaType :=
  if mimeType = "image/jpeg" then .ok Base64ImageSourceMediaTypeImageJPEG
  else if mimeType = "image/png" then .ok Base64ImageSourceMediaTypeImagePNG
  else if mimeType = "image/gif" then .ok Base64ImageSourceMediaTypeImageGIF
  else if mimeType = "image/webp" then .ok Base64ImageSourceMediaTypeImageWebP
  else .error ("unsupported image media type: " ++ mimeType)

/-- The function `inlineDataToBlock`. -/
def inlineDataToBlock (lib : GoLib) (blob : Option Blob) :
    Except String (Option ContentBlockParamUnion) :=
  match blob with
  | none => .ok none
  | some blob =>
    let mimeType := stringsToLower lib blob.MIMEType
    if stringsHasPrefixOf mimeType "image/" then
      match mapImageMediaType mimeType with
      | .error err => .error err
      | .ok mediaType =>
        .ok (some (.OfImage (.OfBase64 (base64EncodeToString blob.Data) mediaType)))
    else if mimeType = "application/pdf" then
      .ok (some (.OfDocument (.OfBase64 (base64EncodeToString blob.Data))))
    else .error ("unsupported MIME type for inline data: " ++ mimeType)

/-- The function `fileDataToBlock`. -/
def fileDataToBlock (lib : GoLib) (fileData : Option FileData) :
    Except String (Option ContentBlockParamUnion) :=
  match fileData with
  | none => .ok none
  | some fileData =>
    let mimeType := stringsToLower lib fileData.MIMEType
    if stringsHasPrefixOf mimeType "image/" then
      .ok (some (.OfImage (.OfURL fileData.FileURI)))
    else if mimeType = "application/pdf" then
      .ok (some (.OfDocument (.OfURL fileData.FileURI)))
    else .error ("unsupported MIME type for file data: " ++ mimeType)

/-- The function `functionResponseToBlock`. -/
def functionResponseToBlock (lib : GoLib) (resp : Option FunctionResponse) :
    Except String (Option ContentBlockParamUnion) :=
  match resp with
  | none => .ok none
  | some resp =>
    if resp.ID = "" then
      .error ("FunctionResponse.ID is required for tool call correlation (function: "
        ++ resp.Name ++ ")")
    else
      match resp.Response with
      | none => .ok (some (NewToolResultBlock resp.ID "" false))
      | some payload =>
        match lib.jsonMarshal payload with
        | .error err => .error ("failed to marshal function response: " ++ err)
        | .ok jsonBytes => .ok (some (NewToolResultBlock resp.ID jsonBytes false))

/-- The function `functionCallToBlock`. -/
def functionCallToBlock (call : Option FunctionCall) :
    Except String (Option ContentBlockParamUnion) :=
  match call with
  | none => .ok none
  | some call =>
    let input : Option GoMap :=
      if call.Args.isNone ∨ goMapLen call.Args = 0 then some [] else call.Args
    .ok (some (NewToolUseBlock call.ID input call.Name))

/-- The function `PartToContentBlock`. -/
def PartToContentBlock (lib : GoLib) (part : Option Part) :
    Except String (Option ContentBlockParamUnion) :=
  match part with
  | none => .ok none
  | some part =>
    if part.Text ≠ "" then
      if part.Thought then
        if part.ThoughtSignature.length > 0 then
          .ok (some (.OfThinking part.Text (base64EncodeToString part.ThoughtSignature)))
        else .ok (some (NewTextBlock part.Text))
      else .ok (some (NewTextBlock part.Text))
    else if part.InlineData.isSome then inlineDataToBlock lib part.InlineData
    else if part.FileData.isSome then fileDataToBlock lib part.FileData
    else if part.FunctionResponse.isSome then functionResponseToBlock lib part.FunctionResponse
    else if part.FunctionCall.isSome then functionCallToBlock part.FunctionCall
    else if part.ExecutableCode.isSome ∨ part.CodeExecutionResult.isSome then
      .error "ExecutableCode and CodeExecutionResult are not supported by Anthropic"
    else .ok none

/-! ## Turn assembler (standard surface) -/

/-- The first loop of `contentToMessage`: the flags `hasFunctionResponse` and
`hasFunctionCall` after the remaining parts. -/
def scanToolParts : List (Option Part) → Bool × Bool → Bool × Bool
  | [], flags => flags
  | none :: rest, flags => scanToolParts rest flags
  | some part :: rest, flags =>
      scanToolParts rest
        (if part.FunctionResponse.isSome then true else flags.1,
         if part.FunctionCall.isSome then true else flags.2)

/-- The second loop of `contentToMessage`: the blocks after the remaining
parts, or the wrapped error of the first part that fails. -/
def convertParts (lib : GoLib) :
    List (Option Part) → List ContentBlockParamUnion → Except String (List ContentBlockParamUnion)
  | [], blocks => .ok blocks
  | none :: rest, blocks => convertParts lib rest blocks
  | some part :: rest, blocks =>
      match PartToContentBlock lib (some part) with
      | .error err => .error ("failed to convert part: " ++ err)
      | .ok none => convertParts lib rest blocks
      | .ok (some block) => convertParts lib rest (blocks ++ [block])

/-- The function `contentToMessage`. -/
def contentToMessage (lib : GoLib) (content : Option Content) :
    Except String (Option MessageParam) :=
  match content with
  | none => .ok none
  | some content =>
    if content.Parts.length = 0 then .ok none
    else
      let flags := scanToolParts content.Parts (false, false)
      let resolved : Except String MessageParamRole :=
        if flags.1 then .ok MessageParamRoleUser
        else if flags.2 then .ok MessageParamRoleAssistant
        else mapRole lib content.Role
      match resolved with
      | .error err => .error err
      | .ok role =>
        match convertParts lib content.Parts [] with
        | .error err => .error err
        | .ok blocks =>
          if blocks.length = 0 then .ok none
          else .ok (some { Role := role, Content := blocks })

/-- The loop of `mergeConsecutiveMessages`: `merged` after the remaining
messages, `i` being the index of the next one. For `i > 0` the list `merged`
ends with a message, so the empty case of `getLast?` (an index out of range in
Go) is not reached: `mergeLoop_concat` follows the loop from the first message
on without it. -/
def mergeLoop : List MessageParam → Nat → List MessageParam → List MessageParam
  | [], _, merged => merged
  | msg :: rest, i, merged =>
      if i = 0 then mergeLoop rest (i + 1) (merged ++ [msg])
      else
        match merged.getLast? with
        | none => mergeLoop rest (i + 1) merged
        | some last =>
          if last.Role = msg.Role then
            mergeLoop rest (i + 1)
              (merged.dropLast ++ [{ last with Content := last.Content ++ msg.Content }])
          else mergeLoop rest (i + 1) (merged ++ [msg])

/-- The function `mergeConsecutiveMessages`. -/
def mergeConsecutiveMessages (messages : List MessageParam) : List MessageParam :=
  if messages.length ≤ 1 then messages else mergeLoop messages 0 []

/-- The loop of `ContentsToMessages`: the messages after the remaining turns,
or the wrapped error of the first turn that fails. -/
def convertContents (lib : GoLib) :
    List (Option Content) → List MessageParam → Except String (List MessageParam)
  | [], messages => .ok messages
  | none :: rest, messages => convertContents lib rest messages
  | some content :: rest, messages =>
      match contentToMessage lib (some content) with
      | .error err => .error ("failed to convert content: " ++ err)
      | .ok none => convertContents lib rest messages
      | .ok (some msg) => convertContents lib rest (messages ++ [msg])

/-- The function `ContentsToMessages`. -/
def ContentsToMessages (lib : GoLib) (contents : List (Option Content)) :
    Except String (List MessageParam) :=
  if contents.length = 0 then .ok []
  else
    match convertContents lib contents [] with
    | .error err => .error err
    | .ok messages => .ok (mergeConsecutiveMessages messages)

/-! ## The Anthropic output types (structured-output surface) -/

/-- The string type `anthropic.BetaMessageParamRole`. -/
abbrev BetaMessageParamRole := String

/-- SDK constant `anthropic.BetaMessageParamRoleUser`. -/
def BetaMessageParamRoleUser : BetaMessageParamRole := "user"

/-- SDK constant `anthropic.BetaMessageParamRoleAssistant`. -/
def BetaMessageParamRoleAssistant : BetaMessageParamRole := "assistant"

/-- The string type `anthropic.BetaBase64ImageSourceMediaType`. -/
abbrev BetaBase64ImageSourceMediaType := String

/-- SDK constant `anthropic.BetaBase64ImageSourceMediaTypeImageJPEG`. -/
def BetaBase64ImageSourceMediaTypeImageJPEG : BetaBase64ImageSourceMediaType := "image/jpeg"

/-- SDK constant `anthropic.BetaBase64ImageSourceMediaTypeImagePNG`. -/
def BetaBase64ImageSourceMediaTypeImagePNG : BetaBase64ImageSourceMediaType := "image/png"

/-- SDK constant `anthropic.BetaBase64ImageSourceMediaTypeImageGIF`. -/
def BetaBase64ImageSourceMediaTypeImageGIF : BetaBase64ImageSourceMediaType := "image/gif"

/-- SDK constant `anthropic.BetaBase64ImageSourceMediaTypeImageWebP`. -/
def BetaBase64ImageSourceMediaTypeImageWebP : BetaBase64ImageSourceMediaType := "image/webp"

/-- The union `anthropic.BetaImageBlockParamSourceUnion`. -/
inductive BetaImageSource where
  | OfBase64 (Data : String) (MediaType : BetaBase64ImageSourceMediaType) : BetaImageSource
  | OfURL (URL : String) : BetaImageSource

/-- The union `anthropic.BetaRequestDocumentBlockSourceUnionParam`. -/
inductive BetaDocumentSource where
  | OfBase64 (Data : String) : BetaDocumentSource
  | OfURL (URL : String) : BetaDocumentSource

/-- The union `anthropic.BetaContentBlockParamUnion`, with the variants the
converters build. `OfToolResult` holds the texts of its text content blocks
and the `IsError` option, which the beta converter leaves unset. -/
inductive BetaContentBlockParamUnion where
  | OfText (Text : String) : BetaContentBlockParamUnion
  | OfThinking (Thinking : String) (Signature : String) : BetaContentBlockParamUnion
  | OfImage (Source : BetaImageSource) : BetaContentBlockParamUnion
  | OfDocument (Source : BetaDocumentSource) : BetaContentBlockParamUnion
  | OfToolUse (ID : String) (Name : String) (Input : Option GoMap) : BetaContentBlockParamUnion
  | OfToolResult (ToolUseID : String) (Content : List String) (IsError : Option Bool) :
      BetaContentBlockParamUnion

/-! ## Content block translator (structured-output surface) -/

/-- The function `mapBetaRole`. -/
def mapBetaRole (lib : GoLib) (role : String) : Except String BetaMessageParamRole :=
  let lowered := stringsToLower lib role
  if lowered = "user" then .ok BetaMessageParamRoleUser
  else if lowered = "model" ∨ lowered = "assistant" then .ok BetaMessageParamRoleAssistant
  else .error ("unsupported role: " ++ role)

/-- The function `mapBetaImageMediaType`. -/
def mapBetaImageMediaType (mimeType : String) : Except String BetaBase64ImageSourceMediaType :=
  if mimeType = "image/jpeg" then .ok BetaBase64ImageSourceMediaTypeImageJPEG
  else if mimeType = "image/png" then .ok BetaBase64ImageSourceMediaTypeImagePNG
  else if mimeType = "image/gif" then .ok BetaBase64ImageSourceMediaTypeImageGIF
  else if mimeType = "image/webp" then .ok BetaBase64ImageSourceMediaTypeImageWebP
  else .error ("unsupported image media type: " ++ mimeType)

/-- The function `inlineDataToBetaBlock`. -/
def inlineDataToBetaBlock (lib : GoLib) (blob : Option Blob) :
    Except String (Option BetaContentBlockParamUnion) :=
  match blob with
  | none => .ok none
  | some blob =>
    let mimeType := stringsToLower lib blob.MIMEType
    if stringsHasPrefixOf mimeType "image/" then
      match mapBetaImageMediaType mimeType with
      | .error err => .error err
      | .ok mediaType =>
        .ok (some (.OfImage (.OfBase64 (base64EncodeToString blob.Data) mediaType)))
    else if mimeType = "application/pdf" then
      .ok (some (.OfDocument (.OfBase64 (base64EncodeToString blob.Data))))
    else .error ("unsupported MIME type for inline data: " ++ mimeType)

/-- The function `fileDataToBetaBlock`. -/
def fileDataToBetaBlock (lib : GoLib) (fileData : Option FileData) :
    Except String (Option BetaContentBlockParamUnion) :=
  match fileData with
  | none => .ok none
  | some fileData =>
    let mimeType := stringsToLower lib fileData.MIMEType
    if stringsHasPrefixOf mimeType "image/" then
      .ok (some (.OfImage (.OfURL fileData.FileURI)))
    else if mimeType = "application/pdf" then
      .ok (some (.OfDocument (.OfURL fileData.FileURI)))
    else .error ("unsupported MIME type for file data: " ++ mimeType)

/-- The function `functionResponseToBetaBlock`. -/
def functionResponseToBetaBlock (lib : GoLib) (resp : Option FunctionResponse) :
    Except String (Option BetaContentBlockParamUnion) :=
  match resp with
  | none => .ok none
  | some resp =>
    if resp.ID = "" then
      .error ("FunctionResponse.ID is required for tool call correlation (function: "
        ++ resp.Name ++ ")")
    else
      match resp.Response with
      | none => .ok (some (.OfToolResult resp.ID [""] none))
      | some payload =>
        match lib.jsonMarshal payload with
        | .error err => .error ("failed to marshal function response: " ++ err)
        | .ok jsonBytes => .ok (some (.OfToolResult resp.ID [jsonBytes] none))

/-- The function `functionCallToBetaBlock`. -/
def functionCallToBetaBlock (call : Option FunctionCall) :
    Except String (Option BetaContentBlockParamUnion) :=
  match call with
  | none => .ok none
  | some call =>
    let input : Option GoMap :=
      if call.Args.isNone ∨ goMapLen call.Args = 0 then some [] else call.Args
    .ok (some (.OfToolUse call.ID call.Name input))

/-- The function `partToBetaContentBlock`. -/
def partToBetaContentBlock (lib : GoLib) (part : Option Part) :
    Except String (Option BetaContentBlockParamUnion) :=
  match part with
  | none => .ok none
  | some part =>
    if part.Text ≠ "" then
      if part.Thought ∧ part.ThoughtSignature.length > 0 then
        .ok (some (.OfThinking part.Text (base64EncodeToString part.ThoughtSignature)))
      else .ok (some (.OfText part.Text))
    else if part.InlineData.isSome then inlineDataToBetaBlock lib part.InlineData
    else if part.FileData.isSome then fileDataToBetaBlock lib part.FileData
    else if part.FunctionResponse.isSome then
      functionResponseToBetaBlock lib part.FunctionResponse
    else if part.FunctionCall.isSome then functionCallToBetaBlock part.FunctionCall
    else if part.ExecutableCode.isSome ∨ part.CodeExecutionResult.isSome then
      .error "ExecutableCode and CodeExecutionResult are not supported by Anthropic"
    else .ok none

/-! ## Turn assembler (structured-output surface) -/

/-- The type `anthropic.BetaMessageParam`. -/
structure BetaMessageParam where
  Role : BetaMessageParamRole
  Content : List BetaContentBlockParamUnion

/-- The second loop of `contentToBetaMessage`: the blocks after the remaining
parts, or the wrapped error of the first part that fails. -/
def convertBetaParts (lib : GoLib) :
    List (Option Part) → List BetaContentBlockParamUnion
      → Except String (List BetaContentBlockParamUnion)
  | [], blocks => .ok blocks
  | none :: rest, blocks => convertBetaParts lib rest blocks
  | some part :: rest, blocks =>
      match partToBetaContentBlock lib (some part) with
      | .error err => .error ("failed to convert part: " ++ err)
      | .ok none => convertBetaParts lib rest blocks
      | .ok (some block) => convertBetaParts lib rest (blocks ++ [block])

/-- The function `contentToBetaMessage`. Its first loop is, statement by
statement, the first loop of `contentToMessage`, embedded as `scanToolParts`. -/
def contentToBetaMessage (lib : GoLib) (content : Option Content) :
    Except String (Option BetaMessageParam) :=
  match content with
  | none => .ok none
  | some content =>
    if content.Parts.length = 0 then .ok none
    else
      let flags := scanToolParts content.Parts (false, false)
      let resolved : Except String BetaMessageParamRole :=
        if flags.1 then .ok BetaMessageParamRoleUser
        else if flags.2 then .ok BetaMessageParamRoleAssistant
        else mapBetaRole lib content.Role
      match resolved with
      | .error err => .error err
      | .ok role =>
        match convertBetaParts lib content.Parts [] with
        | .error err => .error err
        | .ok blocks =>
          if blocks.length = 0 then .ok none
          else .ok (some { Role := role, Content := blocks })

/-- The loop of `mergeConsecutiveBetaMessages`: `merged` after the remaining
messages, `i` being the index of the next one. As in `mergeLoop`, the empty
case of `getLast?` is not reached for `i > 0`. -/
def betaMergeLoop :
    List BetaMessageParam → Nat → List BetaMessageParam → List BetaMessageParam
  | [], _, merged => merged
  | msg :: rest, i, merged =>
      if i = 0 then betaMergeLoop rest (i + 1) (merged ++ [msg])
      else
        match merged.getLast? with
        | none => betaMergeLoop rest (i + 1) merged
        | some last =>
          if last.Role = msg.Role then
            betaMergeLoop rest (i + 1)
              (merged.dropLast ++ [{ last with Content := last.Content ++ msg.Content }])
          else betaMergeLoop rest (i + 1) (merged ++ [msg])

/-- The function `mergeConsecutiveBetaMessages`. -/
def mergeConsecutiveBetaMessages (messages : List BetaMessageParam) : List BetaMessageParam :=
  if messages.length ≤ 1 then messages else betaMergeLoop messages 0 []

/-- The loop of `ContentsToBetaMessages`: the messages after the remaining
turns, or the wrapped error of the first turn that fails. -/
def convertBetaContents (lib : GoLib) :
    List (Option Content) → List BetaMessageParam → Except String (List BetaMessageParam)
  | [], messages => .ok messages
  | none :: rest, messages => convertBetaContents lib rest messages
  | some content :: rest, messages =>
      match contentToBetaMessage lib (some content) with
      | .error err => .error ("failed to convert content: " ++ err)
      | .ok none => convertBetaContents lib rest messages
      | .ok (some msg) => convertBetaContents lib rest (messages ++ [msg])

/-- The function `ContentsToBetaMessages`. -/
def ContentsToBetaMessages (lib : GoLib) (contents : List (Option Content)) :
    Except String (List BetaMessageParam) :=
  if contents.length = 0 then .ok []
  else
    match convertBetaContents lib contents [] with
    | .error err => .error err
    | .ok messages => .ok (mergeConsecutiveBetaMessages messages)

/-! ## Thinking budget -/

/-- The string type `genai.ThinkingLevel`. -/
abbrev ThinkingLevel := String

/-- The genai constant `ThinkingLevelLow`. -/
def ThinkingLevelLow : ThinkingLevel := "LOW"

/-- The genai constant `ThinkingLevelHigh`. -/
def ThinkingLevelHigh : ThinkingLevel := "HIGH"

/-- The type `genai.ThinkingConfig`. `ThinkingBudget` is a `*int32`. -/
structure ThinkingConfig where
  IncludeThoughts : Bool := false
  ThinkingBudget : Option Int := none
  ThinkingLevel : ThinkingLevel := ""

/-- The function `resolveThinkingBudget`. -/
def resolveThinkingBudget (cfg : Option ThinkingConfig) : Int :=
  match cfg with
  | none => -1
  | some cfg =>
    match cfg.ThinkingBudget with
    | some budget => budget
    | none =>
      if cfg.ThinkingLevel = ThinkingLevelHigh then 10000
      else if cfg.ThinkingLevel = ThinkingLevelLow then 1024
      else if cfg.IncludeThoughts then 10000
      else -1

/-- The type `anthropic.ThinkingConfigEnabledParam`. -/
structure ThinkingConfigEnabledParam where
  BudgetTokens : Int
  deriving DecidableEq

/-- The type `anthropic.ThinkingConfigDisabledParam`. -/
structure ThinkingConfigDisabledParam where
  deriving DecidableEq

/-- The union `anthropic.ThinkingConfigParamUnion`: one pointer per variant. The
zero value, with no variant set, is the omitted parameter. -/
structure ThinkingConfigParamUnion where
  OfEnabled : Option ThinkingConfigEnabledParam := none
  OfDisabled : Option ThinkingConfigDisabledParam := none
  deriving DecidableEq

/-- SDK constructor `anthropic.ThinkingConfigParamOfEnabled`. -/
def ThinkingConfigParamOfEnabled (budgetTokens : Int) : ThinkingConfigParamUnion :=
  { OfEnabled := some { BudgetTokens := budgetTokens } }

/-- The function `ThinkingConfigToAnthropicThinking`. -/
def ThinkingConfigToAnthropicThinking (cfg : Option ThinkingConfig) : ThinkingConfigParamUnion :=
  let budget := resolveThinkingBudget cfg
  if budget ≥ 0 then ThinkingConfigParamOfEnabled budget else {}

/-- The type `anthropic.BetaThinkingConfigEnabledParam`. -/
structure BetaThinkingConfigEnabledParam where
  BudgetTokens : Int
  deriving DecidableEq

/-- The type `anthropic.BetaThinkingConfigDisabledParam`. -/
structure BetaThinkingConfigDisabledParam where
  deriving DecidableEq

/-- The union `anthropic.BetaThinkingConfigParamUnion`. -/
structure BetaThinkingConfigParamUnion where
  OfEnabled : Option BetaThinkingConfigEnabledParam := none
  OfDisabled : Option BetaThinkingConfigDisabledParam := none
  deriving DecidableEq

/-- SDK constructor `anthropic.BetaThinkingConfigParamOfEnabled`. -/
def BetaThinkingConfigParamOfEnabled (budgetTokens : Int) : BetaThinkingConfigParamUnion :=
  { OfEnabled := some { BudgetTokens := budgetTokens } }

/-- The function `ThinkingConfigToBetaAnthropicThinking`. -/
def ThinkingConfigToBetaAnthropicThinking (cfg : Option ThinkingConfig) :
    BetaThinkingConfigParamUnion :=
  let budget := resolveThinkingBudget cfg
  if budget ≥ 0 then BetaThinkingConfigParamOfEnabled budget else {}

/-! ## Schema mapper and tool translator -/

/-- The type `genai.Schema`, with the fields `SchemaToMap` reads. `Type_` is the
field `Type`; `Default` is a Go `any` (`null` when unset); `Minimum` and
`Maximum` are `*float64` given by their bit pattern; `Properties` is a
`map[string]*Schema` (`none` being the nil map). The three fields that hold
schemas have no default and are always written out. -/
structure Schema where
  Type_ : String := ""
  Description : String := ""
  Enum : List String := []
  Format : String := ""
  Items : Option Schema
  Properties : Option (List (String × Option Schema))
  Required : List String := []
  Nullable : Option Bool := none
  Default : GoValue := .null
  Minimum : Option Nat := none
  Maximum : Option Nat := none
  MinLength : Option Int := none
  MaxLength : Option Int := none
  MinItems : Option Int := none
  MaxItems : Option Int := none
  Pattern : String := ""
  AnyOf : List (Option Schema)

/-- Go's `len` on a `map[string]*genai.Schema`. -/
def schemaMapLen (props : Option (List (String × Option Schema))) : Nat :=
  match props with
  | none => 0
  | some kvs => kvs.length

/-- Whether a `Default` of type `any` is the nil interface. -/
def GoValue.isNull : GoValue → Bool
  | .null => true
  | _ => false

/-- Go's assignment `m[key] = value` on a non-nil `map[string]any`, guarded by
the condition `c`. -/
def goMapSetIf (c : Prop) [Decidable c] (m : GoMap) (key : String) (value : GoValue) : GoMap :=
  if c then goMapSet m key value else m

/-- Go's assignment `m[key] = *p` on a non-nil `map[string]any`, guarded by
`p != nil`: the value behind the pointer is given when there is one. -/
def goMapSetSome (m : GoMap) (key : String) (value : Option GoValue) : GoMap :=
  match value with
  | some v => goMapSet m key v
  | none => m

mutual

/-- The function `SchemaToMap` on a non-nil schema: the entries are set in the
order of the source. -/
def schemaToMapCore (lib : GoLib) : Schema → GoMap
  | ⟨type, description, enum, format, items, properties, required, nullable, default,
      minimum, maximum, minLength, maxLength, minItems, maxItems, pattern, anyOf⟩ =>
    let r : GoMap := []
    let r := goMapSetIf (type ≠ "") r "type" (.str (stringsToLower lib type))
    let r := goMapSetIf (description ≠ "") r "description" (.str description)
    let r := goMapSetIf (enum.length > 0) r "enum" (.strings (some enum))
    let r := goMapSetIf (format ≠ "") r "format" (.str format)
    let r := goMapSetSome r "items"
      (match items with
        | some it => some (.map (some (schemaToMapCore lib it)))
        | none => none)
    let r := goMapSetIf (schemaMapLen properties > 0) r "properties"
      (.map (schemaPropertiesToMap lib properties))
    let r := goMapSetIf (required.length > 0) r "required" (.strings (some required))
    let r := goMapSetIf (nullable = some true) r "nullable" (.bool true)
    let r := goMapSetIf (default.isNull = false) r "default" default
    let r := goMapSetSome r "minimum" (minimum.map GoValue.float)
    let r := goMapSetSome r "maximum" (maximum.map GoValue.float)
    let r := goMapSetSome r "minLength" (minLength.map GoValue.int)
    let r := goMapSetSome r "maxLength" (maxLength.map GoValue.int)
    let r := goMapSetSome r "minItems" (minItems.map GoValue.int)
    let r := goMapSetSome r "maxItems" (maxItems.map GoValue.int)
    let r := goMapSetIf (pattern ≠ "") r "pattern" (.str pattern)
    if anyOf.length > 0 then
      let collected := schemaAnyOfLoop lib anyOf
      goMapSetIf (collected.length > 0) r "anyOf" (.maps collected)
    else r

/-- The function `schemaPropertiesToMap`. -/
def schemaPropertiesToMap (lib : GoLib) :
    Option (List (String × Option Schema)) → Option GoMap
  | none => none
  | some props => some (schemaPropertiesLoop lib props)

/-- The loop of `schemaPropertiesToMap`: the converted entries of the remaining
properties, a nil schema being skipped. The keys of a Go map are distinct, so
every assignment `result[name] = ...` adds one entry. -/
def schemaPropertiesLoop (lib : GoLib) : List (String × Option Schema) → GoMap
  | [] => []
  | (_, none) :: rest => schemaPropertiesLoop lib rest
  | (name, some schema) :: rest =>
      (name, .map (some (schemaToMapCore lib schema))) :: schemaPropertiesLoop lib rest

/-- The loop over `AnyOf` in `SchemaToMap`: the maps of the non-nil schemas. -/
def schemaAnyOfLoop (lib : GoLib) : List (Option Schema) → List GoMap
  | [] => []
  | none :: rest => schemaAnyOfLoop lib rest
  | some schema :: rest => schemaToMapCore lib schema :: schemaAnyOfLoop lib rest

end

/-- The function `SchemaToMap`. -/
def SchemaToMap (lib : GoLib) (schema : Option Schema) : Option GoMap :=
  match schema with
  | none => none
  | some schema => some (schemaToMapCore lib schema)

/-- The type `jsonschema.Schema`, with the fields the converters read. `Type_` is
the field `Type`; `Enum` is a `[]any`. -/
structure JSONSchema where
  Type_ : String := ""
  Description : String := ""
  Enum : List GoValue := []
  Items : Option JSONSchema
  Properties : Option (List (String × Option JSONSchema))
  Required : List String := []

mutual

/-- The function `jsonSchemaPropertyToMap` on a non-nil schema. -/
def jsonSchemaPropertyToMapCore : JSONSchema → GoMap
  | ⟨type, description, enum, items, properties, required⟩ =>
    let r : GoMap := []
    let r := if type ≠ "" then goMapSet r "type" (.str type) else r
    let r := if description ≠ "" then goMapSet r "description" (.str description) else r
    let r := if enum.length > 0 then goMapSet r "enum" (.list enum) else r
    let r :=
      match items with
      | some it => goMapSet r "items" (.map (some (jsonSchemaPropertyToMapCore it)))
      | none => r
    let r :=
      match properties with
      | some props => goMapSet r "properties" (.map (some (jsonSchemaPropertiesLoop props)))
      | none => r
    if required.length > 0 then goMapSet r "required" (.strings (some required)) else r

/-- The loop of `jsonSchemaToProperties`: one entry per property, the value
being the map of its schema, the nil map for a nil schema. -/
def jsonSchemaPropertiesLoop : List (String × Option JSONSchema) → GoMap
  | [] => []
  | (name, none) :: rest => (name, .map none) :: jsonSchemaPropertiesLoop rest
  | (name, some schema) :: rest =>
      (name, .map (some (jsonSchemaPropertyToMapCore schema))) :: jsonSchemaPropertiesLoop rest

end

/-- The function `jsonSchemaPropertyToMap`. -/
def jsonSchemaPropertyToMap (schema : Option JSONSchema) : Option GoMap :=
  match schema with
  | none => none
  | some schema => some (jsonSchemaPropertyToMapCore schema)

/-- The function `jsonSchemaToProperties`. -/
def jsonSchemaToProperties (schema : Option JSONSchema) : Option GoMap :=
  match schema with
  | none => none
  | some schema =>
    match schema.Properties with
    | none => none
    | some props => some (jsonSchemaPropertiesLoop props)

/-- The loop of `extractRequiredFields` over a `[]any`: the elements that are
strings. -/
def extractRequiredLoop : List GoValue → List String
  | [] => []
  | .str s :: rest => s :: extractRequiredLoop rest
  | _ :: rest => extractRequiredLoop rest

/-- The function `extractRequiredFields`; `none` is the nil slice. -/
def extractRequiredFields (v : GoValue) : Option (List String) :=
  match v with
  | .null => none
  | .strings req => req
  | .list req => some (extractRequiredLoop req)
  | _ => none

/-- The dynamic value of `FunctionDeclaration.ParametersJsonSchema`, of static
type `any`: the nil interface, a `map[string]any` (`none` being the nil map), a
`*jsonschema.Schema` (`none` being the nil pointer), or a value of another
type. -/
inductive ParametersJsonSchemaValue where
  | null : ParametersJsonSchemaValue
  | ofMap (schema : Option GoMap) : ParametersJsonSchemaValue
  | ofSchema (schema : Option JSONSchema) : ParametersJsonSchemaValue
  | other (desc : String) : ParametersJsonSchemaValue

/-- The type `genai.FunctionDeclaration`, with the fields the converters
read. -/
structure FunctionDeclaration where
  Name : String
  Description : String := ""
  Parameters : Option Schema := none
  ParametersJsonSchema : ParametersJsonSchemaValue := .null

/-- The type `anthropic.ToolInputSchemaParam`. `Properties` is a Go `any` that
the converters fill with a `map[string]any` (`none` being the nil map);
`Required` is a `[]string` (`none` being the nil slice). -/
structure ToolInputSchemaParam where
  Properties : Option GoMap
  Required : Option (List String) := none

/-- The type `anthropic.ToolParam`, with the fields the converters set. -/
structure ToolParam where
  Name : String
  Description : Option String
  InputSchema : ToolInputSchemaParam

/-- The union `anthropic.ToolUnionParam`, with the variant the converters
build. -/
structure ToolUnionParam where
  OfTool : Option ToolParam

/-- The function `FunctionDeclarationToTool` on a non-nil declaration. The
result is `none` where the Go code stops with a run-time panic: a nil
`*jsonschema.Schema` in `ParametersJsonSchema`, whose `Required` is read. -/
def FunctionDeclarationToTool (lib : GoLib) (fd : FunctionDeclaration) : Option ToolUnionParam :=
  let inputSchema : ToolInputSchemaParam := { Properties := some [] }
  let converted : Option ToolInputSchemaParam :=
    match fd.Parameters with
    | some parameters =>
      let props := schemaPropertiesToMap lib parameters.Properties
      let inputSchema :=
        if props.isSome then { inputSchema with Properties := props } else inputSchema
      let inputSchema :=
        if parameters.Required.length > 0 then
          { inputSchema with Required := some parameters.Required }
        else inputSchema
      some inputSchema
    | none =>
      match fd.ParametersJsonSchema with
      | .null => some inputSchema
      | .ofMap schema =>
        let inputSchema :=
          match goMapGet schema "properties" with
          | .map props => { inputSchema with Properties := props }
          | _ => inputSchema
        some { inputSchema with Required := extractRequiredFields (goMapGet schema "required") }
      | .ofSchema none => none
      | .ofSchema (some schema) =>
        let props := jsonSchemaToProperties (some schema)
        let inputSchema :=
          if props.isSome then { inputSchema with Properties := props } else inputSchema
        let inputSchema :=
          if schema.Required.length > 0 then { inputSchema with Required := some schema.Required }
          else inputSchema
        some inputSchema
      | .other _ => some inputSchema
  match converted with
  | none => none
  | some inputSchema =>
    some { OfTool := some { Name := fd.Name, Description := some fd.Description,
                            InputSchema := inputSchema } }

/-! ## Tool choice translator -/

/-- The string type `genai.FunctionCallingConfigMode`. -/
abbrev FunctionCallingConfigMode := String

/-- The genai constant `FunctionCallingConfigModeNone`. -/
def FunctionCallingConfigModeNone : FunctionCallingConfigMode := "NONE"

/-- The genai constant `FunctionCallingConfigModeAuto`. -/
def FunctionCallingConfigModeAuto : FunctionCallingConfigMode := "AUTO"

/-- The genai constant `FunctionCallingConfigModeAny`. -/
def FunctionCallingConfigModeAny : FunctionCallingConfigMode := "ANY"

/-- The type `genai.FunctionCallingConfig`. -/
structure FunctionCallingConfig where
  Mode : FunctionCallingConfigMode
  AllowedFunctionNames : List String

/-- The type `genai.ToolConfig`, with the field the converters read. -/
structure ToolConfig where
  FunctionCallingConfig : Option FunctionCallingConfig

/-- The type `anthropic.ToolChoiceAutoParam`. -/
structure ToolChoiceAutoParam where
  DisableParallelToolUse : Option Bool := none
  deriving DecidableEq

/-- The type `anthropic.ToolChoiceAnyParam`. -/
structure ToolChoiceAnyParam where
  DisableParallelToolUse : Option Bool := none
  deriving DecidableEq

/-- The type `anthropic.ToolChoiceToolParam`. -/
structure ToolChoiceToolParam where
  Name : String
  DisableParallelToolUse : Option Bool := none
  deriving DecidableEq

/-- The type `anthropic.ToolChoiceNoneParam`. -/
structure ToolChoiceNoneParam where
  deriving DecidableEq

/-- The union `anthropic.ToolChoiceUnionParam`: one pointer per variant. The
zero value, with no variant set, is the omitted directive. -/
structure ToolChoiceUnionParam where
  OfAuto : Option ToolChoiceAutoParam := none
  OfAny : Option ToolChoiceAnyParam := none
  OfTool : Option ToolChoiceToolParam := none
  OfNone : Option ToolChoiceNoneParam := none
  deriving DecidableEq

/-- The function `ToolConfigToToolChoice`. The result is the pair Go returns:
the directive and the error, `none` being the nil error. -/
def ToolConfigToToolChoice (config : Option ToolConfig) : ToolChoiceUnionParam × Option String :=
  match config with
  | none => ({}, none)
  | some config =>
    match config.FunctionCallingConfig with
    | none => ({}, none)
    | some fcc =>
      if fcc.AllowedFunctionNames.length > 1 then
        ({}, some ("Anthropic does not support multiple AllowedFunctionNames (got "
          ++ toString fcc.AllowedFunctionNames.length
          ++ "); use a single function name or remove the restriction"))
      else if fcc.Mode = FunctionCallingConfigModeNone then ({}, none)
      else if fcc.Mode = FunctionCallingConfigModeAuto then ({ OfAuto := some {} }, none)
      else if fcc.Mode = FunctionCallingConfigModeAny then
        match fcc.AllowedFunctionNames with
        | [name] => ({ OfTool := some { Name := name } }, none)
        | _ => ({ OfAny := some {} }, none)
      else ({ OfAuto := some {} }, none)

/-! ## Tool translators (structured-output surface) -/

/-- The type `anthropic.BetaToolInputSchemaParam`, as `ToolInputSchemaParam`. -/
structure BetaToolInputSchemaParam where
  Properties : Option GoMap
  Required : Option (List String) := none

/-- The type `anthropic.BetaToolParam`, with the fields the converters set. -/
structure BetaToolParam where
  Name : String
  Description : Option String
  InputSchema : BetaToolInputSchemaParam

/-- The union `anthropic.BetaToolUnionParam`, with the variant the converters
build. -/
structure BetaToolUnionParam where
  OfTool : Option BetaToolParam

/-- The function `FunctionDeclarationToBetaTool` on a non-nil declaration. The
result is `none` where the Go code stops with a run-time panic: a nil
`*jsonschema.Schema` in `ParametersJsonSchema`, whose `Required` is read. -/
def FunctionDeclarationToBetaTool (lib : GoLib) (fd : FunctionDeclaration) :
    Option BetaToolUnionParam :=
  let inputSchema : BetaToolInputSchemaParam := { Properties := some [] }
  let converted : Option BetaToolInputSchemaParam :=
    match fd.Parameters with
    | some parameters =>
      let props := schemaPropertiesToMap lib parameters.Properties
      let inputSchema :=
        if props.isSome then { inputSchema with Properties := props } else inputSchema
      let inputSchema :=
        if parameters.Required.length > 0 then
          { inputSchema with Required := some parameters.Required }
        else inputSchema
      some inputSchema
    | none =>
      match fd.ParametersJsonSchema with
      | .null => some inputSchema
      | .ofMap schema =>
        let inputSchema :=
          match goMapGet schema "properties" with
          | .map props => { inputSchema with Properties := props }
          | _ => inputSchema
        some { inputSchema with Required := extractRequiredFields (goMapGet schema "required") }
      | .ofSchema none => none
      | .ofSchema (some schema) =>
        let props := jsonSchemaToProperties (some schema)
        let inputSchema :=
          if props.isSome then { inputSchema with Properties := props } else inputSchema
        let inputSchema :=
          if schema.Required.length > 0 then { inputSchema with Required := some schema.Required }
          else inputSchema
        some inputSchema
      | .other _ => some inputSchema
  match converted with
  | none => none
  | some inputSchema =>
    some { OfTool := some { Name := fd.Name, Description := some fd.Description,
                            InputSchema := inputSchema } }

/-- The type `anthropic.BetaToolChoiceAutoParam`. -/
structure BetaToolChoiceAutoParam where
  DisableParallelToolUse : Option Bool := none
  deriving DecidableEq

/-- The type `anthropic.BetaToolChoiceAnyParam`. -/
structure BetaToolChoiceAnyParam where
  DisableParallelToolUse : Option Bool := none
  deriving DecidableEq

/-- The type `anthropic.BetaToolChoiceToolParam`. -/
structure BetaToolChoiceToolParam where
  Name : String
  DisableParallelToolUse : Option Bool := none
  deriving DecidableEq

/-- The type `anthropic.BetaToolChoiceNoneParam`. -/
structure BetaToolChoiceNoneParam where
  deriving DecidableEq

/-- The union `anthropic.BetaToolChoiceUnionParam`: one pointer per variant. The
zero value, with no variant set, is the omitted directive. -/
structure BetaToolChoiceUnionParam where
  OfAuto : Option BetaToolChoiceAutoParam := none
  OfAny : Option BetaToolChoiceAnyParam := none
  OfTool : Option BetaToolChoiceToolParam := none
  OfNone : Option BetaToolChoiceNoneParam := none
  deriving DecidableEq

/-- The function `ToolConfigToBetaToolChoice`. The result is the pair Go
returns: the directive and the error, `none` being the nil error. -/
def ToolConfigToBetaToolChoice (config : Option ToolConfig) :
    BetaToolChoiceUnionParam × Option String :=
  match config with
  | none => ({}, none)
  | some config =>
    match config.FunctionCallingConfig with
    | none => ({}, none)
    | some fcc =>
      if fcc.AllowedFunctionNames.length > 1 then
        ({}, some ("Anthropic does not support multiple AllowedFunctionNames (got "
          ++ toString fcc.AllowedFunctionNames.length
          ++ "); use a single function name or remove the restriction"))
      else if fcc.Mode = FunctionCallingConfigModeNone then ({}, none)
      else if fcc.Mode = FunctionCallingConfigModeAuto then ({ OfAuto := some {} }, none)
      else if fcc.Mode = FunctionCallingConfigModeAny then
        match fcc.AllowedFunctionNames with
        | [name] => ({ OfTool := some { Name := name } }, none)
        | _ => ({ OfAny := some {} }, none)
      else ({ OfAuto := some {} }, none)

/-! ## Markdown fence stripping

The two patterns of `anthropic.go` are Go regular expressions. They are embedded
as syntax trees (`Regex`) together with a backtracking matcher (`Regex.run`)
that tries the alternatives in the order of preference of Go's `regexp`
(leftmost-first: a greedy repetition tries the longest run first, a lazy one
the shortest, an option tries its body first, an alternation its left branch
first), and returns the first match found. Both patterns repeat single
characters only, so `Regex.star` is the repetition of a character set. -/

/-- The sets of characters the patterns use: one character, the class `\s` of
Go's `regexp` (tab, newline, form feed, carriage return, space) and, under the
flag `(?s)`, the dot that matches every character. -/
inductive CharSet where
  | one (c : Char) : CharSet
  | space : CharSet
  | any : CharSet

/-- The class `\s` of Go's `regexp`. -/
def isRegexSpace (c : Char) : Bool :=
  c == '\t' || c == '\n' || c == '\x0c' || c == '\r' || c == ' '

/-- Membership of a character in a set. -/
def CharSet.mem : CharSet → Char → Bool
  | .one c, d => c == d
  | .space, d => isRegexSpace d
  | .any, _ => true

/-- The syntax of the patterns. `group` is the capture group 1, `bot` is `^` and
`eot` is `$` (without the flag `m`: beginning and end of the text), `opt` is the
greedy `?`, `star true` is the greedy `*`, `star false` the lazy `*?`. -/
inductive Regex where
  | empty : Regex
  | chr (set : CharSet) : Regex
  | seq (a b : Regex) : Regex
  | alt (a b : Regex) : Regex
  | star (greedy : Bool) (set : CharSet) : Regex
  | opt (a : Regex) : Regex
  | group (a : Regex) : Regex
  | bot : Regex
  | eot : Regex

/-- The pattern of a literal string. -/
def Regex.str : List Char → Regex
  | [] => .empty
  | c :: cs => .seq (.chr (.one c)) (Regex.str cs)

/-- The sequence of a list of patterns. -/
def Regex.cat : List Regex → Regex
  | [] => .empty
  | [r] => r
  | r :: rs => .seq r (Regex.cat rs)

/-- The state of a match attempt: the number of characters before the current
position, the characters from the current position on, and the text of capture
group 1 if the group has been closed. -/
structure MatchState where
  pos : Nat
  rest : List Char
  cap : Option (List Char)

/-- The greedy repetition of a character set: the longest run is tried first. -/
def starGreedy (set : CharSet) (k : MatchState → Option MatchState) :
    Nat → List Char → Option (List Char) → Option MatchState
  | pos, [], cap => k ⟨pos, [], cap⟩
  | pos, c :: cs, cap =>
    if set.mem c then
      match starGreedy set k (pos + 1) cs cap with
      | some r => some r
      | none => k ⟨pos, c :: cs, cap⟩
    else k ⟨pos, c :: cs, cap⟩

/-- The lazy repetition of a character set: the shortest run is tried first. -/
def starLazy (set : CharSet) (k : MatchState → Option MatchState) :
    Nat → List Char → Option (List Char) → Option MatchState
  | pos, [], cap => k ⟨pos, [], cap⟩
  | pos, c :: cs, cap =>
    match k ⟨pos, c :: cs, cap⟩ with
    | some r => some r
    | none => if set.mem c then starLazy set k (pos + 1) cs cap else none

/-- The backtracking matcher: `run re st k` matches `re` at the state `st` and
hands the state after the match to the continuation `k`; when `k` fails the
next way of matching `re` is tried. -/
def Regex.run : Regex → MatchState → (MatchState → Option MatchState) → Option MatchState
  | .empty, st, k => k st
  | .chr set, st, k =>
    match st.rest with
    | [] => none
    | c :: cs => if set.mem c then k ⟨st.pos + 1, cs, st.cap⟩ else none
  | .seq a b, st, k => a.run st (fun st1 => b.run st1 k)
  | .alt a b, st, k =>
    match a.run st k with
    | some r => some r
    | none => b.run st k
  | .star true set, st, k => starGreedy set k st.pos st.rest st.cap
  | .star false set, st, k => starLazy set k st.pos st.rest st.cap
  | .opt a, st, k =>
    match a.run st k with
    | some r => some r
    | none => k st
  | .group a, st, k =>
    a.run st (fun st1 => k { st1 with cap := some (st.rest.take (st1.pos - st.pos)) })
  | .bot, st, k => if st.pos = 0 then k st else none
  | .eot, st, k =>
    match st.rest with
    | [] => k st
    | _ :: _ => none

/-- The leftmost match: the start positions are tried from left to right. The
result is the start position and the state at the end of the match. -/
def Regex.find (re : Regex) : Nat → List Char → Option (Nat × MatchState)
  | pos, [] =>
    match re.run ⟨pos, [], none⟩ some with
    | some st => some (pos, st)
    | none => none
  | pos, c :: cs =>
    match re.run ⟨pos, c :: cs, none⟩ some with
    | some st => some (pos, st)
    | none => re.find (pos + 1) cs

/-- Go's `(*Regexp).FindStringSubmatch` for a pattern with one capture group:
the text of the leftmost match and the text of group 1 (empty when the group
took no part in the match), or the nil slice when there is no match. -/
def FindStringSubmatch (re : Regex) (s : String) : List String :=
  match re.find 0 s.data with
  | none => []
  | some (start, st) =>
    [String.mk ((s.data.drop start).take (st.pos - start)), String.mk (st.cap.getD [])]

/-- The pattern `(?s)^\s*```(?:json)?\s*\n?(.*?)\s*```\s*$` of the strict match. -/
def markdownFenceRegex : Regex :=
  Regex.cat [.bot, .star true .space, Regex.str "```".data, .opt (Regex.str "json".data),
    .star true .space, .opt (.chr (.one '\n')), .group (.star false .any),
    .star true .space, Regex.str "```".data, .star true .space, .eot]

/-- The pattern `(?s)```(?:json)?\s*\n?(\{.*?\}|\[.*?\])\s*```` of the permissive
extraction. -/
def markdownFenceExtractRegex : Regex :=
  Regex.cat [Regex.str "```".data, .opt (Regex.str "json".data), .star true .space,
    .opt (.chr (.one '\n')),
    .group (.alt (Regex.cat [.chr (.one '{'), .star false .any, .chr (.one '}')])
      (Regex.cat [.chr (.one '['), .star false .any, .chr (.one ']')])),
    .star true .space, Regex.str "```".data]

/-- Go's `unicode.IsSpace`: the white space of Latin-1 and the characters of the
Unicode property `White_Space` beyond it. -/
def unicodeIsSpace (c : Char) : Bool :=
  let n := c.toNat
  (9 ≤ n && n ≤ 13) || n == 32 || n == 133 || n == 160 || n == 5760
    || (8192 ≤ n && n ≤ 8202) || n == 8232 || n == 8233 || n == 8239 || n == 8287
    || n == 12288

/-- Go's `strings.TrimSpace`: the white space at the beginning and at the end of
the string is removed. -/
def stringsTrimSpace (s : String) : String :=
  String.mk ((s.data.dropWhile unicodeIsSpace).reverse.dropWhile unicodeIsSpace).reverse

/-- The body of the loop of `stripMarkdownFromResponse` on the text of one
part: the strict pattern is tried first, then the permissive one; the text is
kept when neither matches. -/
def stripMarkdownText (text : String) : String :=
  let strict := FindStringSubmatch markdownFenceRegex text
  if strict.length > 1 then stringsTrimSpace (strict.getD 1 "")
  else
    let permissive := FindStringSubmatch markdownFenceExtractRegex text
    if permissive.length > 1 then stringsTrimSpace (permissive.getD 1 "")
    else text

/-- The type `model.LLMResponse`, with the fields the code reads or sets. -/
structure LLMResponse where
  Content : Option Content := none
  Partial : Bool := false
  TurnComplete : Bool := false

/-- The loop of `stripMarkdownFromResponse` on one part: nil parts and parts
with empty text are skipped. -/
def stripMarkdownPart (part : Option Part) : Option Part :=
  match part with
  | none => none
  | some part =>
    if part.Text = "" then some part
    else some { part with Text := stripMarkdownText part.Text }

/-- The function `stripMarkdownFromResponse`. The Go function updates the parts
in place; the embedding returns the response after the update. -/
def stripMarkdownFromResponse (resp : Option LLMResponse) : Option LLMResponse :=
  match resp with
  | none => none
  | some resp =>
    match resp.Content with
    | none => some resp
    | some content =>
      if content.Parts.length = 0 then some resp
      else
        some { resp with
          Content := some { content with Parts := content.Parts.map stripMarkdownPart } }

/-! ## Request builder and prompt-based JSON fallback -/

/-- The type `genai.Tool`, with the field the converters read. -/
structure Tool where
  FunctionDeclarations : List (Option FunctionDeclaration)

/-- The type `genai.GenerateContentConfig`, with the fields the code reads.
`Temperature`, `TopP` and `TopK` are `*float32` given by their bit pattern,
`MaxOutputTokens` is an `int32`. `Others` stands for the remaining fields of
the struct, by name, which the code copies and never reads. -/
structure GenerateContentConfig where
  SystemInstruction : Option Content := none
  Temperature : Option Nat := none
  TopP : Option Nat := none
  TopK : Option Nat := none
  StopSequences : List String := []
  MaxOutputTokens : Int := 0
  Tools : List (Option Tool) := []
  ToolConfig : Option ToolConfig := none
  ResponseSchema : Option Schema := none
  Others : List (String × GoValue) := []

/-- The type `model.LLMRequest`. `Tools` is a `map[string]any`. -/
structure LLMRequest where
  Model : String := ""
  Contents : List (Option Content) := []
  Config : Option GenerateContentConfig := none
  Tools : Option GoMap := none

/-- The constant `defaultMaxTokens`. -/
def defaultMaxTokens : Int := 4096

/-- The type `anthropicModel`, without the client. -/
structure anthropicModel where
  name : String
  variant : String
  defaultMaxTokens : Int

/-- The type `anthropic.TextBlockParam`, with the field the converters set. -/
structure TextBlockParam where
  Text : String

/-- The type `anthropic.MessageNewParams`, with the fields `convertRequest`
sets. An optional number is `none` when omitted; `Temperature` and `TopP` are
the `float64` equal to the `float32` of the given bit pattern (the conversion
is exact). A nil slice is the empty list, and the zero `ToolChoice` is the
omitted directive. -/
structure MessageNewParams where
  Model : String := ""
  Messages : List MessageParam := []
  MaxTokens : Int := 0
  System : List TextBlockParam := []
  Temperature : Option Nat := none
  TopP : Option Nat := none
  TopK : Option Int := none
  StopSequences : List String := []
  Tools : List ToolUnionParam := []
  ToolChoice : ToolChoiceUnionParam := {}

/-- The function `SystemInstructionToSystem`: one text block per non-nil part
with non-empty text. -/
def SystemInstructionToSystem (instruction : Option Content) : List TextBlockParam :=
  match instruction with
  | none => []
  | some instruction =>
    if instruction.Parts.length = 0 then []
    else
      instruction.Parts.filterMap fun part =>
        match part with
        | none => none
        | some part => if part.Text ≠ "" then some { Text := part.Text } else none

/-- The inner loop of `ToolsToAnthropicTools` over the declarations of one tool:
nil declarations are skipped. The result is `none` when
`FunctionDeclarationToTool` panics. -/
def declarationsToTools (lib : GoLib) :
    List (Option FunctionDeclaration) → List ToolUnionParam → Option (List ToolUnionParam)
  | [], result => some result
  | none :: rest, result => declarationsToTools lib rest result
  | some fd :: rest, result =>
    match FunctionDeclarationToTool lib fd with
    | none => none
    | some toolParam => declarationsToTools lib rest (result ++ [toolParam])

/-- The outer loop of `ToolsToAnthropicTools`: nil tools and tools without
declarations are skipped. -/
def toolsLoop (lib : GoLib) :
    List (Option Tool) → List ToolUnionParam → Option (List ToolUnionParam)
  | [], result => some result
  | none :: rest, result => toolsLoop lib rest result
  | some tool :: rest, result =>
    if tool.FunctionDeclarations.length = 0 then toolsLoop lib rest result
    else
      match declarationsToTools lib tool.FunctionDeclarations result with
      | none => none
      | some result => toolsLoop lib rest result

/-- The function `ToolsToAnthropicTools`; `none` is a panic. -/
def ToolsToAnthropicTools (lib : GoLib) (tools : List (Option Tool)) :
    Option (List ToolUnionParam) :=
  if tools.length = 0 then some [] else toolsLoop lib tools []

/-- The function `SchemaToJSONString`: the schema map rendered by
`json.MarshalIndent`, or `{}` when the rendering fails. -/
def SchemaToJSONString (lib : GoLib) (schema : Option Schema) : String :=
  match lib.jsonMarshalIndent (SchemaToMap lib schema) with
  | .error _ => "\x7b\x7d"
  | .ok b => b

/-- The function `convertRequest`. The result is `none` when the translation of
the tools panics; otherwise it is the request or the error Go returns. -/
def convertRequest (lib : GoLib) (m : anthropicModel) (req : LLMRequest) :
    Option (Except String MessageNewParams) :=
  match ContentsToMessages lib req.Contents with
  | .error err => some (.error ("failed to convert contents: " ++ err))
  | .ok messages =>
    let params : MessageNewParams :=
      { Model := m.name, Messages := messages, MaxTokens := m.defaultMaxTokens }
    match req.Config with
    | none => some (.ok params)
    | some config =>
      let params :=
        match config.SystemInstruction with
        | some instruction =>
          { params with System := SystemInstructionToSystem (some instruction) }
        | none => params
      let params :=
        match config.Temperature with
        | some t => { params with Temperature := some t }
        | none => params
      let params :=
        match config.TopP with
        | some p => { params with TopP := some p }
        | none => params
      let params :=
        match config.TopK with
        | some k => { params with TopK := some (lib.float32ToInt64 k) }
        | none => params
      let params :=
        if config.StopSequences.length > 0 then
          { params with StopSequences := config.StopSequences }
        else params
      let params :=
        if config.MaxOutputTokens > 0 then { params with MaxTokens := config.MaxOutputTokens }
        else params
      let withTools : Option MessageNewParams :=
        if config.Tools.length > 0 then
          match ToolsToAnthropicTools lib config.Tools with
          | none => none
          | some tools => some { params with Tools := tools }
        else some params
      match withTools with
      | none => none
      | some params =>
        match config.ToolConfig with
        | none => some (.ok params)
        | some toolConfig =>
          match ToolConfigToToolChoice (some toolConfig) with
          | (_, some err) => some (.error err)
          | (toolChoice, none) =>
            if toolChoice.OfAuto.isSome ∨ toolChoice.OfAny.isSome ∨ toolChoice.OfTool.isSome then
              some (.ok { params with ToolChoice := toolChoice })
            else some (.ok params)

/-- SDK constructor `genai.NewContentFromText`, for a role given explicitly. -/
def NewContentFromText (text : String) (role : String) : Content :=
  { Parts := [some { Text := text }], Role := role }

/-- The function `maybeAppendUserContent`. The Go function updates the request
in place; the embedding returns the request after the update. -/
def maybeAppendUserContent (req : LLMRequest) : LLMRequest :=
  if req.Contents.length = 0 then
    { req with
      Contents := req.Contents ++
        [some (NewContentFromText
          "Handle the requests as specified in the System Instruction." "user")] }
  else
    match req.Contents.getLast? with
    | some (some last) =>
      if last.Role ≠ "user" then
        { req with
          Contents := req.Contents ++
            [some (NewContentFromText
              "Continue processing previous requests as instructed." "user")] }
      else req
    | _ => req

/-- The instruction string of `generateWithPromptBasedJSON` around the rendered
schema. -/
def jsonInstruction (schemaJSON : String) : String :=
  "You must respond with valid JSON that conforms to the following JSON schema:\n\n"
    ++ schemaJSON
    ++ "\n\nRespond ONLY with the JSON object, no markdown code fences, no explanations."

/-- The loop of `generateWithPromptBasedJSON` over the parts of the existing
system instruction: every non-empty text is appended, followed by a blank
line. The result is `none` when a part is nil, which the loop dereferences. -/
def existingTextLoop : List (Option Part) → String → Option String
  | [], existingText => some existingText
  | none :: _, _ => none
  | some part :: rest, existingText =>
    if part.Text ≠ "" then existingTextLoop rest (existingText ++ (part.Text ++ "\n\n"))
    else existingTextLoop rest existingText

/-- The two requests at the end of the rewrite of `generateWithPromptBasedJSON`:
the caller's request, as it stands after the statements of the rewrite, and the
request the function builds. -/
structure PromptRewrite where
  caller : LLMRequest
  modified : LLMRequest

/-- The rewrite at the beginning of `generateWithPromptBasedJSON`, up to the
construction of `modifiedReq`. The statements assign to the local copy
`modifiedConfig` and to fresh values only, never through `req`, `req.Config`
or the instruction it points to, so the caller's request is handed on as it
was. The result is `none` when the function panics: on a nil config and on a
nil part of the existing system instruction. -/
def promptBasedJSONRequest (lib : GoLib) (req : LLMRequest) : Option PromptRewrite :=
  match req.Config with
  | none => none
  | some config =>
    let schemaJSON := SchemaToJSONString lib config.ResponseSchema
    let instruction := jsonInstruction schemaJSON
    let modifiedConfig := config
    let withInstruction : Option GenerateContentConfig :=
      match modifiedConfig.SystemInstruction with
      | none =>
        some { modifiedConfig with
          SystemInstruction := some { Parts := [some { Text := instruction }], Role := "" } }
      | some existing =>
        match existingTextLoop existing.Parts "" with
        | none => none
        | some existingText =>
          some { modifiedConfig with
            SystemInstruction :=
              some { Parts := [some { Text := existingText ++ instruction }],
                     Role := existing.Role } }
    match withInstruction with
    | none => none
    | some modifiedConfig =>
      let modifiedConfig := { modifiedConfig with ResponseSchema := none }
      some { caller := req,
             modified := { Model := req.Model, Contents := req.Contents,
                           Config := some modifiedConfig, Tools := req.Tools } }

/-! ### The rewrite of the fallback on the heap

The request of `generateWithPromptBasedJSON` is a pointer, and so are its
config, the system instruction and the response schema of the config, and the
parts of the instruction. Below, the statements of the rewrite are embedded a
second time, over a memory of cells with addresses: every read through a
pointer is a load, every composite literal whose address is taken is a new
cell, and every assignment to a field is a store at the address of the
variable. -/

/-- A `genai.Content` in memory: `Parts` holds the pointers of the slice
`[]*genai.Part` (nil is `none`). -/
structure ContentCell where
  Parts : List (Option Nat)
  Role : String

/-- A `genai.GenerateContentConfig` in memory. `SystemInstruction` and
`ResponseSchema` are the addresses the two pointers hold (nil is `none`); the
other fields, which the rewrite copies with the struct and never looks into,
are given as in `GenerateContentConfig`. -/
structure ConfigCell where
  SystemInstruction : Option Nat := none
  Temperature : Option Nat := none
  TopP : Option Nat := none
  TopK : Option Nat := none
  StopSequences : List String := []
  MaxOutputTokens : Int := 0
  Tools : List (Option Tool) := []
  ToolConfig : Option ToolConfig := none
  ResponseSchema : Option Nat := none
  Others : List (String × GoValue) := []

/-- A `model.LLMRequest` in memory. `Config` is the address the pointer holds;
the slice `Contents` and the map `Tools`, which the rewrite copies and never
looks into, are given as in `LLMRequest`. -/
structure RequestCell where
  Model : String := ""
  Contents : List (Option Content) := []
  Config : Option Nat := none
  Tools : Option GoMap := none

/-- The values the pointers of the rewrite point to. -/
inductive HeapCell where
  | request (r : RequestCell) : HeapCell
  | config (c : ConfigCell) : HeapCell
  | content (c : ContentCell) : HeapCell
  | part (p : Part) : HeapCell
  | schema (s : Schema) : HeapCell

/-- The memory: the cell at address `a` is `cells[a]`. -/
structure Heap where
  cells : List HeapCell

/-- The number of cells; the next new cell gets this address. -/
def Heap.size (h : Heap) : Nat := h.cells.length

/-- The cell at an address, if there is one. -/
def Heap.load (h : Heap) (a : Nat) : Option HeapCell := h.cells[a]?

/-- A new cell, at the address `h.size`. -/
def Heap.push (h : Heap) (c : HeapCell) : Heap := ⟨h.cells ++ [c]⟩

/-- The cell at an address is overwritten. -/
def Heap.store (h : Heap) (a : Nat) (c : HeapCell) : Heap := ⟨h.cells.set a c⟩

/-- The request a pointer points to. -/
def Heap.loadRequest (h : Heap) (a : Nat) : Option RequestCell :=
  match h.load a with
  | some (.request r) => some r
  | _ => none

/-- The config a pointer points to. -/
def Heap.loadConfig (h : Heap) (a : Nat) : Option ConfigCell :=
  match h.load a with
  | some (.config c) => some c
  | _ => none

/-- The content a pointer points to. -/
def Heap.loadContent (h : Heap) (a : Nat) : Option ContentCell :=
  match h.load a with
  | some (.content c) => some c
  | _ => none

/-- The part a pointer points to. -/
def Heap.loadPart (h : Heap) (a : Nat) : Option Part :=
  match h.load a with
  | some (.part p) => some p
  | _ => none

/-- The schema behind a `*genai.Schema`, nil or not, as the converters take it;
`none` when the pointer points to no schema. -/
def Heap.loadSchema (h : Heap) (p : Option Nat) : Option (Option Schema) :=
  match p with
  | none => some none
  | some a =>
    match h.load a with
    | some (.schema s) => some (some s)
    | _ => none

/-- An assignment to fields of the config at an address. -/
def Heap.assignConfig (h : Heap) (a : Nat) (f : ConfigCell → ConfigCell) : Option Heap :=
  match h.loadConfig a with
  | none => none
  | some c => some (h.store a (.config (f c)))

/-- The loop of `generateWithPromptBasedJSON` over the parts of the existing
system instruction, on the heap: every part is read through its pointer. The
result is `none` on a nil pointer, which the loop dereferences. -/
def existingTextLoopHeap (h : Heap) : List (Option Nat) → String → Option String
  | [], existingText => some existingText
  | none :: _, _ => none
  | some a :: rest, existingText =>
    match h.loadPart a with
    | none => none
    | some part =>
      if part.Text ≠ "" then
        existingTextLoopHeap h rest (existingText ++ (part.Text ++ "\n\n"))
      else existingTextLoopHeap h rest existingText

/-- The branch of the rewrite on `modifiedConfig.SystemInstruction`, for the
local variable at the address `modifiedConfig`: the new part and the new
content are new cells, and the assignment is a store at `modifiedConfig`. -/
def assignInstructionHeap (h : Heap) (modifiedConfig : Nat) (instruction : String) :
    Option Heap :=
  match h.loadConfig modifiedConfig with
  | none => none
  | some c =>
    match c.SystemInstruction with
    | none =>
      let part := h.size
      let h := h.push (.part { Text := instruction })
      let content := h.size
      let h := h.push (.content { Parts := [some part], Role := "" })
      h.assignConfig modifiedConfig fun c => { c with SystemInstruction := some content }
    | some existing =>
      match h.loadContent existing with
      | none => none
      | some existingContent =>
        match existingTextLoopHeap h existingContent.Parts "" with
        | none => none
        | some existingText =>
          let part := h.size
          let h := h.push (.part { Text := existingText ++ instruction })
          let content := h.size
          let h := h.push (.content { Parts := [some part], Role := existingContent.Role })
          h.assignConfig modifiedConfig fun c => { c with SystemInstruction := some content }

/-- The rewrite at the beginning of `generateWithPromptBasedJSON` on the heap,
up to the construction of `modifiedReq`, for the request at the address `req`.
The statement `modifiedConfig := *req.Config` makes a new cell with the fields
of the caller's config, and the two assignments to fields of `modifiedConfig`
are stores at the address of that cell; the fields of `req` that the literal of
`modifiedReq` copies are read from the heap as it is then. The result is the
heap after the statements and the pointer `modifiedReq`; it is `none` when the
function panics (nil config, nil part of the existing system instruction) or
when a pointer does not point to a value of its type. -/
def promptBasedJSONRequestHeap (lib : GoLib) (h : Heap) (req : Nat) : Option (Heap × Nat) :=
  match h.loadRequest req with
  | none => none
  | some request =>
    match request.Config with
    | none => none
    | some reqConfig =>
      match h.loadConfig reqConfig with
      | none => none
      | some config =>
        match h.loadSchema config.ResponseSchema with
        | none => none
        | some schema =>
          let schemaJSON := SchemaToJSONString lib schema
          let instruction := jsonInstruction schemaJSON
          let modifiedConfig := h.size
          let h := h.push (.config config)
          match assignInstructionHeap h modifiedConfig instruction with
          | none => none
          | some h =>
            match h.assignConfig modifiedConfig fun c => { c with ResponseSchema := none } with
            | none => none
            | some h =>
              match h.loadRequest req with
              | none => none
              | some request =>
                let modifiedReq := h.size
                let h := h.push
                  (.request { Model := request.Model, Contents := request.Contents,
                              Config := some modifiedConfig, Tools := request.Tools })
                some (h, modifiedReq)

/-! ## Model construction and the structured-output request builder -/

/-- The type `Config` of the package, with the fields `NewModel` and its client
constructors read. `DefaultMaxTokens` is a Go `int`. -/
structure Config where
  APIKey : String := ""
  Variant : String := ""
  VertexProjectID : String := ""
  VertexLocation : String := ""
  DefaultMaxTokens : Int := 0

/-- Modelled from the spec: the declarations of the deployment variant, which
`NewModel` uses and which lie outside the sources at hand, as unknown values:
the constant `VariantVertexAI` and the function `GetVariant`, which looks the
variant up in the environment of the process. -/
structure VariantDecls where
  VariantVertexAI : String
  GetVariant : (String → String) → String

/-- The function `NewModel`. `getenv` is Go's `os.Getenv` in the environment of
the process. The clients that `newVertexClient` and `newAPIClient` build are
not part of `anthropicModel` here; a nil `cfg` stands for the empty config. -/
def NewModel (decls : VariantDecls) (getenv : String → String) (modelName : String)
    (cfg : Option Config) : Except String anthropicModel :=
  let cfg : Config := cfg.getD {}
  let variant := cfg.Variant
  let variant := if variant = "" then decls.GetVariant getenv else variant
  let checked : Except String Unit :=
    if variant = decls.VariantVertexAI then
      let projectID := cfg.VertexProjectID
      let projectID := if projectID = "" then getenv "GOOGLE_CLOUD_PROJECT" else projectID
      if projectID = "" then
        .error "VertexProjectID is required for Vertex AI (set GOOGLE_CLOUD_PROJECT)"
      else
        let location := cfg.VertexLocation
        let location := if location = "" then getenv "GOOGLE_CLOUD_LOCATION" else location
        if location = "" then
          .error "VertexLocation is required for Vertex AI (set GOOGLE_CLOUD_LOCATION)"
        else .ok ()
    else .ok ()
  match checked with
  | .error err => .error err
  | .ok _ =>
    let maxTokens := cfg.DefaultMaxTokens
    let maxTokens := if maxTokens = 0 then defaultMaxTokens else maxTokens
    .ok { name := modelName, variant := variant, defaultMaxTokens := maxTokens }

/-- The type `anthropic.BetaTextBlockParam`, with the field the converters
set. -/
structure BetaTextBlockParam where
  Text : String

/-- The function `SystemInstructionToBetaSystem`: one text block per non-nil
part with non-empty text. -/
def SystemInstructionToBetaSystem (instruction : Option Content) : List BetaTextBlockParam :=
  match instruction with
  | none => []
  | some instruction =>
    if instruction.Parts.length = 0 then []
    else
      instruction.Parts.filterMap fun part =>
        match part with
        | none => none
        | some part => if part.Text ≠ "" then some { Text := part.Text } else none

/-- The inner loop of `ToolsToBetaAnthropicTools` over the declarations of one
tool: nil declarations are skipped. The result is `none` when
`FunctionDeclarationToBetaTool` panics. -/
def declarationsToBetaTools (lib : GoLib) :
    List (Option FunctionDeclaration) → List BetaToolUnionParam
      → Option (List BetaToolUnionParam)
  | [], result => some result
  | none :: rest, result => declarationsToBetaTools lib rest result
  | some fd :: rest, result =>
    match FunctionDeclarationToBetaTool lib fd with
    | none => none
    | some toolParam => declarationsToBetaTools lib rest (result ++ [toolParam])

/-- The outer loop of `ToolsToBetaAnthropicTools`: nil tools and tools without
declarations are skipped. -/
def betaToolsLoop (lib : GoLib) :
    List (Option Tool) → List BetaToolUnionParam → Option (List BetaToolUnionParam)
  | [], result => some result
  | none :: rest, result => betaToolsLoop lib rest result
  | some tool :: rest, result =>
    if tool.FunctionDeclarations.length = 0 then betaToolsLoop lib rest result
    else
      match declarationsToBetaTools lib tool.FunctionDeclarations result with
      | none => none
      | some result => betaToolsLoop lib rest result

/-- The function `ToolsToBetaAnthropicTools`; `none` is a panic. -/
def ToolsToBetaAnthropicTools (lib : GoLib) (tools : List (Option Tool)) :
    Option (List BetaToolUnionParam) :=
  if tools.length = 0 then some [] else betaToolsLoop lib tools []

/-- The type `anthropic.BetaJSONOutputFormatParam`, with the schema. -/
structure BetaJSONOutputFormatParam where
  Schema : Option GoMap

/-- SDK constructor `anthropic.BetaJSONSchemaOutputFormat`. -/
def BetaJSONSchemaOutputFormat (jsonSchema : Option GoMap) : BetaJSONOutputFormatParam :=
  { Schema := jsonSchema }

/-- The type `anthropic.BetaMessageNewParams`, with the fields
`convertBetaRequest` sets, as `MessageNewParams`. `OutputFormat` is `none` when
omitted. -/
structure BetaMessageNewParams where
  Model : String := ""
  Messages : List BetaMessageParam := []
  MaxTokens : Int := 0
  Betas : List String := []
  System : List BetaTextBlockParam := []
  Temperature : Option Nat := none
  TopP : Option Nat := none
  TopK : Option Int := none
  StopSequences : List String := []
  OutputFormat : Option BetaJSONOutputFormatParam := none
  Tools : List BetaToolUnionParam := []
  ToolChoice : BetaToolChoiceUnionParam := {}

/-- The function `convertBetaRequest`. The result is `none` when the
translation of the tools panics; otherwise it is the request or the error Go
returns. -/
def convertBetaRequest (lib : GoLib) (m : anthropicModel) (req : LLMRequest) :
    Option (Except String BetaMessageNewParams) :=
  match ContentsToBetaMessages lib req.Contents with
  | .error err => some (.error ("failed to convert contents: " ++ err))
  | .ok messages =>
    let params : BetaMessageNewParams :=
      { Model := m.name, Messages := messages, MaxTokens := m.defaultMaxTokens,
        Betas := ["structured-outputs-2025-11-13"] }
    match req.Config with
    | none => some (.ok params)
    | some config =>
      let params :=
        match config.SystemInstruction with
        | some instruction =>
          { params with System := SystemInstructionToBetaSystem (some instruction) }
        | none => params
      let params :=
        match config.Temperature with
        | some t => { params with Temperature := some t }
        | none => params
      let params :=
        match config.TopP with
        | some p => { params with TopP := some p }
        | none => params
      let params :=
        match config.TopK with
        | some k => { params with TopK := some (lib.float32ToInt64 k) }
        | none => params
      let params :=
        if config.StopSequences.length > 0 then
          { params with StopSequences := config.StopSequences }
        else params
      let params :=
        if config.MaxOutputTokens > 0 then { params with MaxTokens := config.MaxOutputTokens }
        else params
      let params :=
        match config.ResponseSchema with
        | some schema =>
          { params with
            OutputFormat := some (BetaJSONSchemaOutputFormat (SchemaToMap lib (some schema))) }
        | none => params
      let withTools : Option BetaMessageNewParams :=
        if config.Tools.length > 0 then
          match ToolsToBetaAnthropicTools lib config.Tools with
          | none => none
          | some tools => some { params with Tools := tools }
        else some params
      match withTools with
      | none => none
      | some params =>
        match config.ToolConfig with
        | none => some (.ok params)
        | some toolConfig =>
          match ToolConfigToBetaToolChoice (some toolConfig) with
          | (_, some err) => some (.error err)
          | (toolChoice, none) =>
            if toolChoice.OfAuto.isSome ∨ toolChoice.OfAny.isSome ∨ toolChoice.OfTool.isSome then
              some (.ok { params with ToolChoice := toolChoice })
            else some (.ok params)

/-! ## Streaming -/

/-- The events of the SDK stream, as far as the switch of `generateStream` tells
them apart: a `ContentBlockDeltaEvent` whose delta is a `TextDelta`, one whose
delta is a `ThinkingDelta`, one with another delta, and any other event. `desc`
stands for the payload the code does not read. -/
inductive StreamEvent where
  | textDelta (text : String) : StreamEvent
  | thinkingDelta (thinking : String) : StreamEvent
  | otherDelta (desc : String) : StreamEvent
  | other (desc : String) : StreamEvent

/-- The SDK stream as the loop of `generateStream` sees it: `Next` delivers the
events in order and then returns false, after which `Err` returns `err`, `none`
being the nil error. -/
structure EventStream where
  events : List StreamEvent
  err : Option String

/-- Modelled from the spec: the function `StreamDeltaToPartialResponse` of
`converters/response.go`, a partial response of the model with the text of the
delta as its one part. -/
def StreamDeltaToPartialResponse (text : String) : LLMResponse :=
  { Content := some { Role := "model", Parts := [some { Text := text }] }, Partial := true }

/-- Modelled from the spec: the function `StreamThinkingDeltaToPartialResponse`
of `converters/response.go`, a partial response of the model with the reasoning
text of the delta as its one part, marked as a thought. -/
def StreamThinkingDeltaToPartialResponse (thinking : String) : LLMResponse :=
  { Content := some { Role := "model", Parts := [some { Text := thinking, Thought := true }] },
    Partial := true }

/-- The functions of the accumulation whose definition is not at hand, over the
type `M` of the SDK's `anthropic.Message`. -/
structure StreamDeps (M : Type) where
  /-- The zero value `anthropic.Message{}`. -/
  zero : M
  /-- The SDK method `(*Message).Accumulate`: the message after the event, or
  the error. -/
  Accumulate : M → StreamEvent → Except String M
  /-- Modelled from the spec: the function `MessageToLLMResponse` of
  `converters/response.go` on a non-nil message, the response or the error. -/
  MessageToLLMResponse : M → Except String LLMResponse

/-- One call of `yield`: a response with the nil error, or the nil response
with an error. -/
inductive Emission where
  | resp (r : LLMResponse) : Emission
  | err (e : String) : Emission

/-- What a run of `generateStream` did: the calls of `yield` in order, and the
number of events taken from the stream. -/
structure StreamRun where
  emitted : List Emission
  processed : Nat

/-- The loop of `generateStream` and the statements after it. `consumer` is the
caller's `yield`: it gets the emissions so far, the last being the current one,
and answers whether to go on. -/
def streamLoop {M : Type} (deps : StreamDeps M) (consumer : List Emission → Bool)
    (err : Option String) : List StreamEvent → M → List Emission → Nat → StreamRun
  | [], message, emitted, processed =>
    match err with
    | some e => { emitted := emitted ++ [.err ("stream error: " ++ e)], processed := processed }
    | none =>
      match deps.MessageToLLMResponse message with
      | .error e =>
        { emitted := emitted ++ [.err ("failed to convert stream response: " ++ e)],
          processed := processed }
      | .ok finalResp =>
        { emitted := emitted ++ [.resp { finalResp with TurnComplete := true }],
          processed := processed }
  | event :: rest, message, emitted, processed =>
    match deps.Accumulate message event with
    | .error e =>
      { emitted := emitted ++ [.err ("failed to accumulate message: " ++ e)],
        processed := processed + 1 }
    | .ok message =>
      match event with
      | .textDelta text =>
        let resp := Emission.resp (StreamDeltaToPartialResponse text)
        if consumer (emitted ++ [resp]) then
          streamLoop deps consumer err rest message (emitted ++ [resp]) (processed + 1)
        else { emitted := emitted ++ [resp], processed := processed + 1 }
      | .thinkingDelta thinking =>
        let resp := Emission.resp (StreamThinkingDeltaToPartialResponse thinking)
        if consumer (emitted ++ [resp]) then
          streamLoop deps consumer err rest message (emitted ++ [resp]) (processed + 1)
        else { emitted := emitted ++ [resp], processed := processed + 1 }
      | _ => streamLoop deps consumer err rest message emitted (processed + 1)

/-- The function `generateStream`, run against the consumer. `transport` is the
SDK call `Messages.NewStreaming`: the stream the provider answers the request
with. The result is `none` when `convertRequest` panics. -/
def generateStream {M : Type} (lib : GoLib) (deps : StreamDeps M) (m : anthropicModel)
    (transport : MessageNewParams → EventStream) (req : LLMRequest)
    (consumer : List Emission → Bool) : Option StreamRun :=
  match convertRequest lib m req with
  | none => none
  | some (.error e) =>
    some { emitted := [.err ("failed to convert request: " ++ e)], processed := 0 }
  | some (.ok params) =>
    let stream := transport params
    some (streamLoop deps consumer stream.err stream.events deps.zero [] 0)

/-! ## Auxiliary definitions for the statements -/

/-- The part of `json.Marshal` the concrete inputs below need: the empty map is
rendered as `{}`, and a map whose first entry holds a value outside the JSON
data model (a channel, a function) is rejected with Go's error for it. Other
maps are not rendered by this instance. -/
def sampleMarshal : GoMap → Except String String
  | [] => .ok "{}"
  | (_, .other desc) :: _ => .error ("json: unsupported type: " ++ desc)
  | _ => .error "json: unsupported value"

/-- Whether a value lies outside the JSON data model, with the name of its
type. -/
def GoValue.unsupported : GoValue → Option String
  | .other desc => some desc
  | _ => none

/-- The part of `json.MarshalIndent` with the indent of two spaces the concrete
inputs below need: the nil map is rendered as `null`, the empty map as `{}`, a
map with an entry outside the JSON data model is rejected with Go's error for
it, and a map of one entry whose key and string value need no escaping is
rendered on three lines. Other maps are not rendered by this instance. -/
def sampleMarshalIndent : Option GoMap → Except String String
  | none => .ok "null"
  | some [] => .ok "\x7b\x7d"
  | some kvs =>
    match kvs.findSome? (fun kv => kv.2.unsupported) with
    | some desc => .error ("json: unsupported type: " ++ desc)
    | none =>
      match kvs with
      | [(key, .str value)] =>
        .ok ("\x7b\n  \"" ++ key ++ "\": \"" ++ value ++ "\"\n\x7d")
      | _ => .error "json: unsupported value"

/-- Go's conversion `int64(x)` of a `float32` on amd64: the value is truncated
towards zero; a value outside the range of `int64` and NaN give the least
`int64`. -/
def sampleFloat32ToInt64 (bits : Nat) : Int :=
  let e := bits / 2 ^ 23 % 256
  let m := bits % 2 ^ 23
  let mag : Nat :=
    if e = 0 then 0
    else if e < 150 then (2 ^ 23 + m) / 2 ^ (150 - e)
    else (2 ^ 23 + m) * 2 ^ (e - 150)
  if e = 255 ∨ mag ≥ 2 ^ 63 then -(2 ^ 63 : Int)
  else if bits / 2 ^ 31 % 2 = 1 then -(mag : Int)
  else (mag : Int)

/-- A library instance for evaluating the converters on concrete inputs: runes
outside ASCII are left unchanged, `json.Marshal` is `sampleMarshal`,
`json.MarshalIndent` is `sampleMarshalIndent` and the conversion of a
`float32` to `int64` is `sampleFloat32ToInt64`. On ASCII role and MIME strings
and on nil payloads the converters never consult the library. -/
def sampleLib : GoLib where
  unicodeToLower := fun c => c
  jsonMarshal := sampleMarshal
  jsonMarshalIndent := sampleMarshalIndent
  float32ToInt64 := sampleFloat32ToInt64

/-- What a pattern matches, stated without the matcher: `re.Matches pos x rest`
says that `re` matches the text `x` when `pos` characters precede it and `rest`
follows it. -/
def Regex.Matches : Regex → Nat → List Char → List Char → Prop
  | .empty, _, x, _ => x = []
  | .chr set, _, x, _ => ∃ c, x = [c] ∧ set.mem c = true
  | .seq a b, pos, x, rest =>
    ∃ x1 x2, x = x1 ++ x2 ∧ a.Matches pos x1 (x2 ++ rest) ∧ b.Matches (pos + x1.length) x2 rest
  | .alt a b, pos, x, rest => a.Matches pos x rest ∨ b.Matches pos x rest
  | .star _ set, _, x, _ => ∀ c ∈ x, set.mem c = true
  | .opt a, pos, x, rest => x = [] ∨ a.Matches pos x rest
  | .group a, pos, x, rest => a.Matches pos x rest
  | .bot, pos, x, _ => x = [] ∧ pos = 0
  | .eot, _, x, rest => x = [] ∧ rest = []

/-- All characters of a text are in the class `\s`. -/
def AllRegexSpace (l : List Char) : Prop :=
  ∀ c ∈ l, isRegexSpace c = true

/-- The end of the strict pattern, from the white space before the closing
fence on: `\s*```\s*$`. -/
def fenceTail : Regex :=
  Regex.cat [.star true .space, Regex.str "```".data, .star true .space, .eot]

/-- The strict pattern from the capture group on: `(.*?)\\s*```\\s*$`. -/
def fenceBody : Regex :=
  .seq (.group (.star false .any)) fenceTail

/-- The text holds two occurrences of the triple backtick that do not
overlap. -/
def HasTwoFences (l : List Char) : Prop :=
  ∃ a b c, l = a ++ "```".data ++ b ++ "```".data ++ c

/-- The text holds four occurrences of the triple backtick that do not
overlap. -/
def HasFourFences (l : List Char) : Prop :=
  ∃ a b c d e, l = a ++ "```".data ++ b ++ "```".data ++ c ++ "```".data ++ d ++ "```".data ++ e

/-- The pattern has no capture group. -/
def Regex.groupFree : Regex → Bool
  | .empty => true
  | .chr _ => true
  | .seq a b => a.groupFree && b.groupFree
  | .alt a b => a.groupFree && b.groupFree
  | .star _ _ => true
  | .opt a => a.groupFree
  | .group _ => false
  | .bot => true
  | .eot => true

/-- The end of the permissive pattern, after the capture group: `\s*```` and
the closing fence. -/
def fenceClose : Regex :=
  .seq (.star true .space) (Regex.str "```".data)

/-- The body of the capture group of the permissive pattern:
`\{.*?\}|\[.*?\]`. -/
def fencedJSON : Regex :=
  .alt (Regex.cat [.chr (.one '{'), .star false .any, .chr (.one '}')])
    (Regex.cat [.chr (.one '['), .star false .any, .chr (.one ']')])

/-- The texts of the parts of a response, in order; a nil part counts as the
empty text. -/
def responseTexts (resp : Option LLMResponse) : List String :=
  match resp with
  | none => []
  | some resp =>
    match resp.Content with
    | none => []
    | some content => content.Parts.map (fun part => (part.map (fun p => p.Text)).getD "")

/-- The partial response `generateStream` emits for an event, if any. -/
def partialOf : StreamEvent → Option Emission
  | .textDelta text => some (.resp (StreamDeltaToPartialResponse text))
  | .thinkingDelta thinking => some (.resp (StreamThinkingDeltaToPartialResponse thinking))
  | _ => none

/-- The partial responses of a sequence of events, in the order of the
events. -/
def streamPartials (events : List StreamEvent) : List Emission :=
  events.filterMap partialOf

/-- The message after a sequence of events, or the first error of the
accumulation. -/
def accumulateAll {M : Type} (deps : StreamDeps M) : M → List StreamEvent → Except String M
  | message, [] => .ok message
  | message, event :: rest =>
    match deps.Accumulate message event with
    | .error e => .error e
    | .ok message => accumulateAll deps message rest

/-- Whether an emission is a response marked as the complete turn. -/
def Emission.isComplete : Emission → Bool
  | .resp r => r.TurnComplete
  | .err _ => false

/-- Modelled from the spec: an accumulation for concrete streams, with the
accumulated text as the message. A text delta appends its text, a delta that
is neither text nor reasoning is rejected, every other event leaves the message
as it is, and the conversion gives the response of the model with the text as
its one part. -/
def sampleStreamDeps : StreamDeps String where
  zero := ""
  Accumulate := fun message event =>
    match event with
    | .textDelta text => .ok (message ++ text)
    | .otherDelta desc => .error ("unexpected delta: " ++ desc)
    | _ => .ok message
  MessageToLLMResponse := fun message =>
    .ok { Content := some { Role := "model", Parts := [some { Text := message }] } }

/-- The non-empty texts of the parts, in order, each followed by a blank
line. -/
def blankLineJoined : List (Option Part) → String
  | [] => ""
  | none :: rest => blankLineJoined rest
  | some part :: rest =>
    if part.Text ≠ "" then part.Text ++ "\n\n" ++ blankLineJoined rest
    else blankLineJoined rest

/-- The text of the system instruction of a config: the texts of its parts one
after the other, as the test of the fallback reads it. -/
def systemText (config : GenerateContentConfig) : String :=
  match config.SystemInstruction with
  | none => ""
  | some instruction =>
    String.join (instruction.Parts.map fun part => (part.map fun p => p.Text).getD "")

/-- The config of the request the rewrite builds. -/
def rewrittenConfig (lib : GoLib) (req : LLMRequest) : Option GenerateContentConfig :=
  match promptBasedJSONRequest lib req with
  | none => none
  | some r => r.modified.Config

/-- The system instruction the fallback is to build: one text part that holds
the non-empty texts of the existing instruction, each followed by a blank line,
and then the JSON instruction; the role of the existing instruction is kept.
Without existing instruction the part holds the JSON instruction alone. -/
def rewrittenInstruction (lib : GoLib) (config : GenerateContentConfig) : Content :=
  let instruction := jsonInstruction (SchemaToJSONString lib config.ResponseSchema)
  match config.SystemInstruction with
  | none => { Role := "", Parts := [some { Text := instruction }] }
  | some existing =>
    { Role := existing.Role,
      Parts := [some { Text := blankLineJoined existing.Parts ++ instruction }] }

/-- A schema with a type and nothing else, for concrete inputs. -/
def sampleBareObjectSchema : Schema :=
  { Type_ := "OBJECT", Items := none, Properties := none, AnyOf := [] }

/-- A schema with a type whose default is a channel, a value JSON cannot
render, for concrete inputs. -/
def sampleChannelSchema : Schema :=
  { Type_ := "OBJECT", Default := .other "chan int", Items := none, Properties := none,
    AnyOf := [] }

/-- A config with a system instruction, a temperature of one half, a token
limit and a response schema, for concrete inputs. -/
def sampleFallbackConfig : GenerateContentConfig :=
  { SystemInstruction :=
      some { Role := "system", Parts := [some { Text := "You are a helpful assistant." }] },
    Temperature := some 1056964608,
    MaxOutputTokens := 1024,
    ResponseSchema := some sampleBareObjectSchema }

/-- A request of one user turn with `sampleFallbackConfig`, for concrete
inputs. -/
def sampleFallbackRequest : LLMRequest :=
  { Model := "claude-sonnet-4",
    Contents := [some { Role := "user", Parts := [some { Text := "Hello" }] }],
    Config := some sampleFallbackConfig }

/-- The part behind a pointer of a slice of parts: nil is the nil part; `none`
when the pointer points to no part. -/
def Heap.readPart (h : Heap) (p : Option Nat) : Option (Option Part) :=
  match p with
  | none => some none
  | some a =>
    match h.loadPart a with
    | none => none
    | some part => some (some part)

/-- The parts behind the pointers of a slice. -/
def Heap.readParts (h : Heap) : List (Option Nat) → Option (List (Option Part))
  | [] => some []
  | p :: rest =>
    match h.readPart p, h.readParts rest with
    | some part, some parts => some (part :: parts)
    | _, _ => none

/-- The content behind a `*genai.Content`, with its parts. -/
def Heap.readContent (h : Heap) (p : Option Nat) : Option (Option Content) :=
  match p with
  | none => some none
  | some a =>
    match h.loadContent a with
    | none => none
    | some c =>
      match h.readParts c.Parts with
      | none => none
      | some parts => some (some { Role := c.Role, Parts := parts })

/-- The config at an address, with the values its pointers point to. -/
def Heap.readConfig (h : Heap) (a : Nat) : Option GenerateContentConfig :=
  match h.loadConfig a with
  | none => none
  | some c =>
    match h.readContent c.SystemInstruction, h.loadSchema c.ResponseSchema with
    | some instruction, some schema =>
      some { SystemInstruction := instruction, Temperature := c.Temperature, TopP := c.TopP,
             TopK := c.TopK, StopSequences := c.StopSequences,
             MaxOutputTokens := c.MaxOutputTokens, Tools := c.Tools,
             ToolConfig := c.ToolConfig, ResponseSchema := schema, Others := c.Others }
    | _, _ => none

/-- The request at an address, with the values its pointers point to: what a
reader of the request sees in the heap. -/
def Heap.readRequest (h : Heap) (a : Nat) : Option LLMRequest :=
  match h.loadRequest a with
  | none => none
  | some r =>
    match r.Config with
    | none => some { Model := r.Model, Contents := r.Contents, Config := none, Tools := r.Tools }
    | some config =>
      match h.readConfig config with
      | none => none
      | some c =>
        some { Model := r.Model, Contents := r.Contents, Config := some c, Tools := r.Tools }

/-- A heap with the request `sampleFallbackRequest` at the address 4: the
schema, the part and the content of its system instruction, its config and the
request, for concrete inputs. -/
def sampleFallbackHeap : Heap :=
  ⟨[.schema sampleBareObjectSchema,
    .part { Text := "You are a helpful assistant." },
    .content { Parts := [some 1], Role := "system" },
    .config { SystemInstruction := some 2, Temperature := some 1056964608,
              MaxOutputTokens := 1024, ResponseSchema := some 0 },
    .request { Model := "claude-sonnet-4",
               Contents := [some { Role := "user", Parts := [some { Text := "Hello" }] }],
               Config := some 3 }]⟩

/-- The heap the rewrite is to leave, for a caller's request cell `r` with the
config cell `c`: the cells of the caller, followed by the copy of the config
with the new instruction and without schema, the new part with the given text,
the new content with the given role, and the new request. -/
def rewrittenHeap (h : Heap) (r : RequestCell) (c : ConfigCell) (text role : String) : Heap :=
  ⟨h.cells ++
    [.config { c with SystemInstruction := some (h.size + 2), ResponseSchema := none },
     .part { Text := text },
     .content { Parts := [some (h.size + 1)], Role := role },
     .request { Model := r.Model, Contents := r.Contents, Config := some h.size,
                Tools := r.Tools }]⟩

/-- A config whose system instruction has one part with empty text, for
concrete inputs. -/
def sampleEmptyInstructionConfig : GenerateContentConfig :=
  { SystemInstruction := some { Role := "system", Parts := [some { Text := "" }] },
    ResponseSchema := some sampleBareObjectSchema }

/-- Modelled from the spec: variant declarations for concrete inputs, with
`vertex_ai` as the constant `VariantVertexAI` and a `GetVariant` that answers
`anthropic_api` in every environment. -/
def sampleVariantDecls : VariantDecls where
  VariantVertexAI := "vertex_ai"
  GetVariant := fun _ => "anthropic_api"

/-- The max-tokens value a request is to carry: the `MaxOutputTokens` of its
config when that is greater than zero, and the default of the model
otherwise. -/
def requestMaxTokens (m : anthropicModel) (req : LLMRequest) : Int :=
  match req.Config with
  | none => m.defaultMaxTokens
  | some config => if config.MaxOutputTokens > 0 then config.MaxOutputTokens else m.defaultMaxTokens

/-- The default max-tokens value of the model built from a config: its
`DefaultMaxTokens` when that is not zero, and 4096 when it is zero or no config
is given. -/
def configMaxTokens (cfg : Option Config) : Int :=
  match cfg with
  | none => 4096
  | some cfg => if cfg.DefaultMaxTokens = 0 then 4096 else cfg.DefaultMaxTokens

/-- The request of `convertRequest` after the system instruction and the
generation parameters have been set, before the tools. -/
def baseParams (lib : GoLib) (m : anthropicModel) (messages : List MessageParam)
    (config : GenerateContentConfig) : MessageNewParams :=
  let params : MessageNewParams :=
    { Model := m.name, Messages := messages, MaxTokens := m.defaultMaxTokens }
  let params :=
    match config.SystemInstruction with
    | some instruction =>
      { params with System := SystemInstructionToSystem (some instruction) }
    | none => params
  let params :=
    match config.Temperature with
    | some t => { params with Temperature := some t }
    | none => params
  let params :=
    match config.TopP with
    | some p => { params with TopP := some p }
    | none => params
  let params :=
    match config.TopK with
    | some k => { params with TopK := some (lib.float32ToInt64 k) }
    | none => params
  let params :=
    if config.StopSequences.length > 0 then
      { params with StopSequences := config.StopSequences }
    else params
  if config.MaxOutputTokens > 0 then { params with MaxTokens := config.MaxOutputTokens }
  else params

/-- The request of `convertBetaRequest` after the system instruction, the
generation parameters and the output format have been set, before the
tools. -/
def baseBetaParams (lib : GoLib) (m : anthropicModel) (messages : List BetaMessageParam)
    (config : GenerateContentConfig) : BetaMessageNewParams :=
  let params : BetaMessageNewParams :=
    { Model := m.name, Messages := messages, MaxTokens := m.defaultMaxTokens,
      Betas := ["structured-outputs-2025-11-13"] }
  let params :=
    match config.SystemInstruction with
    | some instruction =>
      { params with System := SystemInstructionToBetaSystem (some instruction) }
    | none => params
  let params :=
    match config.Temperature with
    | some t => { params with Temperature := some t }
    | none => params
  let params :=
    match config.TopP with
    | some p => { params with TopP := some p }
    | none => params
  let params :=
    match config.TopK with
    | some k => { params with TopK := some (lib.float32ToInt64 k) }
    | none => params
  let params :=
    if config.StopSequences.length > 0 then
      { params with StopSequences := config.StopSequences }
    else params
  let params :=
    if config.MaxOutputTokens > 0 then { params with MaxTokens := config.MaxOutputTokens }
    else params
  match config.ResponseSchema with
  | some schema =>
    { params with
      OutputFormat := some (BetaJSONSchemaOutputFormat (SchemaToMap lib (some schema))) }
  | none => params

/-- The tool of the structured-output surface with the same name, description,
properties and required list. -/
def betaOfTool (t : ToolUnionParam) : BetaToolUnionParam :=
  { OfTool := t.OfTool.map fun p =>
      { Name := p.Name, Description := p.Description,
        InputSchema := { Properties := p.InputSchema.Properties,
                         Required := p.InputSchema.Required } } }

/-- A tool-choice directive of the standard surface and one of the
structured-output surface are of the same kind: both omitted, both `auto`,
both `any`, or both `tool` with the same name. -/
def ChoiceAgrees (c : ToolChoiceUnionParam) (b : BetaToolChoiceUnionParam) : Prop :=
  c.OfAuto.isSome = b.OfAuto.isSome ∧ c.OfAny.isSome = b.OfAny.isSome
    ∧ (c.OfTool.map fun t => t.Name) = (b.OfTool.map fun t => t.Name)
    ∧ c.OfNone.isSome = b.OfNone.isSome

/-- A schema of one string, for concrete inputs. -/
def sampleStringSchema : Schema :=
  { Type_ := "STRING", Items := none, Properties := none, AnyOf := [] }

/-- An object schema with the required string property `q`, for concrete
inputs. -/
def sampleObjectSchema : Schema :=
  { Type_ := "OBJECT", Items := none, Properties := some [("q", some sampleStringSchema)],
    Required := ["q"], AnyOf := [] }

/-- Some non-nil part of the turn carries a tool result. -/
def hasFunctionResponse (content : Content) : Bool :=
  content.Parts.any fun p =>
    match p with
    | none => false
    | some part => part.FunctionResponse.isSome

/-- Some non-nil part of the turn carries a tool call. -/
def hasFunctionCall (content : Content) : Bool :=
  content.Parts.any fun p =>
    match p with
    | none => false
    | some part => part.FunctionCall.isSome

/-- The lower-cased role is one of the three the role mapping knows. -/
def knownRole (lib : GoLib) (role : String) : Bool :=
  let lowered := stringsToLower lib role
  lowered == "user" || lowered == "model" || lowered == "assistant"

/-- The MIME types (already lower-cased) that `inlineDataToBlock` accepts. -/
def inlineMIMETypes : List String :=
  ["image/jpeg", "image/png", "image/gif", "image/webp", "application/pdf"]

/-- The image MIME types (already lower-cased) that `mapImageMediaType` accepts. -/
def imageMIMETypes : List String :=
  ["image/jpeg", "image/png", "image/gif", "image/webp"]

/-- A part the translator cannot represent: it has no text, and its first
populated variant is inline data whose lower-cased MIME type is outside
`inlineMIMETypes`, or file data whose lower-cased MIME type neither starts with
`image/` nor is `application/pdf`, or, with no data, tool result or tool call,
executable code or a code-execution result. -/
def unsupportedPart (lib : GoLib) (part : Part) : Bool :=
  part.Text == "" &&
    match part.InlineData with
    | some blob => !(inlineMIMETypes.contains (stringsToLower lib blob.MIMEType))
    | none =>
      match part.FileData with
      | some fileData =>
        !(stringsHasPrefixOf (stringsToLower lib fileData.MIMEType) "image/")
          && !(stringsToLower lib fileData.MIMEType == "application/pdf")
      | none =>
        part.FunctionResponse.isNone && part.FunctionCall.isNone
          && (part.ExecutableCode.isSome || part.CodeExecutionResult.isSome)

/-- A turn whose role has to be mapped and is unknown: the part list is not
empty, no part carries a tool result or a tool call, and the lower-cased role is
none of `user`, `model`, `assistant`. -/
def unsupportedRole (lib : GoLib) (content : Content) : Bool :=
  !content.Parts.isEmpty && !hasFunctionResponse content && !hasFunctionCall content
    && !knownRole lib content.Role

/-- The blocks of a part list: the translation of every part that yields a
block, in the order of the parts. -/
def translatedBlocks (lib : GoLib) (parts : List (Option Part)) : List ContentBlockParamUnion :=
  parts.filterMap fun p =>
    match PartToContentBlock lib p with
    | .ok (some block) => some block
    | _ => none

/-- The blocks of a message list: the contents of the messages one after the
other. -/
def messageBlocks (messages : List MessageParam) : List ContentBlockParamUnion :=
  (messages.map fun m => m.Content).flatten

/-- The blocks of a turn list: the translation of every part of every non-nil
turn that yields a block, in the order of the turns and of their parts. -/
def turnBlocks (lib : GoLib) (contents : List (Option Content)) : List ContentBlockParamUnion :=
  contents.flatMap fun content =>
    match content with
    | none => []
    | some content => translatedBlocks lib content.Parts

/-- The image source of the structured-output surface with the same data. -/
def betaOfImageSource : ImageSource → BetaImageSource
  | .OfBase64 data mediaType => .OfBase64 data mediaType
  | .OfURL url => .OfURL url

/-- The document source of the structured-output surface with the same
data. -/
def betaOfDocumentSource : DocumentSource → BetaDocumentSource
  | .OfBase64 data => .OfBase64 data
  | .OfURL url => .OfURL url

/-- The block of the structured-output surface of the same kind and with the
same data as a block of the standard surface; the `IsError` option of a tool
result is left unset. -/
def betaOfBlock : ContentBlockParamUnion → BetaContentBlockParamUnion
  | .OfText text => .OfText text
  | .OfThinking thinking signature => .OfThinking thinking signature
  | .OfImage source => .OfImage (betaOfImageSource source)
  | .OfDocument source => .OfDocument (betaOfDocumentSource source)
  | .OfToolUse id input name => .OfToolUse id name input
  | .OfToolResult toolUseID content _ => .OfToolResult toolUseID content none

/-- The message of the structured-output surface with the same role and the
corresponding blocks. -/
def betaOfMessage (m : MessageParam) : BetaMessageParam :=
  { Role := m.Role, Content := m.Content.map betaOfBlock }

/-- A block of the standard surface and a block of the structured-output
surface are of the same kind and carry the same text, signature, payload,
media type, URL, tool id, tool name and arguments. -/
def BlockAgrees : ContentBlockParamUnion → BetaContentBlockParamUnion → Prop
  | .OfText text, .OfText text2 => text = text2
  | .OfThinking thinking signature, .OfThinking thinking2 signature2 =>
    thinking = thinking2 ∧ signature = signature2
  | .OfImage (.OfBase64 data mediaType), .OfImage (.OfBase64 data2 mediaType2) =>
    data = data2 ∧ mediaType = mediaType2
  | .OfImage (.OfURL url), .OfImage (.OfURL url2) => url = url2
  | .OfDocument (.OfBase64 data), .OfDocument (.OfBase64 data2) => data = data2
  | .OfDocument (.OfURL url), .OfDocument (.OfURL url2) => url = url2
  | .OfToolUse id input name, .OfToolUse id2 name2 input2 =>
    id = id2 ∧ name = name2 ∧ input = input2
  | .OfToolResult toolUseID content _, .OfToolResult toolUseID2 content2 _ =>
    toolUseID = toolUseID2 ∧ content = content2
  | _, _ => False

/-- A message of the standard surface and a message of the structured-output
surface have the same role and, position by position, blocks that agree. -/
def MessageAgrees (m : MessageParam) (b : BetaMessageParam) : Prop :=
  m.Role = b.Role ∧ List.Forall₂ BlockAgrees m.Content b.Content

/-- What is left of a message list once `last` has been emitted: a following
message of the same role is appended to `last`, another one closes it. The
loop of `mergeConsecutiveMessages` computes this, see `mergeLoop_concat`. -/
def mergeFrom : MessageParam → List MessageParam → List MessageParam
  | last, [] => [last]
  | last, msg :: rest =>
      if last.Role = msg.Role then
        mergeFrom { last with Content := last.Content ++ msg.Content } rest
      else last :: mergeFrom msg rest

/-! ## Lemmas on the merge loop -/

theorem mergeFrom_ne_nil (rest : List MessageParam) (last : MessageParam) :
    mergeFrom last rest ≠ [] := by
  induction rest generalizing last with
  | nil => simp [mergeFrom]
  | cons msg rest ih =>
    unfold mergeFrom
    split
    · exact ih _
    · simp

theorem mergeLoop_concat (rest : List MessageParam) (i : Nat) (pre : List MessageParam)
    (last : MessageParam) :
    mergeLoop rest (i + 1) (pre ++ [last]) = pre ++ mergeFrom last rest := by
  induction rest generalizing i pre last with
  | nil => simp [mergeLoop, mergeFrom]
  | cons msg rest ih =>
    by_cases h : last.Role = msg.Role
    · simp [mergeLoop, mergeFrom, h, ih]
    · have h2 := ih (i + 1) (pre ++ [last]) msg
      simp only [List.append_assoc, List.singleton_append] at h2
      simp [mergeLoop, mergeFrom, h, h2]

theorem mergeConsecutiveMessages_nil : mergeConsecutiveMessages [] = [] := by
  simp [mergeConsecutiveMessages]

theorem mergeConsecutiveMessages_cons (msg : MessageParam) (rest : List MessageParam) :
    mergeConsecutiveMessages (msg :: rest) = mergeFrom msg rest := by
  cases rest with
  | nil => simp [mergeConsecutiveMessages, mergeFrom]
  | cons m2 rest =>
    have h := mergeLoop_concat (m2 :: rest) 0 [] msg
    simp only [List.nil_append, Nat.zero_add] at h
    have h0 : mergeLoop (msg :: m2 :: rest) 0 [] = mergeLoop (m2 :: rest) 1 [msg] := by
      simp [mergeLoop]
    simp only [mergeConsecutiveMessages, List.length_cons]
    rw [if_neg (by omega), h0, h]

theorem mergeFrom_head (rest : List MessageParam) (last : MessageParam) :
    ∃ content tl, mergeFrom last rest = { Role := last.Role, Content := content } :: tl := by
  induction rest generalizing last with
  | nil => exact ⟨last.Content, [], rfl⟩
  | cons msg rest ih =>
    unfold mergeFrom
    split
    · exact ih _
    · exact ⟨last.Content, mergeFrom msg rest, rfl⟩

theorem mergeFrom_chain (rest : List MessageParam) (last : MessageParam) :
    List.Chain' (fun a b : MessageParam => a.Role ≠ b.Role) (mergeFrom last rest) := by
  induction rest generalizing last with
  | nil => simp [mergeFrom]
  | cons msg rest ih =>
    unfold mergeFrom
    split
    · exact ih _
    · rename_i hne
      obtain ⟨content, tl, htl⟩ := mergeFrom_head rest msg
      have hc := ih msg
      rw [htl] at hc ⊢
      exact List.chain'_cons.mpr ⟨hne, hc⟩

theorem mergeFrom_content_ne_nil (rest : List MessageParam) (last : MessageParam)
    (hlast : last.Content ≠ []) (hrest : ∀ m ∈ rest, m.Content ≠ []) :
    ∀ m ∈ mergeFrom last rest, m.Content ≠ [] := by
  induction rest generalizing last with
  | nil => simpa [mergeFrom] using hlast
  | cons msg rest ih =>
    have hmsg : msg.Content ≠ [] := hrest msg (List.mem_cons_self _ _)
    have hr : ∀ m ∈ rest, m.Content ≠ [] := fun m hm => hrest m (List.mem_cons_of_mem _ hm)
    unfold mergeFrom
    split
    · exact ih _ (by simp [hlast]) hr
    · intro m hm
      rcases List.mem_cons.mp hm with h | h
      · exact h ▸ hlast
      · exact ih msg hmsg hr m h

theorem mergeConsecutiveMessages_chain (messages : List MessageParam) :
    List.Chain' (fun a b : MessageParam => a.Role ≠ b.Role)
      (mergeConsecutiveMessages messages) := by
  cases messages with
  | nil => simp [mergeConsecutiveMessages_nil]
  | cons msg rest => rw [mergeConsecutiveMessages_cons]; exact mergeFrom_chain rest msg

/-! ## Lemmas on the loops of the turn assembler -/

theorem ContentsToMessages_ok (lib : GoLib) (contents : List (Option Content))
    (ms : List MessageParam) (h : ContentsToMessages lib contents = .ok ms) :
    ∃ messages, convertContents lib contents [] = .ok messages ∧
      ms = mergeConsecutiveMessages messages := by
  unfold ContentsToMessages at h
  split at h
  · rename_i hlen
    have hnil : contents = [] := List.eq_nil_of_length_eq_zero hlen
    subst hnil
    refine ⟨[], rfl, ?_⟩
    cases h
    simp [mergeConsecutiveMessages_nil]
  · split at h
    · cases h
    · rename_i messages hm
      cases h
      exact ⟨messages, hm, rfl⟩

theorem scanToolParts_eq (parts : List (Option Part)) (flags : Bool × Bool) :
    scanToolParts parts flags
      = (flags.1 || hasFunctionResponse ⟨"", parts⟩, flags.2 || hasFunctionCall ⟨"", parts⟩) := by
  induction parts generalizing flags with
  | nil => simp [scanToolParts, hasFunctionResponse, hasFunctionCall]
  | cons p parts ih =>
    cases p with
    | none =>
      simp only [scanToolParts, ih]
      simp [hasFunctionResponse, hasFunctionCall]
    | some part =>
      simp only [scanToolParts, ih]
      cases h1 : part.FunctionResponse.isSome <;> cases h2 : part.FunctionCall.isSome <;>
        simp [hasFunctionResponse, hasFunctionCall, h1, h2]

/-- The role `contentToMessage` resolves for a turn, read off its statement:
`user` with a tool result, else `assistant` with a tool call, else the mapped
role. -/
theorem contentToMessage_unfold (lib : GoLib) (content : Content) :
    contentToMessage lib (some content)
      = if content.Parts.length = 0 then .ok none
        else
          match (if hasFunctionResponse content then .ok MessageParamRoleUser
                 else if hasFunctionCall content then .ok MessageParamRoleAssistant
                 else mapRole lib content.Role : Except String MessageParamRole) with
          | .error err => .error err
          | .ok role =>
            match convertParts lib content.Parts [] with
            | .error err => .error err
            | .ok blocks =>
              if blocks.length = 0 then .ok none
              else .ok (some { Role := role, Content := blocks }) := by
  simp only [contentToMessage, scanToolParts_eq, Bool.false_or]
  rfl

theorem contentToMessage_some (lib : GoLib) (content : Content) (m : MessageParam)
    (h : contentToMessage lib (some content) = .ok (some m)) :
    content.Parts ≠ []
      ∧ (if hasFunctionResponse content then .ok MessageParamRoleUser
         else if hasFunctionCall content then .ok MessageParamRoleAssistant
         else mapRole lib content.Role : Except String MessageParamRole) = .ok m.Role
      ∧ convertParts lib content.Parts [] = .ok m.Content
      ∧ m.Content ≠ [] := by
  rw [contentToMessage_unfold] at h
  split at h
  · cases h
  · rename_i hlen
    split at h
    · cases h
    · rename_i role hrole
      split at h
      · cases h
      · rename_i blocks hblocks
        split at h
        · cases h
        · rename_i hb
          cases h
          refine ⟨?_, hrole, hblocks, ?_⟩
          · intro hnil
            exact hlen (by simp [hnil])
          · intro hnil
            have hnil2 : blocks = [] := hnil
            exact hb (by simp [hnil2])

theorem inlineDataToBlock_ne_none (lib : GoLib) (blob : Blob) :
    inlineDataToBlock lib (some blob) ≠ .ok none := by
  unfold inlineDataToBlock
  simp only
  split
  · split <;> simp
  · split <;> simp

theorem fileDataToBlock_ne_none (lib : GoLib) (fileData : FileData) :
    fileDataToBlock lib (some fileData) ≠ .ok none := by
  unfold fileDataToBlock
  simp only
  split
  · simp
  · split <;> simp

theorem functionResponseToBlock_ne_none (lib : GoLib) (resp : FunctionResponse) :
    functionResponseToBlock lib (some resp) ≠ .ok none := by
  unfold functionResponseToBlock
  simp only
  split
  · simp
  · split
    · simp
    · split <;> simp

theorem functionCallToBlock_ne_none (call : FunctionCall) :
    functionCallToBlock (some call) ≠ .ok none := by
  simp [functionCallToBlock]

/-- A part that translates to no block carries neither text nor data nor a tool
result nor a tool call. -/
theorem PartToContentBlock_none (lib : GoLib) (part : Part)
    (h : PartToContentBlock lib (some part) = .ok none) :
    part.Text = "" ∧ part.InlineData = none ∧ part.FileData = none
      ∧ part.FunctionResponse = none ∧ part.FunctionCall = none := by
  unfold PartToContentBlock at h
  simp only at h
  by_cases ht : part.Text = ""
  · rw [if_neg (by simpa using ht)] at h
    cases hi : part.InlineData with
    | some blob =>
      rw [hi] at h
      exact absurd h (by simpa using inlineDataToBlock_ne_none lib blob)
    | none =>
      rw [hi] at h
      cases hf : part.FileData with
      | some fd =>
        rw [hf] at h
        exact absurd h (by simpa using fileDataToBlock_ne_none lib fd)
      | none =>
        rw [hf] at h
        cases hr : part.FunctionResponse with
        | some resp =>
          rw [hr] at h
          exact absurd h (by simpa using functionResponseToBlock_ne_none lib resp)
        | none =>
          rw [hr] at h
          cases hc : part.FunctionCall with
          | some call =>
            rw [hc] at h
            exact absurd h (by simpa using functionCallToBlock_ne_none call)
          | none => exact ⟨ht, rfl, rfl, rfl, rfl⟩
  · rw [if_pos (by simpa using ht)] at h
    split at h
    · split at h <;> simp at h
    · simp at h

theorem convertParts_all_none (lib : GoLib) (parts : List (Option Part))
    (blocks : List ContentBlockParamUnion)
    (h : ∀ p ∈ parts, PartToContentBlock lib p = .ok none) :
    convertParts lib parts blocks = .ok blocks := by
  induction parts with
  | nil => rfl
  | cons p parts ih =>
    have hp := h p (List.mem_cons_self _ _)
    have hrest : ∀ q ∈ parts, PartToContentBlock lib q = .ok none :=
      fun q hq => h q (List.mem_cons_of_mem _ hq)
    cases p with
    | none => simpa [convertParts] using ih hrest
    | some part => simpa [convertParts, hp] using ih hrest

theorem hasTool_false_of_all_none (lib : GoLib) (content : Content)
    (h : ∀ p ∈ content.Parts, PartToContentBlock lib p = .ok none) :
    hasFunctionResponse content = false ∧ hasFunctionCall content = false := by
  simp only [hasFunctionResponse, hasFunctionCall, List.any_eq_false]
  constructor
  · intro p hp
    cases p with
    | none => simp
    | some part => simp [(PartToContentBlock_none lib part (h _ hp)).2.2.2.1]
  · intro p hp
    cases p with
    | none => simp
    | some part => simp [(PartToContentBlock_none lib part (h _ hp)).2.2.2.2]

theorem mapRole_of_knownRole (lib : GoLib) (role : String) (h : knownRole lib role = true) :
    ∃ r, mapRole lib role = .ok r := by
  simp only [knownRole, Bool.or_eq_true, beq_iff_eq] at h
  unfold mapRole
  simp only
  split
  · exact ⟨_, rfl⟩
  · split
    · exact ⟨_, rfl⟩
    · rename_i h1 h2
      rcases h with (h | h) | h
      · exact absurd h h1
      · exact absurd (Or.inl h) h2
      · exact absurd (Or.inr h) h2

theorem convertContents_acc (lib : GoLib) (contents : List (Option Content))
    (acc : List MessageParam) :
    convertContents lib contents acc
      = match convertContents lib contents [] with
        | .error err => .error err
        | .ok ms => .ok (acc ++ ms) := by
  induction contents generalizing acc with
  | nil => simp [convertContents]
  | cons c contents ih =>
    cases c with
    | none => simpa [convertContents] using ih acc
    | some content =>
      simp only [convertContents]
      cases hc : contentToMessage lib (some content) with
      | error err => rfl
      | ok r =>
        cases r with
        | none => simpa using ih acc
        | some msg =>
          simp only
          rw [ih (acc ++ [msg]), ih ([] ++ [msg])]
          cases convertContents lib contents [] <;> simp

theorem convertContents_append (lib : GoLib) (pre post : List (Option Content))
    (acc : List MessageParam) :
    convertContents lib (pre ++ post) acc
      = match convertContents lib pre acc with
        | .error err => .error err
        | .ok ms => convertContents lib post ms := by
  induction pre generalizing acc with
  | nil => simp [convertContents]
  | cons c pre ih =>
    cases c with
    | none => simpa [convertContents] using ih acc
    | some content =>
      simp only [List.cons_append, convertContents]
      cases hc : contentToMessage lib (some content) with
      | error err => rfl
      | ok r =>
        cases r with
        | none => simpa using ih acc
        | some msg => simpa using ih (acc ++ [msg])

theorem convertContents_content_ne_nil (lib : GoLib) (contents : List (Option Content))
    (ms : List MessageParam) (h : convertContents lib contents [] = .ok ms) :
    ∀ m ∈ ms, m.Content ≠ [] := by
  induction contents generalizing ms with
  | nil =>
    simp only [convertContents] at h
    cases h
    simp
  | cons c contents ih =>
    cases c with
    | none => exact ih ms (by simpa [convertContents] using h)
    | some content =>
      simp only [convertContents] at h
      cases hc : contentToMessage lib (some content) with
      | error err => rw [hc] at h; cases h
      | ok r =>
        rw [hc] at h
        cases r with
        | none => exact ih ms (by simpa using h)
        | some msg =>
          simp only at h
          rw [convertContents_acc] at h
          cases hrest : convertContents lib contents [] with
          | error err => rw [hrest] at h; cases h
          | ok rest =>
            rw [hrest] at h
            simp only [List.nil_append, Except.ok.injEq] at h
            subst h
            intro m hm
            rcases List.mem_append.mp hm with h1 | h1
            · rw [List.mem_singleton.mp h1]
              exact (contentToMessage_some lib content msg hc).2.2.2
            · exact ih rest hrest m h1

theorem ContentsToMessages_eq (lib : GoLib) (contents : List (Option Content)) :
    ContentsToMessages lib contents
      = match convertContents lib contents [] with
        | .error err => .error err
        | .ok ms => .ok (mergeConsecutiveMessages ms) := by
  unfold ContentsToMessages
  split
  · rename_i hlen
    rw [List.eq_nil_of_length_eq_zero hlen]
    simp [convertContents, mergeConsecutiveMessages_nil]
  · rfl

theorem mergeConsecutiveMessages_content_ne_nil (messages : List MessageParam)
    (h : ∀ m ∈ messages, m.Content ≠ []) :
    ∀ m ∈ mergeConsecutiveMessages messages, m.Content ≠ [] := by
  cases messages with
  | nil => simp [mergeConsecutiveMessages_nil]
  | cons msg rest =>
    rw [mergeConsecutiveMessages_cons]
    exact mergeFrom_content_ne_nil rest msg (h msg (List.mem_cons_self _ _))
      (fun m hm => h m (List.mem_cons_of_mem _ hm))

theorem mapImageMediaType_error (mimeType : String) (h : imageMIMETypes.contains mimeType = false) :
    mapImageMediaType mimeType = .error ("unsupported image media type: " ++ mimeType) := by
  simp only [imageMIMETypes, List.contains_eq_any_beq, List.any_cons, List.any_nil,
    Bool.or_false, Bool.or_eq_false_iff, beq_eq_false_iff_ne, ne_eq] at h
  obtain ⟨h1, h2, h3, h4⟩ := h
  simp [mapImageMediaType, h1, h2, h3, h4]

theorem inlineDataToBlock_error (lib : GoLib) (blob : Blob)
    (h : inlineMIMETypes.contains (stringsToLower lib blob.MIMEType) = false) :
    inlineDataToBlock lib (some blob)
      = if stringsHasPrefixOf (stringsToLower lib blob.MIMEType) "image/" then
          .error ("unsupported image media type: " ++ stringsToLower lib blob.MIMEType)
        else
          .error ("unsupported MIME type for inline data: "
            ++ stringsToLower lib blob.MIMEType) := by
  have himg : imageMIMETypes.contains (stringsToLower lib blob.MIMEType) = false := by
    simp only [inlineMIMETypes, imageMIMETypes, List.contains_eq_any_beq, List.any_cons,
      List.any_nil, Bool.or_false, Bool.or_eq_false_iff] at h ⊢
    exact ⟨h.1, h.2.1, h.2.2.1, h.2.2.2.1⟩
  have hpdf : ¬ stringsToLower lib blob.MIMEType = "application/pdf" := by
    simp only [inlineMIMETypes, List.contains_eq_any_beq, List.any_cons, List.any_nil,
      Bool.or_false, Bool.or_eq_false_iff, beq_eq_false_iff_ne, ne_eq] at h
    exact h.2.2.2.2
  unfold inlineDataToBlock
  simp only [mapImageMediaType_error _ himg, if_neg hpdf]

theorem PartToContentBlock_unsupported (lib : GoLib) (part : Part)
    (h : unsupportedPart lib part = true) :
    ∃ err, PartToContentBlock lib (some part) = .error err := by
  unfold unsupportedPart at h
  simp only [Bool.and_eq_true, beq_iff_eq] at h
  obtain ⟨htext, h⟩ := h
  unfold PartToContentBlock
  simp only
  rw [if_neg (by simpa using htext)]
  cases hi : part.InlineData with
  | some blob =>
    rw [hi] at h
    simp only [Bool.not_eq_true', Option.isSome_some, if_true] at h ⊢
    rw [inlineDataToBlock_error lib blob h]
    split <;> exact ⟨_, rfl⟩
  | none =>
    rw [hi] at h
    simp only at h
    cases hf : part.FileData with
    | some fd =>
      rw [hf] at h
      simp only [Bool.and_eq_true, Bool.not_eq_true', beq_eq_false_iff_ne, ne_eq] at h
      simp only [Option.isSome_none, Bool.false_eq_true, if_false, Option.isSome_some, if_true,
        fileDataToBlock, h.1, h.2]
      exact ⟨_, rfl⟩
    | none =>
      rw [hf] at h
      simp only [Bool.and_eq_true, Option.isNone_iff_eq_none, Bool.or_eq_true] at h
      obtain ⟨⟨hr, hc⟩, hcode⟩ := h
      simp only [Option.isSome_none, Bool.false_eq_true, if_false, hr, hc, hcode, if_true]
      exact ⟨_, rfl⟩

theorem convertParts_error (lib : GoLib) (parts : List (Option Part)) (part : Part)
    (hmem : some part ∈ parts) (err : String)
    (h : PartToContentBlock lib (some part) = .error err)
    (blocks : List ContentBlockParamUnion) :
    ∃ e, convertParts lib parts blocks = .error e := by
  induction parts generalizing blocks with
  | nil => simp at hmem
  | cons p parts ih =>
    cases p with
    | none =>
      have hmem2 : some part ∈ parts := by simpa using hmem
      simpa [convertParts] using ih hmem2 blocks
    | some q =>
      simp only [convertParts]
      cases hq : PartToContentBlock lib (some q) with
      | error e => exact ⟨_, rfl⟩
      | ok r =>
        have hmem2 : some part ∈ parts := by
          rcases List.mem_cons.mp hmem with h1 | h1
          · cases h1
            rw [h] at hq
            cases hq
          · exact h1
        cases r with
        | none => exact ih hmem2 blocks
        | some block => exact ih hmem2 (blocks ++ [block])

theorem contentToMessage_error_of_part (lib : GoLib) (content : Content) (part : Part)
    (hmem : some part ∈ content.Parts) (err : String)
    (h : PartToContentBlock lib (some part) = .error err) :
    ∃ e, contentToMessage lib (some content) = .error e := by
  rw [contentToMessage_unfold]
  have hlen : ¬ content.Parts.length = 0 := by
    intro h0
    rw [List.eq_nil_of_length_eq_zero h0] at hmem
    simp at hmem
  rw [if_neg hlen]
  split
  · exact ⟨_, rfl⟩
  · obtain ⟨e, he⟩ := convertParts_error lib content.Parts part hmem err h []
    rw [he]
    exact ⟨_, rfl⟩

theorem convertContents_error (lib : GoLib) (pre post : List (Option Content))
    (content : Content) (err : String)
    (h : contentToMessage lib (some content) = .error err) (acc : List MessageParam) :
    ∃ e, convertContents lib (pre ++ some content :: post) acc = .error e := by
  rw [convertContents_append]
  cases convertContents lib pre acc with
  | error e => exact ⟨_, rfl⟩
  | ok ms =>
    simp only [convertContents, h]
    exact ⟨_, rfl⟩

theorem inlineDataToBlock_image (lib : GoLib) (blob : Blob)
    (mediaType : Base64ImageSourceMediaType)
    (hpre : stringsHasPrefixOf (stringsToLower lib blob.MIMEType) "image/" = true)
    (hmap : mapImageMediaType (stringsToLower lib blob.MIMEType) = .ok mediaType) :
    inlineDataToBlock lib (some blob)
      = .ok (some (.OfImage (.OfBase64 (base64EncodeToString blob.Data) mediaType))) := by
  simp [inlineDataToBlock, hpre, hmap]

theorem inlineDataToBlock_pdf (lib : GoLib) (blob : Blob)
    (hpdf : stringsToLower lib blob.MIMEType = "application/pdf") :
    inlineDataToBlock lib (some blob)
      = .ok (some (.OfDocument (.OfBase64 (base64EncodeToString blob.Data)))) := by
  have hpre : stringsHasPrefixOf "application/pdf" "image/" = false := by decide
  simp [inlineDataToBlock, hpdf, hpre]

theorem inlineDataToBlock_cases (lib : GoLib) (blob : Blob) :
    (imageMIMETypes.contains (stringsToLower lib blob.MIMEType) = true
        ∧ stringsHasPrefixOf (stringsToLower lib blob.MIMEType) "image/" = true
        ∧ inlineDataToBlock lib (some blob)
          = .ok (some (.OfImage (.OfBase64 (base64EncodeToString blob.Data)
              (stringsToLower lib blob.MIMEType)))))
      ∨ (stringsToLower lib blob.MIMEType = "application/pdf"
        ∧ inlineDataToBlock lib (some blob)
          = .ok (some (.OfDocument (.OfBase64 (base64EncodeToString blob.Data)))))
      ∨ (inlineMIMETypes.contains (stringsToLower lib blob.MIMEType) = false
        ∧ ∃ err, inlineDataToBlock lib (some blob) = .error err) := by
  by_cases h1 : stringsToLower lib blob.MIMEType = "image/jpeg"
  · refine Or.inl ⟨by rw [h1]; decide, by rw [h1]; decide, ?_⟩
    rw [inlineDataToBlock_image lib blob Base64ImageSourceMediaTypeImageJPEG
      (by rw [h1]; decide) (by rw [h1]; rfl), h1]
    rfl
  by_cases h2 : stringsToLower lib blob.MIMEType = "image/png"
  · refine Or.inl ⟨by rw [h2]; decide, by rw [h2]; decide, ?_⟩
    rw [inlineDataToBlock_image lib blob Base64ImageSourceMediaTypeImagePNG
      (by rw [h2]; decide) (by rw [h2]; rfl), h2]
    rfl
  by_cases h3 : stringsToLower lib blob.MIMEType = "image/gif"
  · refine Or.inl ⟨by rw [h3]; decide, by rw [h3]; decide, ?_⟩
    rw [inlineDataToBlock_image lib blob Base64ImageSourceMediaTypeImageGIF
      (by rw [h3]; decide) (by rw [h3]; rfl), h3]
    rfl
  by_cases h4 : stringsToLower lib blob.MIMEType = "image/webp"
  · refine Or.inl ⟨by rw [h4]; decide, by rw [h4]; decide, ?_⟩
    rw [inlineDataToBlock_image lib blob Base64ImageSourceMediaTypeImageWebP
      (by rw [h4]; decide) (by rw [h4]; rfl), h4]
    rfl
  by_cases h5 : stringsToLower lib blob.MIMEType = "application/pdf"
  · exact Or.inr (Or.inl ⟨h5, inlineDataToBlock_pdf lib blob h5⟩)
  · have hno : inlineMIMETypes.contains (stringsToLower lib blob.MIMEType) = false := by
      simp only [inlineMIMETypes, List.contains_eq_any_beq, List.any_cons, List.any_nil,
        Bool.or_false, Bool.or_eq_false_iff, beq_eq_false_iff_ne, ne_eq]
      exact ⟨h1, h2, h3, h4, h5⟩
    refine Or.inr (Or.inr ⟨hno, ?_⟩)
    rw [inlineDataToBlock_error lib blob hno]
    split <;> exact ⟨_, rfl⟩

theorem convertParts_ok (lib : GoLib) (parts : List (Option Part))
    (acc blocks : List ContentBlockParamUnion)
    (h : convertParts lib parts acc = .ok blocks) :
    blocks = acc ++ translatedBlocks lib parts := by
  induction parts generalizing acc with
  | nil =>
    simp only [convertParts] at h
    cases h
    simp [translatedBlocks]
  | cons p parts ih =>
    cases p with
    | none =>
      have h2 : convertParts lib parts acc = .ok blocks := by simpa [convertParts] using h
      rw [ih acc h2]
      simp [translatedBlocks, PartToContentBlock]
    | some part =>
      simp only [convertParts] at h
      cases hp : PartToContentBlock lib (some part) with
      | error err => rw [hp] at h; cases h
      | ok r =>
        rw [hp] at h
        cases r with
        | none =>
          rw [ih acc (by simpa using h)]
          simp [translatedBlocks, hp]
        | some block =>
          rw [ih (acc ++ [block]) (by simpa using h)]
          simp [translatedBlocks, hp]

/-! ## Lemmas on the pattern matcher -/

theorem starGreedy_sound (set : CharSet) (k : MatchState → Option MatchState)
    (l : List Char) (pos : Nat) (cap : Option (List Char)) (r : MatchState)
    (h : starGreedy set k pos l cap = some r) :
    ∃ x rest, l = x ++ rest ∧ (∀ c ∈ x, set.mem c = true)
      ∧ k ⟨pos + x.length, rest, cap⟩ = some r := by
  induction l generalizing pos with
  | nil => exact ⟨[], [], rfl, by simp, by simpa [starGreedy] using h⟩
  | cons c cs ih =>
    unfold starGreedy at h
    by_cases hc : set.mem c = true
    · rw [if_pos hc] at h
      cases hin : starGreedy set k (pos + 1) cs cap with
      | some r1 =>
        rw [hin] at h
        obtain ⟨x, rest, hl, hx, hk⟩ := ih (pos + 1) (by rw [hin, ← Option.some.inj h])
        refine ⟨c :: x, rest, by simp [hl], ?_, ?_⟩
        · intro d hd
          rcases List.mem_cons.mp hd with rfl | hd
          · exact hc
          · exact hx d hd
        · rw [← hk]
          simp [Nat.add_assoc, Nat.add_comm 1]
      | none =>
        rw [hin] at h
        exact ⟨[], c :: cs, rfl, by simp, by simpa using h⟩
    · rw [if_neg hc] at h
      exact ⟨[], c :: cs, rfl, by simp, by simpa using h⟩

theorem starLazy_sound (set : CharSet) (k : MatchState → Option MatchState)
    (l : List Char) (pos : Nat) (cap : Option (List Char)) (r : MatchState)
    (h : starLazy set k pos l cap = some r) :
    ∃ x rest, l = x ++ rest ∧ (∀ c ∈ x, set.mem c = true)
      ∧ k ⟨pos + x.length, rest, cap⟩ = some r := by
  induction l generalizing pos with
  | nil => exact ⟨[], [], rfl, by simp, by simpa [starLazy] using h⟩
  | cons c cs ih =>
    unfold starLazy at h
    cases hk0 : k ⟨pos, c :: cs, cap⟩ with
    | some r0 =>
      rw [hk0] at h
      exact ⟨[], c :: cs, rfl, by simp, by simpa [hk0] using h⟩
    | none =>
      rw [hk0] at h
      by_cases hc : set.mem c = true
      · simp only [hc, if_true] at h
        obtain ⟨x, rest, hl, hx, hk⟩ := ih (pos + 1) h
        refine ⟨c :: x, rest, by simp [hl], ?_, ?_⟩
        · intro d hd
          rcases List.mem_cons.mp hd with rfl | hd
          · exact hc
          · exact hx d hd
        · rw [← hk]
          simp [Nat.add_assoc, Nat.add_comm 1]
      · simp [hc] at h

/-- Soundness of the matcher: a successful run consumed a text that the pattern
matches, and the continuation accepted the state after it. -/
theorem Regex.run_sound (re : Regex) (st : MatchState) (k : MatchState → Option MatchState)
    (r : MatchState) (h : re.run st k = some r) :
    ∃ x rest cap, st.rest = x ++ rest ∧ re.Matches st.pos x rest
      ∧ k ⟨st.pos + x.length, rest, cap⟩ = some r := by
  induction re generalizing st k r with
  | empty => exact ⟨[], st.rest, st.cap, rfl, rfl, by simpa [Regex.run] using h⟩
  | chr set =>
    unfold Regex.run at h
    cases hrest : st.rest with
    | nil => simp [hrest] at h
    | cons c cs =>
      simp only [hrest] at h
      by_cases hc : set.mem c = true
      · rw [if_pos hc] at h
        exact ⟨[c], cs, st.cap, rfl, ⟨c, rfl, hc⟩, by simpa using h⟩
      · rw [if_neg hc] at h
        cases h
  | seq a b iha ihb =>
    unfold Regex.run at h
    obtain ⟨x1, rest1, cap1, h1, hm1, hk1⟩ := iha st _ r h
    obtain ⟨x2, rest2, cap2, h2, hm2, hk2⟩ := ihb _ k r hk1
    simp only at h2 hm2 hk2
    refine ⟨x1 ++ x2, rest2, cap2, by rw [h1, h2, List.append_assoc], ?_, ?_⟩
    · exact ⟨x1, x2, rfl, by rw [← h2]; exact hm1, hm2⟩
    · rw [← hk2]
      simp [Nat.add_assoc]
  | alt a b iha ihb =>
    unfold Regex.run at h
    cases ha : a.run st k with
    | some r1 =>
      rw [ha] at h
      obtain ⟨x, rest, cap, h1, hm, hk⟩ := iha st k r (by rw [ha, ← Option.some.inj h])
      exact ⟨x, rest, cap, h1, Or.inl hm, hk⟩
    | none =>
      rw [ha] at h
      obtain ⟨x, rest, cap, h1, hm, hk⟩ := ihb st k r h
      exact ⟨x, rest, cap, h1, Or.inr hm, hk⟩
  | star greedy set =>
    cases greedy with
    | true =>
      unfold Regex.run at h
      obtain ⟨x, rest, hl, hx, hk⟩ := starGreedy_sound set k st.rest st.pos st.cap r h
      exact ⟨x, rest, st.cap, hl, hx, hk⟩
    | false =>
      unfold Regex.run at h
      obtain ⟨x, rest, hl, hx, hk⟩ := starLazy_sound set k st.rest st.pos st.cap r h
      exact ⟨x, rest, st.cap, hl, hx, hk⟩
  | opt a iha =>
    unfold Regex.run at h
    cases ha : a.run st k with
    | some r1 =>
      rw [ha] at h
      obtain ⟨x, rest, cap, h1, hm, hk⟩ := iha st k r (by rw [ha, ← Option.some.inj h])
      exact ⟨x, rest, cap, h1, Or.inr hm, hk⟩
    | none =>
      rw [ha] at h
      exact ⟨[], st.rest, st.cap, rfl, Or.inl rfl, by simpa using h⟩
  | group a iha =>
    unfold Regex.run at h
    obtain ⟨x, rest, cap, h1, hm, hk⟩ := iha st _ r h
    exact ⟨x, rest, _, h1, hm, hk⟩
  | bot =>
    unfold Regex.run at h
    by_cases hp : st.pos = 0
    · rw [if_pos hp] at h
      exact ⟨[], st.rest, st.cap, rfl, ⟨rfl, hp⟩, by simpa using h⟩
    · rw [if_neg hp] at h
      cases h
  | eot =>
    unfold Regex.run at h
    cases hrest : st.rest with
    | nil =>
      simp only [hrest] at h
      refine ⟨[], [], st.cap, rfl, ⟨rfl, rfl⟩, ?_⟩
      obtain ⟨pos, rest, cap⟩ := st
      simp only at hrest
      subst hrest
      simpa using h
    | cons c cs => simp [hrest] at h

theorem starGreedy_all (set : CharSet) (k : MatchState → Option MatchState)
    (w rest : List Char) (pos : Nat) (cap : Option (List Char)) (r : MatchState)
    (hw : ∀ c ∈ w, set.mem c = true)
    (hrest : rest = [] ∨ ∃ c cs, rest = c :: cs ∧ set.mem c = false)
    (hk : k ⟨pos + w.length, rest, cap⟩ = some r) :
    starGreedy set k pos (w ++ rest) cap = some r := by
  induction w generalizing pos with
  | nil =>
    rcases hrest with rfl | ⟨c, cs, rfl, hc⟩
    · simpa [starGreedy] using hk
    · simpa [starGreedy, hc] using hk
  | cons c w ih =>
    have hc : set.mem c = true := hw c (List.mem_cons_self _ _)
    have hin := ih (pos + 1) (fun d hd => hw d (List.mem_cons_of_mem _ hd))
      (by rw [← hk]; simp [Nat.add_assoc, Nat.add_comm 1])
    simp [starGreedy, hc, hin]

theorem starLazy_first (set : CharSet) (k : MatchState → Option MatchState)
    (a b : List Char) (pos : Nat) (cap : Option (List Char)) (r : MatchState)
    (ha : ∀ c ∈ a, set.mem c = true)
    (hfail : ∀ a1 a2, a = a1 ++ a2 → a2 ≠ [] → k ⟨pos + a1.length, a2 ++ b, cap⟩ = none)
    (hk : k ⟨pos + a.length, b, cap⟩ = some r) :
    starLazy set k pos (a ++ b) cap = some r := by
  induction a generalizing pos with
  | nil =>
    cases b with
    | nil => simpa [starLazy] using hk
    | cons c cs =>
      have hk2 : k ⟨pos, c :: cs, cap⟩ = some r := by simpa using hk
      simp [starLazy, hk2]
  | cons c a ih =>
    have h0 : k ⟨pos, c :: (a ++ b), cap⟩ = none := by
      simpa using hfail [] (c :: a) rfl (by simp)
    have hc : set.mem c = true := ha c (List.mem_cons_self _ _)
    have hin := ih (pos + 1) (fun d hd => ha d (List.mem_cons_of_mem _ hd))
      (by
        intro a1 a2 hsplit hne
        have := hfail (c :: a1) a2 (by simp [hsplit]) hne
        rw [← this]
        simp [Nat.add_assoc, Nat.add_comm 1])
      (by rw [← hk]; simp [Nat.add_assoc, Nat.add_comm 1])
    simp [starLazy, h0, hc, hin]

theorem Regex.str_run (l rest : List Char) (pos : Nat) (cap : Option (List Char))
    (k : MatchState → Option MatchState) :
    (Regex.str l).run ⟨pos, l ++ rest, cap⟩ k = k ⟨pos + l.length, rest, cap⟩ := by
  induction l generalizing pos with
  | nil => simp [Regex.str, Regex.run]
  | cons c l ih =>
    simp only [Regex.str, Regex.run, List.cons_append, CharSet.mem, beq_self_eq_true, if_true]
    rw [ih]
    simp [Nat.add_assoc, Nat.add_comm 1]

theorem Regex.str_matches (l x rest : List Char) (pos : Nat)
    (h : (Regex.str l).Matches pos x rest) : x = l := by
  induction l generalizing pos x rest with
  | nil => exact h
  | cons c l ih =>
    obtain ⟨x1, x2, hx, ⟨d, hd, hmem⟩, h2⟩ := h
    have hcd : c = d := by simpa [CharSet.mem] using hmem
    rw [hx, hd, ih x2 rest _ h2, hcd]
    rfl

theorem space_prefix_unique (a a2 b b2 : List Char) (c : Char)
    (ha : AllRegexSpace a) (ha2 : AllRegexSpace a2) (hc : isRegexSpace c = false)
    (h : a ++ c :: b = a2 ++ c :: b2) : a = a2 ∧ b = b2 := by
  induction a generalizing a2 with
  | nil =>
    cases a2 with
    | nil => simpa using h
    | cons d a2 =>
      have hd : c = d := by simpa using (List.cons.inj h).1
      have := ha2 d (List.mem_cons_self _ _)
      rw [← hd, hc] at this
      cases this
  | cons d a ih =>
    cases a2 with
    | nil =>
      have hd : d = c := by simpa using (List.cons.inj h).1
      have := ha d (List.mem_cons_self _ _)
      rw [hd, hc] at this
      cases this
    | cons d2 a2 =>
      have h1 := List.cons.inj h
      obtain ⟨e1, e2⟩ := ih a2 (fun x hx => ha x (List.mem_cons_of_mem _ hx))
        (fun x hx => ha2 x (List.mem_cons_of_mem _ hx)) h1.2
      exact ⟨by rw [h1.1, e1], e2⟩

/-- A text ends in at most one way with a fence followed by white space. -/
theorem fence_suffix_unique (x y w w2 : List Char) (hw : AllRegexSpace w)
    (hw2 : AllRegexSpace w2) (h : x ++ "```".data ++ w = y ++ "```".data ++ w2) :
    x = y ∧ w = w2 := by
  have hrev := congrArg List.reverse h
  simp only [List.reverse_append] at hrev
  have hfence : ("```".data).reverse = '`' :: ['`', '`'] := by decide
  rw [hfence] at hrev
  simp only [List.cons_append, List.append_assoc] at hrev
  have hsp : ∀ l : List Char, AllRegexSpace l → AllRegexSpace l.reverse :=
    fun l hl c hc => hl c (List.mem_reverse.mp hc)
  obtain ⟨e1, e2⟩ := space_prefix_unique _ _ _ _ '`' (hsp w hw) (hsp w2 hw2) (by decide) hrev
  have e3 : x.reverse = y.reverse := by simpa using e2
  exact ⟨List.reverse_injective e3, List.reverse_injective e1⟩

theorem fenceTail_run (b ws2 : List Char) (pos : Nat) (cap : Option (List Char))
    (hb : AllRegexSpace b) (hws2 : AllRegexSpace ws2) :
    fenceTail.run ⟨pos, b ++ ("```".data ++ ws2), cap⟩ some
      = some ⟨pos + b.length + 3 + ws2.length, [], cap⟩ := by
  have hend : (Regex.seq (.star true .space) .eot).run ⟨pos + b.length + 3, ws2, cap⟩ some
      = some ⟨pos + b.length + 3 + ws2.length, [], cap⟩ := by
    have := starGreedy_all .space (fun st1 => Regex.eot.run st1 some) ws2 []
      (pos + b.length + 3) cap ⟨pos + b.length + 3 + ws2.length, [], cap⟩ hws2 (Or.inl rfl)
      (by simp [Regex.run])
    simpa [Regex.run] using this
  have hfence : (Regex.seq (Regex.str "```".data) (.seq (.star true .space) .eot)).run
      ⟨pos + b.length, "```".data ++ ws2, cap⟩ some
      = some ⟨pos + b.length + 3 + ws2.length, [], cap⟩ := by
    rw [Regex.run, Regex.str_run]
    exact hend
  have := starGreedy_all .space
    (fun st1 => (Regex.seq (Regex.str "```".data) (.seq (.star true .space) .eot)).run st1 some)
    b ("```".data ++ ws2) pos cap ⟨pos + b.length + 3 + ws2.length, [], cap⟩ hb
    (Or.inr ⟨'`', "``".data ++ ws2, rfl, by decide⟩) hfence
  simpa [fenceTail, Regex.cat, Regex.run] using this

theorem fenceTail_sound (st r : MatchState) (k : MatchState → Option MatchState)
    (h : fenceTail.run st k = some r) :
    ∃ w1 w2, st.rest = w1 ++ "```".data ++ w2 ∧ AllRegexSpace w1 ∧ AllRegexSpace w2 := by
  obtain ⟨x, rest, cap, hx, hm, _⟩ := Regex.run_sound fenceTail st k r h
  simp only [fenceTail, Regex.cat, Regex.Matches] at hm
  obtain ⟨w1, x2, hx2, hw1, y1, x3, hx3, hfence, w2, x4, hx4, hw2, hx4nil, hrest⟩ := hm
  have hy1 : y1 = "```".data :=
    Regex.str_matches "```".data y1 (x3 ++ rest) (st.pos + w1.length)
      (by simpa [Regex.str, Regex.Matches] using hfence)
  subst hx4nil hrest
  refine ⟨w1, w2, ?_, hw1, hw2⟩
  rw [hx, hx2, hx3, hx4, hy1]
  simp

theorem fenceBody_run (core b ws2 : List Char) (pos : Nat) (cap0 : Option (List Char))
    (hb : AllRegexSpace b) (hws2 : AllRegexSpace ws2)
    (hcore : core = [] ∨ ∃ cs c, core = cs ++ [c] ∧ isRegexSpace c = false) :
    ∃ n, fenceBody.run ⟨pos, core ++ (b ++ ("```".data ++ ws2)), cap0⟩ some
      = some ⟨n, [], some core⟩ := by
  refine ⟨pos + core.length + b.length + 3 + ws2.length, ?_⟩
  have hk : (fun st1 : MatchState => fenceTail.run
        { st1 with cap := some ((core ++ (b ++ ("```".data ++ ws2))).take (st1.pos - pos)) } some)
      ⟨pos + core.length, b ++ ("```".data ++ ws2), cap0⟩
      = some ⟨pos + core.length + b.length + 3 + ws2.length, [], some core⟩ := by
    simp only [Nat.add_sub_cancel_left, List.take_left']
    exact fenceTail_run b ws2 (pos + core.length) (some core) hb hws2
  have hfail : ∀ a1 a2, core = a1 ++ a2 → a2 ≠ [] →
      (fun st1 : MatchState => fenceTail.run
        { st1 with cap := some ((core ++ (b ++ ("```".data ++ ws2))).take (st1.pos - pos)) } some)
      ⟨pos + a1.length, a2 ++ (b ++ ("```".data ++ ws2)), cap0⟩ = none := by
    intro a1 a2 hsplit hne
    cases hrun : (fun st1 : MatchState => fenceTail.run
        { st1 with cap := some ((core ++ (b ++ ("```".data ++ ws2))).take (st1.pos - pos)) } some)
      ⟨pos + a1.length, a2 ++ (b ++ ("```".data ++ ws2)), cap0⟩ with
    | none => rfl
    | some r =>
      exfalso
      obtain ⟨w1, w2, hw, hw1, hw2⟩ := fenceTail_sound _ r some hrun
      simp only at hw
      have heq : (a2 ++ b) ++ "```".data ++ ws2 = w1 ++ "```".data ++ w2 := by
        rw [← hw]
        simp
      obtain ⟨e1, _⟩ := fence_suffix_unique _ _ _ _ hws2 hw2 heq
      rcases hcore with hnil | ⟨cs, c, hc, hcsp⟩
      · rw [hnil] at hsplit
        exact hne (List.append_eq_nil.mp hsplit.symm).2
      · have hlast : a2.getLast? = some c := by
          have h1 : (a1 ++ a2).getLast? = a2.getLast? := List.getLast?_append_of_ne_nil a1 hne
          rw [← h1, ← hsplit, hc, List.getLast?_concat]
        have hmem : c ∈ a2 := List.mem_of_getLast?_eq_some hlast
        have hsp : isRegexSpace c = true := hw1 c (by rw [← e1]; exact List.mem_append_left _ hmem)
        rw [hcsp] at hsp
        cases hsp
  have := starLazy_first .any
    (fun st1 : MatchState => fenceTail.run
      { st1 with cap := some ((core ++ (b ++ ("```".data ++ ws2))).take (st1.pos - pos)) } some)
    core (b ++ ("```".data ++ ws2)) pos cap0
    ⟨pos + core.length + b.length + 3 + ws2.length, [], some core⟩
    (fun _ _ => rfl) hfail hk
  simpa [fenceBody, Regex.run] using this

theorem markdownFenceRegex_eq :
    markdownFenceRegex
      = .seq .bot (.seq (.star true .space) (.seq (Regex.str "```".data)
          (.seq (.opt (Regex.str "json".data)) (.seq (.star true .space)
            (.seq (.opt (.chr (.one '\n'))) fenceBody))))) := by
  rfl

/-- The strict pattern on a text made of white space, a fence with or without
`json`, white space, a core without white space at its ends, white space, a
fence and white space: the match succeeds and the group holds the core. -/
theorem markdownFenceRegex_run (ws1 J A core b ws2 : List Char)
    (hws1 : AllRegexSpace ws1) (hA : AllRegexSpace A) (hb : AllRegexSpace b)
    (hws2 : AllRegexSpace ws2)
    (hJ : J = "json".data ∨ (J = [] ∧ A ≠ []))
    (hcore : (core = [] ∧ b = [])
      ∨ ((∃ c cs, core = c :: cs ∧ isRegexSpace c = false)
          ∧ ∃ cs c, core = cs ++ [c] ∧ isRegexSpace c = false)) :
    ∃ n, markdownFenceRegex.run
        ⟨0, ws1 ++ ("```".data ++ (J ++ (A ++ (core ++ (b ++ ("```".data ++ ws2)))))), none⟩ some
      = some ⟨n, [], some core⟩ := by
  have hlast : core = [] ∨ ∃ cs c, core = cs ++ [c] ∧ isRegexSpace c = false := by
    rcases hcore with ⟨h, _⟩ | ⟨_, h⟩
    · exact Or.inl h
    · exact Or.inr h
  have hhead : ∃ c cs, core ++ (b ++ ("```".data ++ ws2)) = c :: cs ∧ isRegexSpace c = false := by
    rcases hcore with ⟨h1, h2⟩ | ⟨⟨c, cs, h, hc⟩, _⟩
    · exact ⟨'`', "``".data ++ ws2, by rw [h1, h2]; rfl, by decide⟩
    · exact ⟨c, cs ++ (b ++ ("```".data ++ ws2)), by rw [h]; rfl, hc⟩
  obtain ⟨c0, cs0, hrest0, hc0⟩ := hhead
  obtain ⟨n, hbody⟩ := fenceBody_run core b ws2
    (0 + ws1.length + "```".data.length + J.length + A.length) none hb hws2 hlast
  refine ⟨n, ?_⟩
  -- the optional newline matches nothing
  have hnl : (Regex.seq (.opt (.chr (.one '\n'))) fenceBody).run
      ⟨0 + ws1.length + "```".data.length + J.length + A.length,
        core ++ (b ++ ("```".data ++ ws2)), none⟩ some = some ⟨n, [], some core⟩ := by
    have hne : ('\n' == c0) = false := by
      cases hq : ('\n' == c0) with
      | false => rfl
      | true =>
        have : c0 = '\n' := (beq_iff_eq.mp hq).symm
        rw [this] at hc0
        exact absurd hc0 (by decide)
    rw [hrest0] at hbody ⊢
    simp only [Regex.run, CharSet.mem, hne]
    exact hbody
  -- the white space after the fence
  have hsp : (Regex.seq (.star true .space) (.seq (.opt (.chr (.one '\n'))) fenceBody)).run
      ⟨0 + ws1.length + "```".data.length + J.length,
        A ++ (core ++ (b ++ ("```".data ++ ws2))), none⟩ some = some ⟨n, [], some core⟩ := by
    have := starGreedy_all .space
      (fun st1 => (Regex.seq (.opt (.chr (.one '\n'))) fenceBody).run st1 some)
      A (core ++ (b ++ ("```".data ++ ws2))) (0 + ws1.length + "```".data.length + J.length)
      none ⟨n, [], some core⟩ hA (Or.inr ⟨c0, cs0, hrest0, hc0⟩) hnl
    rw [Regex.run]
    exact this
  -- the optional `json`
  have hjson : (Regex.seq (.opt (Regex.str "json".data))
        (.seq (.star true .space) (.seq (.opt (.chr (.one '\n'))) fenceBody))).run
      ⟨0 + ws1.length + "```".data.length,
        J ++ (A ++ (core ++ (b ++ ("```".data ++ ws2)))), none⟩ some
      = some ⟨n, [], some core⟩ := by
    rcases hJ with hJ | ⟨hJ, hAne⟩
    · subst hJ
      rw [Regex.run, Regex.run, Regex.str_run, hsp]
    · subst hJ
      obtain ⟨a, A2, hAeq⟩ := List.exists_cons_of_ne_nil hAne
      have ha : isRegexSpace a = true := hA a (by rw [hAeq]; exact List.mem_cons_self _ _)
      have hja : ('j' == a) = false := by
        cases hq : ('j' == a) with
        | false => rfl
        | true =>
          have : a = 'j' := (beq_iff_eq.mp hq).symm
          rw [this] at ha
          exact absurd ha (by decide)
      have hfail : (Regex.str "json".data).run
          ⟨0 + ws1.length + "```".data.length,
            [] ++ (A ++ (core ++ (b ++ ("```".data ++ ws2)))), none⟩
          (fun st1 => (Regex.seq (.star true .space)
            (.seq (.opt (.chr (.one '\n'))) fenceBody)).run st1 some) = none := by
        rw [hAeq]
        have hj : "json".data = 'j' :: "son".data := rfl
        rw [hj]
        simp [Regex.str, Regex.run, CharSet.mem, hja]
      rw [Regex.run, Regex.run, hfail]
      simpa using hsp
  -- the opening fence and the leading white space
  have hfence : (Regex.seq (Regex.str "```".data) (.seq (.opt (Regex.str "json".data))
        (.seq (.star true .space) (.seq (.opt (.chr (.one '\n'))) fenceBody)))).run
      ⟨0 + ws1.length, "```".data ++ (J ++ (A ++ (core ++ (b ++ ("```".data ++ ws2))))), none⟩
      some = some ⟨n, [], some core⟩ := by
    rw [Regex.run, Regex.str_run]
    exact hjson
  have hlead := starGreedy_all .space
    (fun st1 => (Regex.seq (Regex.str "```".data) (.seq (.opt (Regex.str "json".data))
        (.seq (.star true .space) (.seq (.opt (.chr (.one '\n'))) fenceBody)))).run st1 some)
    ws1 ("```".data ++ (J ++ (A ++ (core ++ (b ++ ("```".data ++ ws2)))))) 0 none
    ⟨n, [], some core⟩ hws1
    (Or.inr ⟨'`', "``".data ++ (J ++ (A ++ (core ++ (b ++ ("```".data ++ ws2))))), rfl,
      by decide⟩) hfence
  rw [markdownFenceRegex_eq]
  simp only [Regex.run, if_true]
  exact hlead

theorem Regex.find_of_run (re : Regex) (pos : Nat) (l : List Char) (st : MatchState)
    (h : re.run ⟨pos, l, none⟩ some = some st) : re.find pos l = some (pos, st) := by
  cases l with
  | nil => simp [Regex.find, h]
  | cons c cs => simp [Regex.find, h]

theorem trim_left_split (t : List Char) :
    ∃ tl t2, t = tl ++ t2 ∧ AllRegexSpace tl
      ∧ (t2 = [] ∨ ∃ c cs, t2 = c :: cs ∧ isRegexSpace c = false) := by
  induction t with
  | nil => exact ⟨[], [], rfl, fun _ h => by simp at h, Or.inl rfl⟩
  | cons c t ih =>
    by_cases hc : isRegexSpace c = true
    · obtain ⟨tl, t2, ht, htl, ht2⟩ := ih
      refine ⟨c :: tl, t2, by rw [ht]; rfl, ?_, ht2⟩
      intro d hd
      rcases List.mem_cons.mp hd with rfl | hd
      · exact hc
      · exact htl d hd
    · exact ⟨[], c :: t, rfl, fun _ h => by simp at h,
        Or.inr ⟨c, t, rfl, by simpa using hc⟩⟩

theorem trim_right_split (t : List Char) :
    ∃ core tr, t = core ++ tr ∧ AllRegexSpace tr
      ∧ (core = [] ∨ ∃ cs c, core = cs ++ [c] ∧ isRegexSpace c = false) := by
  obtain ⟨tl, t2, ht, htl, ht2⟩ := trim_left_split t.reverse
  refine ⟨t2.reverse, tl.reverse, ?_, ?_, ?_⟩
  · have := congrArg List.reverse ht
    simpa using this
  · exact fun c hc => htl c (List.mem_reverse.mp hc)
  · rcases ht2 with h | ⟨c, cs, h, hc⟩
    · exact Or.inl (by rw [h]; rfl)
    · exact Or.inr ⟨cs.reverse, c, by rw [h]; simp, hc⟩

theorem unicodeIsSpace_of_isRegexSpace (c : Char) (h : isRegexSpace c = true) :
    unicodeIsSpace c = true := by
  simp only [isRegexSpace, Bool.or_eq_true, beq_iff_eq] at h
  rcases h with (((h | h) | h) | h) | h <;> subst h <;> decide

theorem dropWhile_append_all (p : Char → Bool) (w l : List Char)
    (hw : ∀ c ∈ w, p c = true) : (w ++ l).dropWhile p = l.dropWhile p := by
  induction w with
  | nil => rfl
  | cons c w ih =>
    have hc := hw c (List.mem_cons_self _ _)
    simp only [List.cons_append, List.dropWhile_cons, hc, if_true]
    exact ih (fun d hd => hw d (List.mem_cons_of_mem _ hd))

/-- White space around a text does not change what `strings.TrimSpace` leaves
of it. -/
theorem trimSpace_pad (tl x tr : List Char) (htl : ∀ c ∈ tl, unicodeIsSpace c = true)
    (htr : ∀ c ∈ tr, unicodeIsSpace c = true) :
    (((tl ++ (x ++ tr)).dropWhile unicodeIsSpace).reverse.dropWhile unicodeIsSpace).reverse
      = ((x.dropWhile unicodeIsSpace).reverse.dropWhile unicodeIsSpace).reverse := by
  rw [dropWhile_append_all _ tl _ htl]
  congr 1
  induction x with
  | nil =>
    have h := dropWhile_append_all unicodeIsSpace tr [] htr
    simp only [List.append_nil, List.dropWhile_nil] at h
    simp [h]
  | cons c x ih =>
    by_cases hc : unicodeIsSpace c = true
    · simpa [List.dropWhile_cons, hc] using ih
    · simp only [List.cons_append, List.dropWhile_cons, hc, if_false, Bool.false_eq_true]
      have hrev : (c :: (x ++ tr)).reverse = tr.reverse ++ (c :: x).reverse := by simp
      rw [hrev]
      exact dropWhile_append_all _ _ _ (fun d hd => htr d (List.mem_reverse.mp hd))

/-- The strict pattern on a fenced text: the match succeeds and what
`strings.TrimSpace` leaves of the group is what it leaves of the text between
the fences. -/
theorem markdownFenceRegex_fenced (ws1 J t ws2 : List Char)
    (hws1 : AllRegexSpace ws1) (hws2 : AllRegexSpace ws2) (hJ : J = "json".data ∨ J = []) :
    ∃ n core, markdownFenceRegex.run
          ⟨0, ws1 ++ ("```".data ++ (J ++ ('\n' :: (t ++ ('\n' :: ("```".data ++ ws2)))))), none⟩
          some
        = some ⟨n, [], some core⟩
      ∧ ((core.dropWhile unicodeIsSpace).reverse.dropWhile unicodeIsSpace).reverse
        = ((t.dropWhile unicodeIsSpace).reverse.dropWhile unicodeIsSpace).reverse := by
  have hnl : isRegexSpace '\n' = true := by decide
  have hJ2 : ∀ A : List Char, J = "json".data ∨ (J = [] ∧ '\n' :: A ≠ []) := by
    intro A
    rcases hJ with h | h
    · exact Or.inl h
    · exact Or.inr ⟨h, by simp⟩
  obtain ⟨tl, t2, ht, htl, ht2⟩ := trim_left_split t
  obtain ⟨core, tr, ht2s, htr, hcore⟩ := trim_right_split t2
  have hsp : ∀ l : List Char, AllRegexSpace l → ∀ c ∈ l, unicodeIsSpace c = true :=
    fun l hl c hc => unicodeIsSpace_of_isRegexSpace c (hl c hc)
  have htrim : ((core.dropWhile unicodeIsSpace).reverse.dropWhile unicodeIsSpace).reverse
      = ((t.dropWhile unicodeIsSpace).reverse.dropWhile unicodeIsSpace).reverse := by
    rw [ht, ht2s]
    exact (trimSpace_pad tl core tr (hsp tl htl) (hsp tr htr)).symm
  rcases ht2 with hnil | ⟨c, cs, hc2, hc⟩
  · -- the text between the fences is white space only
    have hcn : core = [] ∧ tr = [] := by
      rw [hnil] at ht2s
      exact List.append_eq_nil.mp ht2s.symm
    obtain ⟨n, hrun⟩ := markdownFenceRegex_run ws1 J ('\n' :: (tl ++ ['\n'])) [] [] ws2 hws1
      (by
        intro d hd
        rcases List.mem_cons.mp hd with rfl | hd
        · exact hnl
        · rcases List.mem_append.mp hd with hd | hd
          · exact htl d hd
          · rw [List.mem_singleton.mp hd]; exact hnl)
      (fun _ h => by simp at h) hws2 (hJ2 _) (Or.inl ⟨rfl, rfl⟩)
    refine ⟨n, [], ?_, ?_⟩
    · rw [← hrun, ht, hnil]
      simp
    · rw [← htrim, hcn.1]
  · -- the text between the fences has a core without white space at its ends
    have hcore2 : (∃ c cs, core = c :: cs ∧ isRegexSpace c = false)
        ∧ ∃ cs c, core = cs ++ [c] ∧ isRegexSpace c = false := by
      cases hcr : core with
      | nil =>
        rw [hcr, hc2] at ht2s
        have hmem : c ∈ tr := by
          rw [← List.nil_append tr, ← ht2s]
          exact List.mem_cons_self _ _
        have := htr c hmem
        rw [hc] at this
        cases this
      | cons d ds =>
        rw [hcr, hc2] at ht2s
        have hd : c = d := (List.cons.inj ht2s).1
        refine ⟨⟨d, ds, rfl, by rw [← hd]; exact hc⟩, ?_⟩
        rcases hcore with h | h
        · rw [hcr] at h
          cases h
        · rw [hcr] at h
          exact h
    obtain ⟨n, hrun⟩ := markdownFenceRegex_run ws1 J ('\n' :: tl) core (tr ++ ['\n']) ws2 hws1
      (by
        intro d hd
        rcases List.mem_cons.mp hd with rfl | hd
        · exact hnl
        · exact htl d hd)
      (by
        intro d hd
        rcases List.mem_append.mp hd with hd | hd
        · exact htr d hd
        · rw [List.mem_singleton.mp hd]; exact hnl)
      hws2 (hJ2 _) (Or.inr hcore2)
    refine ⟨n, core, ?_, htrim⟩
    rw [← hrun, ht, ht2s]
    simp

theorem stripMarkdownText_of_strict (text : String) (n : Nat) (core : List Char)
    (h : markdownFenceRegex.run ⟨0, text.data, none⟩ some = some ⟨n, [], some core⟩) :
    stripMarkdownText text = stringsTrimSpace (String.mk core) := by
  have hfind := Regex.find_of_run markdownFenceRegex 0 text.data _ h
  simp [stripMarkdownText, FindStringSubmatch, hfind]

/-- Soundness of the matcher for a pattern without capture group: the text of
the group is handed on unchanged. -/
theorem Regex.run_sound_groupFree (re : Regex) (hgf : re.groupFree = true) (st : MatchState)
    (k : MatchState → Option MatchState) (r : MatchState) (h : re.run st k = some r) :
    ∃ x rest, st.rest = x ++ rest ∧ re.Matches st.pos x rest
      ∧ k ⟨st.pos + x.length, rest, st.cap⟩ = some r := by
  induction re generalizing st k r with
  | empty => exact ⟨[], st.rest, rfl, rfl, by simpa [Regex.run] using h⟩
  | chr set =>
    unfold Regex.run at h
    cases hrest : st.rest with
    | nil => simp [hrest] at h
    | cons c cs =>
      simp only [hrest] at h
      by_cases hc : set.mem c = true
      · rw [if_pos hc] at h
        exact ⟨[c], cs, rfl, ⟨c, rfl, hc⟩, by simpa using h⟩
      · rw [if_neg hc] at h
        cases h
  | seq a b iha ihb =>
    simp only [Regex.groupFree, Bool.and_eq_true] at hgf
    unfold Regex.run at h
    obtain ⟨x1, rest1, h1, hm1, hk1⟩ := iha hgf.1 st _ r h
    obtain ⟨x2, rest2, h2, hm2, hk2⟩ := ihb hgf.2 _ k r hk1
    simp only at h2 hm2 hk2
    refine ⟨x1 ++ x2, rest2, by rw [h1, h2, List.append_assoc], ?_, ?_⟩
    · exact ⟨x1, x2, rfl, by rw [← h2]; exact hm1, hm2⟩
    · rw [← hk2]
      simp [Nat.add_assoc]
  | alt a b iha ihb =>
    simp only [Regex.groupFree, Bool.and_eq_true] at hgf
    unfold Regex.run at h
    cases ha : a.run st k with
    | some r1 =>
      rw [ha] at h
      obtain ⟨x, rest, h1, hm, hk⟩ := iha hgf.1 st k r (by rw [ha, ← Option.some.inj h])
      exact ⟨x, rest, h1, Or.inl hm, hk⟩
    | none =>
      rw [ha] at h
      obtain ⟨x, rest, h1, hm, hk⟩ := ihb hgf.2 st k r h
      exact ⟨x, rest, h1, Or.inr hm, hk⟩
  | star greedy set =>
    cases greedy with
    | true =>
      unfold Regex.run at h
      exact starGreedy_sound set k st.rest st.pos st.cap r h
    | false =>
      unfold Regex.run at h
      exact starLazy_sound set k st.rest st.pos st.cap r h
  | opt a iha =>
    simp only [Regex.groupFree] at hgf
    unfold Regex.run at h
    cases ha : a.run st k with
    | some r1 =>
      rw [ha] at h
      obtain ⟨x, rest, h1, hm, hk⟩ := iha hgf st k r (by rw [ha, ← Option.some.inj h])
      exact ⟨x, rest, h1, Or.inr hm, hk⟩
    | none =>
      rw [ha] at h
      exact ⟨[], st.rest, rfl, Or.inl rfl, by simpa using h⟩
  | group a _ => simp [Regex.groupFree] at hgf
  | bot =>
    unfold Regex.run at h
    by_cases hp : st.pos = 0
    · rw [if_pos hp] at h
      exact ⟨[], st.rest, rfl, ⟨rfl, hp⟩, by simpa using h⟩
    · rw [if_neg hp] at h
      cases h
  | eot =>
    unfold Regex.run at h
    cases hrest : st.rest with
    | nil =>
      simp only [hrest] at h
      refine ⟨[], [], rfl, ⟨rfl, rfl⟩, ?_⟩
      obtain ⟨pos, rest, cap⟩ := st
      simp only at hrest
      subst hrest
      simpa using h
    | cons c cs => simp [hrest] at h

/-- A capture group followed by a pattern without group: on success the text of
the group is the text the group matched. -/
theorem Regex.run_group_cap (g t : Regex) (ht : t.groupFree = true) (st r : MatchState)
    (h : (Regex.seq (.group g) t).run st some = some r) :
    ∃ x y rest, st.rest = x ++ (y ++ rest) ∧ g.Matches st.pos x (y ++ rest)
      ∧ t.Matches (st.pos + x.length) y rest ∧ r.cap = some x := by
  simp only [Regex.run] at h
  obtain ⟨x, rest1, cap1, h1, hm1, hk1⟩ := Regex.run_sound g st _ r h
  simp only [Nat.add_sub_cancel_left] at hk1
  obtain ⟨y, rest, h2, hm2, hk2⟩ := Regex.run_sound_groupFree t ht _ some r hk1
  simp only at h2 hm2 hk2
  refine ⟨x, y, rest, by rw [h1, h2], by rw [← h2]; exact hm1, hm2, ?_⟩
  rw [← Option.some.inj hk2, h1]
  simp

theorem Regex.find_sound (re : Regex) (pos : Nat) (l : List Char) (start : Nat)
    (st : MatchState) (h : re.find pos l = some (start, st)) :
    ∃ skipped l2, l = skipped ++ l2 ∧ start = pos + skipped.length
      ∧ re.run ⟨start, l2, none⟩ some = some st := by
  induction l generalizing pos with
  | nil =>
    unfold Regex.find at h
    cases hrun : re.run ⟨pos, [], none⟩ some with
    | none => simp [hrun] at h
    | some st1 =>
      simp only [hrun, Option.some.injEq, Prod.mk.injEq] at h
      obtain ⟨rfl, rfl⟩ := h
      exact ⟨[], [], rfl, rfl, hrun⟩
  | cons c cs ih =>
    unfold Regex.find at h
    cases hrun : re.run ⟨pos, c :: cs, none⟩ some with
    | none =>
      simp only [hrun] at h
      obtain ⟨skipped, l2, hl, hs, hr⟩ := ih (pos + 1) h
      exact ⟨c :: skipped, l2, by rw [hl]; rfl, by rw [hs, List.length_cons]; omega, hr⟩
    | some st1 =>
      simp only [hrun, Option.some.injEq, Prod.mk.injEq] at h
      obtain ⟨rfl, rfl⟩ := h
      exact ⟨[], c :: cs, rfl, rfl, hrun⟩

theorem Regex.run_seq_sound (a b : Regex) (st : MatchState)
    (k : MatchState → Option MatchState) (r : MatchState)
    (h : (Regex.seq a b).run st k = some r) :
    ∃ x rest cap, st.rest = x ++ rest ∧ a.Matches st.pos x rest
      ∧ b.run ⟨st.pos + x.length, rest, cap⟩ k = some r := by
  rw [Regex.run] at h
  exact Regex.run_sound a st _ r h

theorem fenceClose_matches (pos : Nat) (y rest : List Char)
    (h : fenceClose.Matches pos y rest) : ∃ w, y = w ++ "```".data := by
  obtain ⟨x1, x2, hy, -, h2⟩ := h
  have := Regex.str_matches _ _ _ _ h2
  exact ⟨x1, by rw [hy, this]⟩

theorem fenceTail_matches (pos : Nat) (y rest : List Char)
    (h : fenceTail.Matches pos y rest) : ∃ w w2, y = w ++ ("```".data ++ w2) := by
  obtain ⟨x1, x2, hy, -, x3, x4, h2, h3, -⟩ := h
  have := Regex.str_matches _ _ _ _ h3
  exact ⟨x1, x4, by rw [hy, h2, this]⟩

/-- The shape of a text the strict pattern matches, with the text of the
group. -/
theorem markdownFenceRegex_shape (st r : MatchState)
    (h : markdownFenceRegex.run st some = some r) :
    ∃ p q cap s w, st.rest = p ++ ("```".data ++ (q ++ (cap ++ (s ++ ("```".data ++ w)))))
      ∧ r.cap = some cap := by
  rw [markdownFenceRegex_eq] at h
  obtain ⟨x1, r1, c1, e1, -, h1⟩ := Regex.run_seq_sound _ _ _ _ _ h
  obtain ⟨x2, r2, c2, e2, -, h2⟩ := Regex.run_seq_sound _ _ _ _ _ h1
  obtain ⟨x3, r3, c3, e3, m3, h3⟩ := Regex.run_seq_sound _ _ _ _ _ h2
  obtain ⟨x4, r4, c4, e4, -, h4⟩ := Regex.run_seq_sound _ _ _ _ _ h3
  obtain ⟨x5, r5, c5, e5, -, h5⟩ := Regex.run_seq_sound _ _ _ _ _ h4
  obtain ⟨x6, r6, c6, e6, -, h6⟩ := Regex.run_seq_sound _ _ _ _ _ h5
  obtain ⟨x, y, rest, e7, -, m7, hcap⟩ := Regex.run_group_cap _ fenceTail (by rfl) _ r h6
  obtain ⟨w, w2, hy⟩ := fenceTail_matches _ _ _ m7
  have hx3 := Regex.str_matches _ _ _ _ m3
  simp only at e2 e3 e4 e5 e6 e7
  refine ⟨x1 ++ x2, x4 ++ x5 ++ x6, x, w, w2 ++ rest, ?_, hcap⟩
  rw [e1, e2, e3, e4, e5, e6, e7, hy, hx3]
  simp only [List.append_assoc]

/-- The shape of a text the permissive pattern matches at its beginning, with
the text of the group. -/
theorem markdownFenceExtractRegex_shape (st r : MatchState)
    (h : markdownFenceExtractRegex.run st some = some r) :
    ∃ q cap s w, st.rest = "```".data ++ (q ++ (cap ++ (s ++ ("```".data ++ w))))
      ∧ r.cap = some cap := by
  have heq : markdownFenceExtractRegex
      = .seq (Regex.str "```".data) (.seq (.opt (Regex.str "json".data))
          (.seq (.star true .space) (.seq (.opt (.chr (.one '\n')))
            (.seq (.group fencedJSON) fenceClose)))) := rfl
  rw [heq] at h
  obtain ⟨x3, r3, c3, e3, m3, h3⟩ := Regex.run_seq_sound _ _ _ _ _ h
  obtain ⟨x4, r4, c4, e4, -, h4⟩ := Regex.run_seq_sound _ _ _ _ _ h3
  obtain ⟨x5, r5, c5, e5, -, h5⟩ := Regex.run_seq_sound _ _ _ _ _ h4
  obtain ⟨x6, r6, c6, e6, -, h6⟩ := Regex.run_seq_sound _ _ _ _ _ h5
  obtain ⟨x, y, rest, e7, -, m7, hcap⟩ := Regex.run_group_cap _ fenceClose (by rfl) _ r h6
  obtain ⟨w, hy⟩ := fenceClose_matches _ _ _ m7
  have hx3 := Regex.str_matches _ _ _ _ m3
  simp only at e4 e5 e6 e7
  refine ⟨x4 ++ x5 ++ x6, x, w, rest, ?_, hcap⟩
  rw [e3, e4, e5, e6, e7, hy, hx3]
  simp only [List.append_assoc]

/-- The two outcomes of the loop body: the text is kept, or it holds a fenced
group and is replaced by the trimmed text of the group. -/
theorem stripMarkdownText_cases (text : String) :
    stripMarkdownText text = text
      ∨ ∃ p q cap s w,
          text.data = p ++ ("```".data ++ (q ++ (cap ++ (s ++ ("```".data ++ w)))))
          ∧ stripMarkdownText text = stringsTrimSpace (String.mk cap) := by
  unfold stripMarkdownText FindStringSubmatch
  cases hs : markdownFenceRegex.find 0 text.data with
  | some res =>
    obtain ⟨start, st⟩ := res
    obtain ⟨skipped, l2, hl, -, hrun⟩ := Regex.find_sound _ _ _ _ _ hs
    obtain ⟨p, q, cap, s, w, hshape, hcap⟩ := markdownFenceRegex_shape _ _ hrun
    simp only at hshape
    refine Or.inr ⟨skipped ++ p, q, cap, s, w, by rw [hl, hshape, List.append_assoc], ?_⟩
    simp [hcap]
  | none =>
    cases hp : markdownFenceExtractRegex.find 0 text.data with
    | some res =>
      obtain ⟨start, st⟩ := res
      obtain ⟨skipped, l2, hl, -, hrun⟩ := Regex.find_sound _ _ _ _ _ hp
      obtain ⟨q, cap, s, w, hshape, hcap⟩ := markdownFenceExtractRegex_shape _ _ hrun
      simp only at hshape
      refine Or.inr ⟨skipped, q, cap, s, w, by rw [hl, hshape], ?_⟩
      simp [hcap]
    | none => simp

theorem count_of_HasTwoFences (l : List Char) (h : HasTwoFences l) : 6 ≤ l.count '`' := by
  obtain ⟨a, b, c, rfl⟩ := h
  have : "```".data.count '`' = 3 := by decide
  simp only [List.count_append, this]
  omega

theorem count_of_HasFourFences (l : List Char) (h : HasFourFences l) : 12 ≤ l.count '`' := by
  obtain ⟨a, b, c, d, e, rfl⟩ := h
  have : "```".data.count '`' = 3 := by decide
  simp only [List.count_append, this]
  omega

theorem trim_inside (l : List Char) :
    ∃ u v, l = u ++ (((l.dropWhile unicodeIsSpace).reverse.dropWhile unicodeIsSpace).reverse
      ++ v) := by
  refine ⟨l.takeWhile unicodeIsSpace,
    ((l.dropWhile unicodeIsSpace).reverse.takeWhile unicodeIsSpace).reverse, ?_⟩
  rw [← List.reverse_append, List.takeWhile_append_dropWhile, List.reverse_reverse,
    List.takeWhile_append_dropWhile]

theorem stripMarkdownText_unfenced (text : String) (h : ¬ HasTwoFences text.data) :
    stripMarkdownText text = text := by
  rcases stripMarkdownText_cases text with h1 | ⟨p, q, cap, s, w, hshape, -⟩
  · exact h1
  · exact absurd ⟨p, q ++ (cap ++ s), w, by rw [hshape]; simp only [List.append_assoc]⟩ h

theorem stripMarkdownText_idem (text : String) (h : ¬ HasFourFences text.data) :
    stripMarkdownText (stripMarkdownText text) = stripMarkdownText text := by
  rcases stripMarkdownText_cases text with h1 | ⟨p, q, cap, s, w, hshape, hres⟩
  · rw [h1, h1]
  · rcases stripMarkdownText_cases (stripMarkdownText text) with h2 | ⟨p2, q2, cap2, s2, w2, hshape2, -⟩
    · exact h2
    · exfalso
      obtain ⟨u, v, huv⟩ := trim_inside cap
      rw [hres] at hshape2
      simp only [stringsTrimSpace] at hshape2
      rw [hshape2] at huv
      apply h
      refine ⟨p, q ++ (u ++ p2), q2 ++ (cap2 ++ s2), w2 ++ (v ++ s), w, ?_⟩
      rw [hshape, huv]
      simp only [List.append_assoc]

theorem stripMarkdownPart_unfenced (part : Part) (h : ¬ HasTwoFences part.Text.data) :
    stripMarkdownPart (some part) = some part := by
  simp only [stripMarkdownPart]
  split_ifs with h0
  · rfl
  · rw [stripMarkdownText_unfenced _ h]

theorem stripMarkdownPart_idem (part : Option Part)
    (h : ∀ p, part = some p → ¬ HasFourFences p.Text.data) :
    stripMarkdownPart (stripMarkdownPart part) = stripMarkdownPart part := by
  cases part with
  | none => rfl
  | some p =>
    simp only [stripMarkdownPart]
    by_cases h0 : p.Text = ""
    · simp [h0, stripMarkdownPart]
    · rw [if_neg h0]
      simp only [stripMarkdownPart]
      by_cases h1 : stripMarkdownText p.Text = ""
      · rw [if_pos h1]
      · rw [if_neg h1, stripMarkdownText_idem _ (h p rfl)]

theorem first_nonspace_unique (a a2 b b2 : List Char) (c c2 : Char)
    (ha : AllRegexSpace a) (ha2 : AllRegexSpace a2) (hc : isRegexSpace c = false)
    (hc2 : isRegexSpace c2 = false) (h : a ++ c :: b = a2 ++ c2 :: b2) : c = c2 := by
  induction a generalizing a2 with
  | nil =>
    cases a2 with
    | nil => exact (List.cons.inj h).1
    | cons d a2 =>
      have hd : c = d := by simpa using (List.cons.inj h).1
      have := ha2 d (List.mem_cons_self _ _)
      rw [← hd, hc] at this
      cases this
  | cons d a ih =>
    cases a2 with
    | nil =>
      have hd : d = c2 := by simpa using (List.cons.inj h).1
      have := ha d (List.mem_cons_self _ _)
      rw [hd, hc2] at this
      cases this
    | cons d2 a2 =>
      exact ih a2 (fun x hx => ha x (List.mem_cons_of_mem _ hx))
        (fun x hx => ha2 x (List.mem_cons_of_mem _ hx)) (List.cons.inj h).2

/-- The strict pattern finds nothing in a text whose first character outside
the white space is not a backtick. -/
theorem markdownFenceRegex_find_none (pre rest : List Char)
    (hpre : ∃ c ∈ pre, isRegexSpace c = false) (hbt : ∀ c ∈ pre, c ≠ '`') :
    markdownFenceRegex.find 0 (pre ++ rest) = none := by
  cases hf : markdownFenceRegex.find 0 (pre ++ rest) with
  | none => rfl
  | some res =>
    exfalso
    obtain ⟨start, st⟩ := res
    obtain ⟨skipped, l2, hl, hs, hrun⟩ := Regex.find_sound _ _ _ _ _ hf
    rw [markdownFenceRegex_eq] at hrun
    obtain ⟨x1, r1, c1, e1, m1, h1⟩ := Regex.run_seq_sound _ _ _ _ _ hrun
    obtain ⟨x2, r2, c2, e2, m2, h2⟩ := Regex.run_seq_sound _ _ _ _ _ h1
    obtain ⟨x3, r3, c3, e3, m3, h3⟩ := Regex.run_seq_sound _ _ _ _ _ h2
    have hx3 := Regex.str_matches _ _ _ _ m3
    simp only at e1 e2 e3 m1
    obtain ⟨hx1, hstart⟩ := m1
    have hsk : skipped = [] := by
      rw [hstart] at hs
      exact List.length_eq_zero.mp (by omega)
    obtain ⟨tl, t2, hsplit, htl, ht2⟩ := trim_left_split pre
    rcases ht2 with hnil | ⟨c, cs, hcs, hc⟩
    · obtain ⟨d, hd, hdsp⟩ := hpre
      rw [hsplit, hnil, List.append_nil] at hd
      rw [htl d hd] at hdsp
      cases hdsp
    · have heq : tl ++ c :: (cs ++ rest) = x2 ++ '`' :: ("``".data ++ r3) := by
        have : pre ++ rest = x2 ++ ("```".data ++ r3) := by
          rw [hl, hsk, List.nil_append, e1, hx1, List.nil_append, e2, e3, hx3]
        rw [hsplit, hcs] at this
        simpa using this
      have := first_nonspace_unique _ _ _ _ _ _ htl m2 hc (by decide) heq
      exact hbt c (by rw [hsplit, hcs]; simp) this

/-- The permissive pattern does not match at a character other than the
backtick. -/
theorem markdownFenceExtractRegex_find_skip (pre l : List Char) (pos : Nat)
    (hbt : ∀ c ∈ pre, c ≠ '`') :
    markdownFenceExtractRegex.find pos (pre ++ l)
      = markdownFenceExtractRegex.find (pos + pre.length) l := by
  induction pre generalizing pos with
  | nil => rfl
  | cons c pre ih =>
    have hne : ('`' == c) = false := by
      cases hq : ('`' == c) with
      | false => rfl
      | true => exact absurd (beq_iff_eq.mp hq).symm (hbt c (List.mem_cons_self _ _))
    have hrun : markdownFenceExtractRegex.run ⟨pos, c :: (pre ++ l), none⟩ some = none := by
      have hj : "```".data = '`' :: "``".data := rfl
      simp [markdownFenceExtractRegex, Regex.cat, hj, Regex.str, Regex.run, CharSet.mem, hne]
    rw [List.cons_append, Regex.find, hrun]
    simp only
    rw [ih (pos + 1) (fun d hd => hbt d (List.mem_cons_of_mem _ hd)), List.length_cons]
    congr 1
    omega

theorem fenceClose_matches_space (pos : Nat) (y rest : List Char)
    (h : fenceClose.Matches pos y rest) : ∃ w, y = w ++ "```".data ∧ AllRegexSpace w := by
  obtain ⟨x1, x2, hy, h1, h2⟩ := h
  have := Regex.str_matches _ _ _ _ h2
  exact ⟨x1, by rw [hy, this], h1⟩

/-- A fence that begins, after white space, before a character that is neither
white space nor a backtick lies before that character. -/
theorem fence_before_char (x y w z : List Char) (c : Char) (hw : AllRegexSpace w)
    (hc : isRegexSpace c = false) (hbt : c ≠ '`')
    (h : x ++ c :: y = (w ++ "```".data) ++ z) : "```".data <:+: x := by
  rcases List.append_eq_append_iff.mp h with ⟨a, h1, h2⟩ | ⟨a, h1, h2⟩
  · cases a with
    | nil => exact ⟨w, [], by rw [h1]; simp⟩
    | cons d a =>
      have hd : c = d := (List.cons.inj h2).1
      have hmem : c ∈ w ++ "```".data := by rw [h1, hd]; simp
      rcases List.mem_append.mp hmem with hm | hm
      · rw [hw c hm] at hc
        cases hc
      · exfalso
        apply hbt
        have : "```".data = ['`', '`', '`'] := rfl
        rw [this] at hm
        simpa using hm
  · exact ⟨w, a, h1.symm⟩

theorem Regex.chr_run_eq (c : Char) (cs : List Char) (pos : Nat) (cap : Option (List Char))
    (k : MatchState → Option MatchState) :
    (Regex.chr (.one c)).run ⟨pos, c :: cs, cap⟩ k = k ⟨pos + 1, cs, cap⟩ := by
  simp [Regex.run, CharSet.mem]

theorem Regex.chr_run_ne (c d : Char) (cs : List Char) (pos : Nat) (cap : Option (List Char))
    (k : MatchState → Option MatchState) (h : d ≠ c) :
    (Regex.chr (.one c)).run ⟨pos, d :: cs, cap⟩ k = none := by
  have hne : (c == d) = false := by
    cases hq : (c == d) with
    | false => rfl
    | true => exact absurd (beq_iff_eq.mp hq).symm h
  simp [Regex.run, CharSet.mem, hne]

theorem fenceClose_run (ws post : List Char) (p : Nat) (cap : Option (List Char))
    (hws : AllRegexSpace ws) :
    fenceClose.run ⟨p, ws ++ ("```".data ++ post), cap⟩ some
      = some ⟨p + ws.length + 3, post, cap⟩ := by
  have := starGreedy_all .space (fun st1 => (Regex.str "```".data).run st1 some)
    ws ("```".data ++ post) p cap ⟨p + ws.length + 3, post, cap⟩ hws
    (Or.inr ⟨'`', "``".data ++ post, rfl, by decide⟩)
    (by
      show (Regex.str "```".data).run ⟨p + ws.length, "```".data ++ post, cap⟩ some = _
      rw [Regex.str_run]
      rfl)
  rw [fenceClose, Regex.run, Regex.run]
  exact this

/-- The run of one branch of the capture group of the permissive pattern on a
bracketed body without fence, followed by white space and the closing fence:
the lazy star stops at the last character of the body. -/
theorem bracket_run (o cl : Char) (inner ws post full : List Char) (pos gpos : Nat)
    (cap0 : Option (List Char)) (hcl : isRegexSpace cl = false) (hbt : cl ≠ '`')
    (hws : AllRegexSpace ws) (hno : ¬ "```".data <:+: o :: (inner ++ [cl]))
    (hfull : full.take (pos + (o :: (inner ++ [cl])).length - gpos) = o :: (inner ++ [cl])) :
    (Regex.cat [.chr (.one o), .star false .any, .chr (.one cl)]).run
        ⟨pos, (o :: (inner ++ [cl])) ++ (ws ++ ("```".data ++ post)), cap0⟩
        (fun st1 => fenceClose.run
          { st1 with cap := some (full.take (st1.pos - gpos)) } some)
      = some ⟨pos + (o :: (inner ++ [cl])).length + ws.length + 3, post,
          some (o :: (inner ++ [cl]))⟩ := by
  have hlazy := starLazy_first .any
    (fun st2 => (Regex.chr (.one cl)).run st2 (fun st1 => fenceClose.run
      { st1 with cap := some (full.take (st1.pos - gpos)) } some))
    inner (cl :: (ws ++ ("```".data ++ post))) (pos + 1) cap0
    ⟨pos + (o :: (inner ++ [cl])).length + ws.length + 3, post, some (o :: (inner ++ [cl]))⟩
    (fun _ _ => rfl)
    (by
      intro a1 a2 hsplit hne
      obtain ⟨c, a3, ha2⟩ := List.exists_cons_of_ne_nil hne
      subst ha2
      by_cases hc : c = cl
      · subst hc
        show (Regex.chr (.one c)).run
          ⟨pos + 1 + a1.length, c :: (a3 ++ c :: (ws ++ ("```".data ++ post))), cap0⟩ _ = none
        rw [Regex.chr_run_eq]
        cases hrun : fenceClose.run
            ⟨pos + 1 + a1.length + 1, a3 ++ c :: (ws ++ ("```".data ++ post)),
              some (full.take (pos + 1 + a1.length + 1 - gpos))⟩ some with
        | none => rfl
        | some r =>
          exfalso
          obtain ⟨x, rest, hx, hm, -⟩ := Regex.run_sound_groupFree fenceClose (by rfl) _ some r hrun
          obtain ⟨w, hw, hwsp⟩ := fenceClose_matches_space _ _ _ hm
          simp only at hx
          rw [hw] at hx
          obtain ⟨s, t, hst⟩ := fence_before_char _ _ _ _ _ hwsp hcl hbt hx
          apply hno
          refine ⟨o :: (a1 ++ c :: s), t ++ [c], ?_⟩
          rw [hsplit, ← hst]
          simp
      · show (Regex.chr (.one cl)).run
          ⟨pos + 1 + a1.length, c :: (a3 ++ cl :: (ws ++ ("```".data ++ post))), cap0⟩ _ = none
        exact Regex.chr_run_ne _ _ _ _ _ _ hc)
    (by
      show (Regex.chr (.one cl)).run
          ⟨pos + 1 + inner.length, cl :: (ws ++ ("```".data ++ post)), cap0⟩ _ = _
      rw [Regex.chr_run_eq]
      have hpos : pos + 1 + inner.length + 1 = pos + (o :: (inner ++ [cl])).length := by
        simp only [List.length_cons, List.length_append, List.length_nil]
        omega
      show fenceClose.run ⟨pos + 1 + inner.length + 1, ws ++ ("```".data ++ post),
        some (full.take (pos + 1 + inner.length + 1 - gpos))⟩ some = _
      rw [hpos, hfull, fenceClose_run _ _ _ _ hws])
  show (Regex.seq (.chr (.one o)) (.seq (.star false .any) (.chr (.one cl)))).run
    ⟨pos, o :: ((inner ++ [cl]) ++ (ws ++ ("```".data ++ post))), cap0⟩ _ = _
  rw [Regex.run, Regex.chr_run_eq, Regex.run, Regex.run]
  rw [List.append_assoc]
  exact hlazy

/-- The capture group of the permissive pattern and the closing fence, on a
JSON object or array without fence followed by white space and a fence: the
group takes the whole body. -/
theorem fencedJSON_run (body ws post : List Char) (pos : Nat) (cap0 : Option (List Char))
    (hbody : (∃ inner, body = '{' :: (inner ++ ['}'])) ∨ (∃ inner, body = '[' :: (inner ++ [']'])))
    (hws : AllRegexSpace ws) (hno : ¬ "```".data <:+: body) :
    (Regex.seq (.group fencedJSON) fenceClose).run
        ⟨pos, body ++ (ws ++ ("```".data ++ post)), cap0⟩ some
      = some ⟨pos + body.length + ws.length + 3, post, some body⟩ := by
  show (Regex.alt (Regex.cat [.chr (.one '{'), .star false .any, .chr (.one '}')])
      (Regex.cat [.chr (.one '['), .star false .any, .chr (.one ']')])).run
    ⟨pos, body ++ (ws ++ ("```".data ++ post)), cap0⟩
    (fun st1 => fenceClose.run
      { st1 with cap := some ((body ++ (ws ++ ("```".data ++ post))).take (st1.pos - pos)) }
      some) = _
  rcases hbody with ⟨inner, rfl⟩ | ⟨inner, rfl⟩
  · rw [Regex.run, bracket_run '{' '}' inner ws post _ pos pos cap0 (by decide) (by decide) hws hno
      (by rw [Nat.add_sub_cancel_left, List.take_left'] ; rfl)]
  · have hfirst : (Regex.cat [.chr (.one '{'), .star false .any, .chr (.one '}')]).run
        ⟨pos, ('[' :: (inner ++ [']'])) ++ (ws ++ ("```".data ++ post)), cap0⟩
        (fun st1 => fenceClose.run
          { st1 with cap := some ((('[' :: (inner ++ [']'])) ++ (ws ++ ("```".data ++ post))).take
              (st1.pos - pos)) } some) = none := by
      show (Regex.seq (.chr (.one '{')) (.seq (.star false .any) (.chr (.one '}')))).run
        ⟨pos, '[' :: ((inner ++ [']']) ++ (ws ++ ("```".data ++ post))), cap0⟩ _ = none
      rw [Regex.run, Regex.chr_run_ne _ _ _ _ _ _ (by decide)]
    rw [Regex.run, hfirst]
    exact bracket_run '[' ']' inner ws post _ pos pos cap0 (by decide) (by decide) hws hno
      (by rw [Nat.add_sub_cancel_left, List.take_left'] ; rfl)

/-- The permissive pattern on a fence with the `json` tag, a line break, a JSON
object or array without fence, white space and the closing fence. -/
theorem markdownFenceExtractRegex_run (body ws post : List Char) (pos : Nat)
    (hbody : (∃ inner, body = '{' :: (inner ++ ['}'])) ∨ (∃ inner, body = '[' :: (inner ++ [']'])))
    (hws : AllRegexSpace ws) (hno : ¬ "```".data <:+: body) :
    ∃ n, markdownFenceExtractRegex.run
        ⟨pos, "```".data ++ ("json".data ++ ('\n' :: (body ++ (ws ++ ("```".data ++ post))))), none⟩
        some
      = some ⟨n, post, some body⟩ := by
  have hhead : ∃ c cs, body = c :: cs ∧ isRegexSpace c = false ∧ c ≠ '\n' := by
    rcases hbody with ⟨inner, rfl⟩ | ⟨inner, rfl⟩
    · exact ⟨_, _, rfl, by decide, by decide⟩
    · exact ⟨_, _, rfl, by decide, by decide⟩
  obtain ⟨c0, cs0, hc0, hsp0, hnl0⟩ := hhead
  refine ⟨pos + 3 + 4 + 1 + body.length + ws.length + 3, ?_⟩
  have hgroup := fencedJSON_run body ws post (pos + 3 + 4 + 1) none hbody hws hno
  have hnl : (Regex.seq (.opt (.chr (.one '\n'))) (.seq (.group fencedJSON) fenceClose)).run
      ⟨pos + 3 + 4 + 1, body ++ (ws ++ ("```".data ++ post)), none⟩ some
      = some ⟨pos + 3 + 4 + 1 + body.length + ws.length + 3, post, some body⟩ := by
    have hfail : (Regex.chr (.one '\n')).run
        ⟨pos + 3 + 4 + 1, body ++ (ws ++ ("```".data ++ post)), none⟩
        (fun st1 => (Regex.seq (.group fencedJSON) fenceClose).run st1 some) = none := by
      rw [hc0]
      exact Regex.chr_run_ne _ _ _ _ _ _ hnl0
    rw [Regex.run, Regex.run, hfail]
    exact hgroup
  have hsp : (Regex.seq (.star true .space)
        (.seq (.opt (.chr (.one '\n'))) (.seq (.group fencedJSON) fenceClose))).run
      ⟨pos + 3 + 4, '\n' :: (body ++ (ws ++ ("```".data ++ post))), none⟩ some
      = some ⟨pos + 3 + 4 + 1 + body.length + ws.length + 3, post, some body⟩ := by
    have := starGreedy_all .space
      (fun st1 => (Regex.seq (.opt (.chr (.one '\n')))
        (.seq (.group fencedJSON) fenceClose)).run st1 some)
      ['\n'] (body ++ (ws ++ ("```".data ++ post))) (pos + 3 + 4) none
      ⟨pos + 3 + 4 + 1 + body.length + ws.length + 3, post, some body⟩
      (by intro c hc; rw [List.mem_singleton.mp hc]; decide)
      (Or.inr ⟨c0, cs0 ++ (ws ++ ("```".data ++ post)), by rw [hc0]; rfl, hsp0⟩) hnl
    rw [Regex.run]
    exact this
  have heq : markdownFenceExtractRegex
      = .seq (Regex.str "```".data) (.seq (.opt (Regex.str "json".data))
          (.seq (.star true .space) (.seq (.opt (.chr (.one '\n')))
            (.seq (.group fencedJSON) fenceClose)))) := rfl
  rw [heq, Regex.run, Regex.str_run, Regex.run, Regex.run, Regex.str_run]
  show (match (Regex.seq (.star true .space)
        (.seq (.opt (.chr (.one '\n'))) (.seq (.group fencedJSON) fenceClose))).run
      ⟨pos + 3 + 4, '\n' :: (body ++ (ws ++ ("```".data ++ post))), none⟩ some with
    | some r => some r
    | none => _) = _
  rw [hsp]

theorem trimSpace_bracketed (body : List Char)
    (hbody : (∃ inner, body = '{' :: (inner ++ ['}'])) ∨ (∃ inner, body = '[' :: (inner ++ [']']))) :
    stringsTrimSpace (String.mk body) = String.mk body := by
  rcases hbody with ⟨inner, rfl⟩ | ⟨inner, rfl⟩
  · have h1 : unicodeIsSpace '{' = false := by decide
    have h2 : unicodeIsSpace '}' = false := by decide
    simp [stringsTrimSpace, List.dropWhile, h1, h2]
  · have h1 : unicodeIsSpace '[' = false := by decide
    have h2 : unicodeIsSpace ']' = false := by decide
    simp [stringsTrimSpace, List.dropWhile, h1, h2]

/-- The text of the first fenced JSON block is extracted from a text that begins
with prose. -/
theorem stripMarkdownText_extract (pre body post : List Char)
    (hpre : ∃ c ∈ pre, isRegexSpace c = false) (hbt : ∀ c ∈ pre, c ≠ '`')
    (hbody : (∃ inner, body = '{' :: (inner ++ ['}'])) ∨ (∃ inner, body = '[' :: (inner ++ [']'])))
    (hno : ¬ "```".data <:+: body) :
    FindStringSubmatch markdownFenceRegex
        (String.mk (pre ++ "```json\n".data ++ body ++ "\n```".data ++ post)) = []
      ∧ stripMarkdownText (String.mk (pre ++ "```json\n".data ++ body ++ "\n```".data ++ post))
        = String.mk body := by
  have htext : pre ++ "```json\n".data ++ body ++ "\n```".data ++ post
      = pre ++ ("```".data ++ ("json".data ++ ('\n' :: (body ++ (['\n'] ++ ("```".data ++ post)))))) := by
    have h1 : "```json\n".data = "```".data ++ ("json".data ++ ['\n']) := rfl
    have h2 : "\n```".data = ['\n'] ++ "```".data := rfl
    rw [h1, h2]
    simp only [List.append_assoc, List.cons_append, List.nil_append]
  have hstrict := markdownFenceRegex_find_none pre
    ("```".data ++ ("json".data ++ ('\n' :: (body ++ (['\n'] ++ ("```".data ++ post)))))) hpre hbt
  obtain ⟨n, hrun⟩ := markdownFenceExtractRegex_run body ['\n'] post (0 + pre.length) hbody
    (by intro c hc; rw [List.mem_singleton.mp hc]; decide) hno
  have hperm := Regex.find_of_run _ _ _ _ hrun
  rw [← markdownFenceExtractRegex_find_skip pre _ 0 hbt] at hperm
  rw [htext]
  constructor
  · simp only [FindStringSubmatch, hstrict]
  · simp only [stripMarkdownText, FindStringSubmatch, hstrict, hperm, List.length_nil,
      List.length_cons, List.length_singleton, Option.getD_some, List.getD_cons_succ,
      List.getD_cons_zero]
    simpa using trimSpace_bracketed body hbody

theorem count_of_fence_inside (l : List Char) (h : "```".data <:+: l) : 3 ≤ l.count '`' := by
  obtain ⟨s, t, rfl⟩ := h
  have : "```".data.count '`' = 3 := by decide
  simp only [List.count_append, this]
  omega

/-! ## Lemmas on the schema map and the fallback rewrite -/

theorem goMapGet_goMapSet_ne (r : GoMap) (k key : String) (v : GoValue) (h : k ≠ key) :
    goMapGet (some (goMapSet r k v)) key = goMapGet (some r) key := by
  induction r with
  | nil =>
    have : (key == k) = false := by
      cases hq : (key == k) with
      | false => rfl
      | true => exact absurd (beq_iff_eq.mp hq).symm h
    simp [goMapSet, goMapGet, List.lookup, this]
  | cons kv rest ih =>
    obtain ⟨k1, v1⟩ := kv
    simp only [goMapSet]
    by_cases h1 : k1 = k
    · subst h1
      have : (key == k1) = false := by
        cases hq : (key == k1) with
        | false => rfl
        | true => exact absurd (beq_iff_eq.mp hq).symm h
      simp [goMapGet, List.lookup, this]
    · rw [if_neg h1]
      simp only [goMapGet, List.lookup] at ih ⊢
      cases hq : (key == k1) with
      | false => simpa [hq] using ih
      | true => simp [hq]

theorem goMapGet_goMapSet_eq (r : GoMap) (k : String) (v : GoValue) :
    goMapGet (some (goMapSet r k v)) k = v := by
  induction r with
  | nil => simp [goMapSet, goMapGet, List.lookup]
  | cons kv rest ih =>
    obtain ⟨k1, v1⟩ := kv
    simp only [goMapSet]
    by_cases h1 : k1 = k
    · subst h1
      simp [goMapGet, List.lookup]
    · rw [if_neg h1]
      have : (k == k1) = false := by
        cases hq : (k == k1) with
        | false => rfl
        | true => exact absurd (beq_iff_eq.mp hq).symm h1
      simp only [goMapGet, List.lookup, this] at ih ⊢
      exact ih

theorem goMapGet_goMapSetIf_ne (c : Prop) [Decidable c] (r : GoMap) (k key : String)
    (v : GoValue) (h : k ≠ key) :
    goMapGet (some (goMapSetIf c r k v)) key = goMapGet (some r) key := by
  unfold goMapSetIf
  split
  · exact goMapGet_goMapSet_ne r k key v h
  · rfl

theorem goMapGet_goMapSetSome_ne (r : GoMap) (k key : String) (v : Option GoValue)
    (h : k ≠ key) :
    goMapGet (some (goMapSetSome r k v)) key = goMapGet (some r) key := by
  cases v with
  | none => rfl
  | some v => exact goMapGet_goMapSet_ne r k key v h

/-- The map of a schema with a type has the lower-cased type under `type`. -/
theorem schemaToMapCore_type (lib : GoLib) (schema : Schema) (h : schema.Type_ ≠ "") :
    goMapGet (some (schemaToMapCore lib schema)) "type"
      = .str (stringsToLower lib schema.Type_) := by
  cases schema with
  | mk type description enum format items properties required nullable default minimum maximum minLength maxLength minItems maxItems pattern anyOf =>
  have h2 : type ≠ "" := h
  clear h
  have hkeys : ("anyOf" : String) ≠ "type" ∧ ("pattern" : String) ≠ "type"
      ∧ ("maxItems" : String) ≠ "type" ∧ ("minItems" : String) ≠ "type"
      ∧ ("maxLength" : String) ≠ "type" ∧ ("minLength" : String) ≠ "type"
      ∧ ("maximum" : String) ≠ "type" ∧ ("minimum" : String) ≠ "type"
      ∧ ("default" : String) ≠ "type" ∧ ("nullable" : String) ≠ "type"
      ∧ ("required" : String) ≠ "type" ∧ ("properties" : String) ≠ "type"
      ∧ ("items" : String) ≠ "type" ∧ ("format" : String) ≠ "type"
      ∧ ("enum" : String) ≠ "type" ∧ ("description" : String) ≠ "type" := by decide
  obtain ⟨k1, k2, k3, k4, k5, k6, k7, k8, k9, k10, k11, k12, k13, k14, k15, k16⟩ := hkeys
  cases items with
  | none =>
    rw [schemaToMapCore]
    split <;>
      simp only [goMapGet_goMapSetIf_ne _ _ _ _ _ k1, goMapGet_goMapSetIf_ne _ _ _ _ _ k2,
        goMapGet_goMapSetSome_ne _ _ _ _ k3, goMapGet_goMapSetSome_ne _ _ _ _ k4,
        goMapGet_goMapSetSome_ne _ _ _ _ k5, goMapGet_goMapSetSome_ne _ _ _ _ k6,
        goMapGet_goMapSetSome_ne _ _ _ _ k7, goMapGet_goMapSetSome_ne _ _ _ _ k8,
        goMapGet_goMapSetIf_ne _ _ _ _ _ k9, goMapGet_goMapSetIf_ne _ _ _ _ _ k10,
        goMapGet_goMapSetIf_ne _ _ _ _ _ k11, goMapGet_goMapSetIf_ne _ _ _ _ _ k12,
        goMapGet_goMapSetSome_ne _ _ _ _ k13, goMapGet_goMapSetIf_ne _ _ _ _ _ k14,
        goMapGet_goMapSetIf_ne _ _ _ _ _ k15, goMapGet_goMapSetIf_ne _ _ _ _ _ k16] <;>
      simp [goMapSetIf, h2, goMapGet_goMapSet_eq]
  | some it =>
    rw [schemaToMapCore]
    split <;>
      simp only [goMapGet_goMapSetIf_ne _ _ _ _ _ k1, goMapGet_goMapSetIf_ne _ _ _ _ _ k2,
        goMapGet_goMapSetSome_ne _ _ _ _ k3, goMapGet_goMapSetSome_ne _ _ _ _ k4,
        goMapGet_goMapSetSome_ne _ _ _ _ k5, goMapGet_goMapSetSome_ne _ _ _ _ k6,
        goMapGet_goMapSetSome_ne _ _ _ _ k7, goMapGet_goMapSetSome_ne _ _ _ _ k8,
        goMapGet_goMapSetIf_ne _ _ _ _ _ k9, goMapGet_goMapSetIf_ne _ _ _ _ _ k10,
        goMapGet_goMapSetIf_ne _ _ _ _ _ k11, goMapGet_goMapSetIf_ne _ _ _ _ _ k12,
        goMapGet_goMapSetSome_ne _ _ _ _ k13, goMapGet_goMapSetIf_ne _ _ _ _ _ k14,
        goMapGet_goMapSetIf_ne _ _ _ _ _ k15, goMapGet_goMapSetIf_ne _ _ _ _ _ k16] <;>
      simp [goMapSetIf, h2, goMapGet_goMapSet_eq]

theorem existingTextLoop_eq (parts : List (Option Part)) (acc : String)
    (h : none ∉ parts) :
    existingTextLoop parts acc = some (acc ++ blankLineJoined parts) := by
  induction parts generalizing acc with
  | nil => simp [existingTextLoop, blankLineJoined]
  | cons p rest ih =>
    have hrest : none ∉ rest := fun hm => h (List.mem_cons_of_mem _ hm)
    cases p with
    | none => exact absurd (List.mem_cons_self _ _) h
    | some part =>
      simp only [existingTextLoop, blankLineJoined]
      by_cases ht : part.Text = ""
      · simp only [ht, ne_eq, not_true_eq_false, if_false]
        exact ih acc hrest
      · simp only [ne_eq, ht, not_false_eq_true, if_true]
        rw [ih _ hrest]
        simp only [String.append_assoc]

theorem existingTextLoop_none (parts : List (Option Part)) (acc : String)
    (h : none ∈ parts) : existingTextLoop parts acc = none := by
  induction parts generalizing acc with
  | nil => cases h
  | cons p rest ih =>
    cases p with
    | none => rfl
    | some part =>
      have hrest : none ∈ rest := by
        rcases List.mem_cons.mp h with h1 | h1
        · cases h1
        · exact h1
      simp only [existingTextLoop]
      split
      · exact ih _ hrest
      · exact ih _ hrest

/-- The result of the rewrite on a request with a config whose system
instruction, if any, has no nil part. -/
theorem promptBasedJSONRequest_eq (lib : GoLib) (req : LLMRequest)
    (config : GenerateContentConfig) (hcfg : req.Config = some config)
    (hnil : ∀ existing, config.SystemInstruction = some existing → none ∉ existing.Parts) :
    promptBasedJSONRequest lib req
      = some
          { caller := req
            modified :=
              { Model := req.Model
                Contents := req.Contents
                Config := some
                  { config with
                    SystemInstruction := some (rewrittenInstruction lib config)
                    ResponseSchema := none }
                Tools := req.Tools } } := by
  unfold promptBasedJSONRequest rewrittenInstruction
  rw [hcfg]
  cases hsi : config.SystemInstruction with
  | none => simp only [hsi]
  | some existing =>
    simp only [hsi, existingTextLoop_eq existing.Parts "" (hnil existing hsi), String.empty_append]

theorem jsonInstruction_eq (schemaJSON : String) :
    jsonInstruction schemaJSON
      = "You must respond with valid JSON that conforms to the following JSON schema:\n\n"
        ++ (schemaJSON ++ ("\n\n"
        ++ "Respond ONLY with the JSON object, no markdown code fences, no explanations.")) := by
  unfold jsonInstruction
  rw [String.append_assoc]
  rfl

/-- The text of the system instruction the fallback is to build ends with the
JSON instruction. -/
theorem systemText_rewritten (lib : GoLib) (config : GenerateContentConfig) :
    ∃ pre, systemText
        { config with SystemInstruction := some (rewrittenInstruction lib config),
                      ResponseSchema := none }
      = pre ++ jsonInstruction (SchemaToJSONString lib config.ResponseSchema) := by
  unfold systemText rewrittenInstruction
  cases config.SystemInstruction with
  | none => exact ⟨"", by simp [String.join]⟩
  | some existing => exact ⟨blankLineJoined existing.Parts, by simp [String.join]⟩

/-! ## Lemmas on the heap of the fallback rewrite -/

theorem Heap.size_push (h : Heap) (c : HeapCell) : (h.push c).size = h.size + 1 := by
  simp [Heap.size, Heap.push]

theorem Heap.size_store (h : Heap) (a : Nat) (c : HeapCell) : (h.store a c).size = h.size := by
  simp [Heap.size, Heap.store]

theorem Heap.load_lt (h : Heap) (a : Nat) (c : HeapCell) (hl : h.load a = some c) :
    a < h.size := by
  unfold Heap.load at hl
  unfold Heap.size
  by_contra hge
  rw [List.getElem?_eq_none (Nat.le_of_not_lt hge)] at hl
  cases hl

/-- A new cell changes no cell there was. -/
theorem Heap.load_push (h : Heap) (c : HeapCell) (a : Nat) :
    (h.push c).load a = if a = h.size then some c else h.load a := by
  unfold Heap.load Heap.push Heap.size
  by_cases ha : a = h.cells.length
  · subst ha
    simp
  · rw [if_neg ha]
    rcases Nat.lt_or_gt_of_ne ha with hlt | hgt
    · simp [List.getElem?_append_left hlt]
    · rw [List.getElem?_eq_none (by simp; omega), List.getElem?_eq_none (by omega)]

/-- A store changes the cell at its address only. -/
theorem Heap.load_store (h : Heap) (a b : Nat) (c : HeapCell) :
    (h.store a c).load b = if b = a ∧ a < h.size then some c else h.load b := by
  unfold Heap.load Heap.store Heap.size
  by_cases hb : b = a
  · subst hb
    by_cases hlt : b < h.cells.length
    · simp [hlt]
    · rw [if_neg (fun hc => hlt hc.2), List.getElem?_eq_none (by simp; omega),
        List.getElem?_eq_none (by omega)]
  · have hab : a ≠ b := fun e => hb e.symm
    simp [hb, List.getElem?_set_ne hab]

theorem Heap.loadPart_keeps (h h2 : Heap) (hk : ∀ a, a < h.size → h2.load a = h.load a)
    (a : Nat) (p : Part) (hr : h.loadPart a = some p) : h2.loadPart a = some p := by
  unfold Heap.loadPart at hr ⊢
  cases hl : h.load a with
  | none => simp [hl] at hr
  | some c =>
    rw [hk a (h.load_lt a c hl), hl]
    rw [hl] at hr
    exact hr

theorem Heap.readPart_keeps (h h2 : Heap) (hk : ∀ a, a < h.size → h2.load a = h.load a)
    (p : Option Nat) (v : Option Part) (hr : h.readPart p = some v) :
    h2.readPart p = some v := by
  cases p with
  | none => exact hr
  | some a =>
    unfold Heap.readPart at hr ⊢
    cases hp : h.loadPart a with
    | none => simp [hp] at hr
    | some part =>
      simp only [hp] at hr
      simp only [h.loadPart_keeps h2 hk a part hp]
      exact hr

theorem Heap.readParts_keeps (h h2 : Heap) (hk : ∀ a, a < h.size → h2.load a = h.load a)
    (ps : List (Option Nat)) (v : List (Option Part)) (hr : h.readParts ps = some v) :
    h2.readParts ps = some v := by
  induction ps generalizing v with
  | nil => exact hr
  | cons p rest ih =>
    unfold Heap.readParts at hr ⊢
    cases hp : h.readPart p with
    | none => simp [hp] at hr
    | some part =>
      cases hrest : h.readParts rest with
      | none => simp [hp, hrest] at hr
      | some parts =>
        simp only [hp, hrest] at hr
        simp only [h.readPart_keeps h2 hk p part hp, ih parts hrest]
        exact hr

theorem Heap.loadContent_keeps (h h2 : Heap) (hk : ∀ a, a < h.size → h2.load a = h.load a)
    (a : Nat) (c : ContentCell) (hr : h.loadContent a = some c) : h2.loadContent a = some c := by
  unfold Heap.loadContent at hr ⊢
  cases hl : h.load a with
  | none => simp [hl] at hr
  | some cell =>
    rw [hk a (h.load_lt a cell hl), hl]
    rw [hl] at hr
    exact hr

theorem Heap.loadConfig_keeps (h h2 : Heap) (hk : ∀ a, a < h.size → h2.load a = h.load a)
    (a : Nat) (c : ConfigCell) (hr : h.loadConfig a = some c) : h2.loadConfig a = some c := by
  unfold Heap.loadConfig at hr ⊢
  cases hl : h.load a with
  | none => simp [hl] at hr
  | some cell =>
    rw [hk a (h.load_lt a cell hl), hl]
    rw [hl] at hr
    exact hr

theorem Heap.loadRequest_keeps (h h2 : Heap) (hk : ∀ a, a < h.size → h2.load a = h.load a)
    (a : Nat) (c : RequestCell) (hr : h.loadRequest a = some c) : h2.loadRequest a = some c := by
  unfold Heap.loadRequest at hr ⊢
  cases hl : h.load a with
  | none => simp [hl] at hr
  | some cell =>
    rw [hk a (h.load_lt a cell hl), hl]
    rw [hl] at hr
    exact hr

theorem Heap.loadSchema_keeps (h h2 : Heap) (hk : ∀ a, a < h.size → h2.load a = h.load a)
    (p : Option Nat) (v : Option Schema) (hr : h.loadSchema p = some v) :
    h2.loadSchema p = some v := by
  cases p with
  | none => exact hr
  | some a =>
    unfold Heap.loadSchema at hr ⊢
    cases hl : h.load a with
    | none => simp [hl] at hr
    | some cell =>
      simp only [hk a (h.load_lt a cell hl), hl]
      simp only [hl] at hr
      exact hr

theorem Heap.readContent_keeps (h h2 : Heap) (hk : ∀ a, a < h.size → h2.load a = h.load a)
    (p : Option Nat) (v : Option Content) (hr : h.readContent p = some v) :
    h2.readContent p = some v := by
  cases p with
  | none => exact hr
  | some a =>
    unfold Heap.readContent at hr ⊢
    cases hc : h.loadContent a with
    | none => simp [hc] at hr
    | some c =>
      cases hp : h.readParts c.Parts with
      | none => simp [hc, hp] at hr
      | some parts =>
        simp only [hc, hp] at hr
        simp only [h.loadContent_keeps h2 hk a c hc, h.readParts_keeps h2 hk c.Parts parts hp]
        exact hr

theorem Heap.readConfig_keeps (h h2 : Heap) (hk : ∀ a, a < h.size → h2.load a = h.load a)
    (a : Nat) (v : GenerateContentConfig) (hr : h.readConfig a = some v) :
    h2.readConfig a = some v := by
  unfold Heap.readConfig at hr ⊢
  cases hc : h.loadConfig a with
  | none => simp [hc] at hr
  | some c =>
    cases hi : h.readContent c.SystemInstruction with
    | none => simp [hc, hi] at hr
    | some instruction =>
      cases hs : h.loadSchema c.ResponseSchema with
      | none => simp [hc, hi, hs] at hr
      | some schema =>
        simp only [hc, hi, hs] at hr
        simp only [h.loadConfig_keeps h2 hk a c hc,
          h.readContent_keeps h2 hk c.SystemInstruction instruction hi,
          h.loadSchema_keeps h2 hk c.ResponseSchema schema hs]
        exact hr

/-- A request read from a heap is read the same from every heap with the same
cells at the addresses of the first. -/
theorem Heap.readRequest_keeps (h h2 : Heap) (hk : ∀ a, a < h.size → h2.load a = h.load a)
    (a : Nat) (v : LLMRequest) (hr : h.readRequest a = some v) :
    h2.readRequest a = some v := by
  unfold Heap.readRequest at hr ⊢
  cases hq : h.loadRequest a with
  | none => simp [hq] at hr
  | some r =>
    simp only [hq] at hr
    simp only [h.loadRequest_keeps h2 hk a r hq]
    cases hcfg : r.Config with
    | none =>
      simp only [hcfg] at hr ⊢
      exact hr
    | some config =>
      simp only [hcfg] at hr ⊢
      cases hc : h.readConfig config with
      | none => simp [hc] at hr
      | some c =>
        simp only [hc] at hr
        simp only [h.readConfig_keeps h2 hk config c hc]
        exact hr

/-- The loop on the heap is the loop on the parts the pointers point to. -/
theorem existingTextLoopHeap_eq (h : Heap) (ps : List (Option Nat)) (parts : List (Option Part))
    (acc : String) (hr : h.readParts ps = some parts) :
    existingTextLoopHeap h ps acc = existingTextLoop parts acc := by
  induction ps generalizing parts acc with
  | nil =>
    cases Option.some.inj hr
    rfl
  | cons p rest ih =>
    unfold Heap.readParts at hr
    cases hp : h.readPart p with
    | none => simp [hp] at hr
    | some part =>
      cases hrest : h.readParts rest with
      | none => simp [hp, hrest] at hr
      | some parts2 =>
        simp only [hp, hrest] at hr
        cases Option.some.inj hr
        cases p with
        | none =>
          cases Option.some.inj hp
          rfl
        | some a =>
          unfold Heap.readPart at hp
          cases hl : h.loadPart a with
          | none => simp [hl] at hp
          | some pt =>
            simp only [hl] at hp
            cases Option.some.inj hp
            simp only [existingTextLoopHeap, existingTextLoop, hl]
            split
            · exact ih parts2 _ hrest
            · exact ih parts2 _ hrest


theorem Heap.assignConfig_eq (h : Heap) (a : Nat) (f : ConfigCell → ConfigCell) (c : ConfigCell)
    (hl : h.loadConfig a = some c) :
    h.assignConfig a f = some (h.store a (.config (f c))) := by
  unfold Heap.assignConfig
  rw [hl]

theorem Heap.loadConfig_push (h : Heap) (cell : HeapCell) (a : Nat) (c : ConfigCell)
    (hl : h.loadConfig a = some c) : (h.push cell).loadConfig a = some c :=
  h.loadConfig_keeps _ (fun b hb => by rw [Heap.load_push, if_neg (Nat.ne_of_lt hb)]) a c hl

theorem Heap.loadConfig_store (h : Heap) (a : Nat) (c : ConfigCell) (ha : a < h.size) :
    (h.store a (.config c)).loadConfig a = some c := by
  unfold Heap.loadConfig
  rw [Heap.load_store, if_pos ⟨rfl, ha⟩]

/-- The pieces of a request read from the heap: its cell, the cell of its
config, and the instruction and the schema the config points to. -/
theorem Heap.readRequest_config (h : Heap) (req : Nat) (request : LLMRequest)
    (config : GenerateContentConfig) (hreq : h.readRequest req = some request)
    (hcfg : request.Config = some config) :
    ∃ r a c, h.loadRequest req = some r ∧ r.Config = some a ∧ h.loadConfig a = some c
      ∧ h.readContent c.SystemInstruction = some config.SystemInstruction
      ∧ h.loadSchema c.ResponseSchema = some config.ResponseSchema
      ∧ request.Model = r.Model ∧ request.Contents = r.Contents ∧ request.Tools = r.Tools
      ∧ config.Temperature = c.Temperature ∧ config.TopP = c.TopP ∧ config.TopK = c.TopK
      ∧ config.StopSequences = c.StopSequences ∧ config.MaxOutputTokens = c.MaxOutputTokens
      ∧ config.Tools = c.Tools ∧ config.ToolConfig = c.ToolConfig
      ∧ config.Others = c.Others := by
  unfold Heap.readRequest at hreq
  cases hq : h.loadRequest req with
  | none => simp [hq] at hreq
  | some r =>
    simp only [hq] at hreq
    cases hrc : r.Config with
    | none =>
      simp only [hrc] at hreq
      cases Option.some.inj hreq
      cases hcfg
    | some a =>
      simp only [hrc] at hreq
      cases hc : h.readConfig a with
      | none => simp [hc] at hreq
      | some cv =>
        simp only [hc] at hreq
        cases Option.some.inj hreq
        cases Option.some.inj hcfg
        unfold Heap.readConfig at hc
        cases hcc : h.loadConfig a with
        | none => simp [hcc] at hc
        | some c =>
          cases hi : h.readContent c.SystemInstruction with
          | none => simp [hcc, hi] at hc
          | some instruction =>
            cases hs : h.loadSchema c.ResponseSchema with
            | none => simp [hcc, hi, hs] at hc
            | some schema =>
              simp only [hcc, hi, hs] at hc
              cases Option.some.inj hc
              exact ⟨r, a, c, rfl, hrc, hcc, hi, hs, rfl, rfl, rfl, rfl, rfl, rfl, rfl, rfl,
                rfl, rfl, rfl⟩

/-- The statements of the rewrite on the heap, for a caller without system
instruction. -/
theorem promptBasedJSONRequestHeap_nil (lib : GoLib) (h : Heap) (req : Nat) (r : RequestCell)
    (a : Nat) (c : ConfigCell) (schema : Option Schema) (hq : h.loadRequest req = some r)
    (hrc : r.Config = some a) (hcc : h.loadConfig a = some c)
    (hs : h.loadSchema c.ResponseSchema = some schema) (hsi : c.SystemInstruction = none) :
    promptBasedJSONRequestHeap lib h req
      = some (rewrittenHeap h r c (jsonInstruction (SchemaToJSONString lib schema)) "",
          h.size + 3) := by
  have hnew : (h.push (.config c)).loadConfig h.size = some c := by
    simp [Heap.loadConfig, Heap.load_push]
  unfold promptBasedJSONRequestHeap
  simp only [hq, hrc, hcc, hs]
  unfold assignInstructionHeap
  simp only [hnew, hsi]
  rw [Heap.assignConfig_eq _ _ _ c
    (Heap.loadConfig_push _ _ _ _ (Heap.loadConfig_push _ _ _ _ hnew))]
  simp only []
  rw [Heap.assignConfig_eq _ _ _ _
    (Heap.loadConfig_store _ _ _ (by simp only [Heap.size_push]; omega))]
  simp only []
  rw [Heap.loadRequest_keeps h _ ?_ req r hq]
  swap
  · intro b hb
    have h0 : b ≠ h.size := Nat.ne_of_lt hb
    have h1 : b ≠ h.size + 1 := by omega
    have h2 : b ≠ h.size + 1 + 1 := by omega
    simp [Heap.load_store, Heap.load_push, Heap.size_push, h0, h1, h2]
  simp [Heap.size_push, Heap.size_store, rewrittenHeap, Heap.push, Heap.store, Heap.size,
    List.set_append]

/-- The statements of the rewrite on the heap, for a caller with a system
instruction whose parts are all there. -/
theorem promptBasedJSONRequestHeap_some (lib : GoLib) (h : Heap) (req : Nat) (r : RequestCell)
    (a : Nat) (c : ConfigCell) (schema : Option Schema) (existing : Content)
    (hq : h.loadRequest req = some r)
    (hrc : r.Config = some a) (hcc : h.loadConfig a = some c)
    (hs : h.loadSchema c.ResponseSchema = some schema)
    (hi : h.readContent c.SystemInstruction = some (some existing))
    (hnil : none ∉ existing.Parts) :
    promptBasedJSONRequestHeap lib h req
      = some (rewrittenHeap h r c
          (blankLineJoined existing.Parts ++ jsonInstruction (SchemaToJSONString lib schema))
          existing.Role, h.size + 3) := by
  have hnew : (h.push (.config c)).loadConfig h.size = some c := by
    simp [Heap.loadConfig, Heap.load_push]
  have hk : ∀ b, b < h.size → (h.push (.config c)).load b = h.load b := by
    intro b hb
    rw [Heap.load_push, if_neg (Nat.ne_of_lt hb)]
  cases hsi : c.SystemInstruction with
  | none =>
    rw [hsi] at hi
    cases Option.some.inj hi
  | some e =>
    rw [hsi] at hi
    unfold Heap.readContent at hi
    cases hce : h.loadContent e with
    | none => simp [hce] at hi
    | some cell =>
      cases hps : h.readParts cell.Parts with
      | none => simp [hce, hps] at hi
      | some parts =>
        simp only [hce, hps] at hi
        cases Option.some.inj (Option.some.inj hi)
        have hloop : existingTextLoopHeap (h.push (.config c)) cell.Parts ""
            = some (blankLineJoined parts) := by
          rw [existingTextLoopHeap_eq _ _ parts "" (h.readParts_keeps _ hk _ _ hps),
            existingTextLoop_eq parts "" hnil, String.empty_append]
        unfold promptBasedJSONRequestHeap
        simp only [hq, hrc, hcc, hs]
        unfold assignInstructionHeap
        simp only [hnew, hsi, h.loadContent_keeps _ hk e cell hce, hloop]
        rw [Heap.assignConfig_eq _ _ _ c
          (Heap.loadConfig_push _ _ _ _ (Heap.loadConfig_push _ _ _ _ hnew))]
        simp only []
        rw [Heap.assignConfig_eq _ _ _ _
          (Heap.loadConfig_store _ _ _ (by simp only [Heap.size_push]; omega))]
        simp only []
        rw [Heap.loadRequest_keeps h _ ?_ req r hq]
        swap
        · intro b hb
          have h0 : b ≠ h.size := Nat.ne_of_lt hb
          have h1 : b ≠ h.size + 1 := by omega
          have h2 : b ≠ h.size + 1 + 1 := by omega
          simp [Heap.load_store, Heap.load_push, Heap.size_push, h0, h1, h2]
        simp [Heap.size_push, Heap.size_store, rewrittenHeap, Heap.push, Heap.store, Heap.size,
          List.set_append]

/-- No cell of the caller is changed in the heap the rewrite leaves. -/
theorem rewrittenHeap_load (h : Heap) (r : RequestCell) (c : ConfigCell) (text role : String)
    (a : Nat) (ha : a < h.size) : (rewrittenHeap h r c text role).load a = h.load a := by
  unfold rewrittenHeap Heap.load
  exact List.getElem?_append_left ha

/-- The new cells of the heap the rewrite leaves. -/
theorem rewrittenHeap_new (h : Heap) (r : RequestCell) (c : ConfigCell) (text role : String) :
    (rewrittenHeap h r c text role).load h.size
        = some (.config { c with SystemInstruction := some (h.size + 2), ResponseSchema := none })
      ∧ (rewrittenHeap h r c text role).load (h.size + 1) = some (.part { Text := text })
      ∧ (rewrittenHeap h r c text role).load (h.size + 2)
        = some (.content { Parts := [some (h.size + 1)], Role := role })
      ∧ (rewrittenHeap h r c text role).load (h.size + 3)
        = some (.request { Model := r.Model, Contents := r.Contents, Config := some h.size,
                           Tools := r.Tools }) := by
  unfold rewrittenHeap Heap.load Heap.size
  refine ⟨?_, ?_, ?_, ?_⟩
  · rw [List.getElem?_append_right (Nat.le_refl _)]
    simp
  · rw [List.getElem?_append_right (by omega)]
    simp
  · rw [List.getElem?_append_right (by omega)]
    simp
  · rw [List.getElem?_append_right (by omega)]
    simp

/-- The new request of the heap the rewrite leaves, as a reader sees it. -/
theorem rewrittenHeap_readRequest (h : Heap) (r : RequestCell) (c : ConfigCell)
    (text role : String) :
    (rewrittenHeap h r c text role).readRequest (h.size + 3)
      = some { Model := r.Model, Contents := r.Contents,
               Config := some
                 { SystemInstruction := some { Role := role, Parts := [some { Text := text }] },
                   Temperature := c.Temperature, TopP := c.TopP, TopK := c.TopK,
                   StopSequences := c.StopSequences, MaxOutputTokens := c.MaxOutputTokens,
                   Tools := c.Tools, ToolConfig := c.ToolConfig, ResponseSchema := none,
                   Others := c.Others },
               Tools := r.Tools } := by
  obtain ⟨h0, h1, h2, h3⟩ := rewrittenHeap_new h r c text role
  simp only [Heap.readRequest, Heap.loadRequest, h3, Heap.readConfig, Heap.loadConfig, h0,
    Heap.readContent, Heap.loadContent, h2, Heap.readParts, Heap.readPart, Heap.loadPart, h1,
    Heap.loadSchema]

/-- The result of the rewrite on the heap, for a request that reads as
`request` with the config `config`: four new cells (the copy of the config, the
new part, the new content, the new request) after the cells of the caller,
which are as they were; the new request reads as the request of the rewrite on
values. -/
theorem promptBasedJSONRequestHeap_eq (lib : GoLib) (h : Heap) (req : Nat)
    (request : LLMRequest) (config : GenerateContentConfig)
    (hreq : h.readRequest req = some request) (hcfg : request.Config = some config)
    (hnil : ∀ existing, config.SystemInstruction = some existing → none ∉ existing.Parts) :
    ∃ h2, promptBasedJSONRequestHeap lib h req = some (h2, h.size + 3)
      ∧ (∀ a, a < h.size → h2.load a = h.load a)
      ∧ (∃ r, h2.loadRequest (h.size + 3) = some r ∧ r.Config = some h.size)
      ∧ h2.readRequest (h.size + 3)
          = some { Model := request.Model, Contents := request.Contents,
                   Config := some { config with
                     SystemInstruction := some (rewrittenInstruction lib config),
                     ResponseSchema := none },
                   Tools := request.Tools } := by
  obtain ⟨r, ca, c, hq, hrc, hcc, hi, hs, e1, e2, e3, e4, e5, e6, e7, e8, e9, e10, e11⟩ :=
    h.readRequest_config req request config hreq hcfg
  cases hsi : config.SystemInstruction with
  | none =>
    rw [hsi] at hi
    have hcsi : c.SystemInstruction = none := by
      cases hc : c.SystemInstruction with
      | none => rfl
      | some e =>
        rw [hc] at hi
        unfold Heap.readContent at hi
        cases hce : h.loadContent e with
        | none => simp [hce] at hi
        | some cell =>
          cases hps : h.readParts cell.Parts with
          | none => simp [hce, hps] at hi
          | some parts => simp [hce, hps] at hi
    refine ⟨_, promptBasedJSONRequestHeap_nil lib h req r ca c _ hq hrc hcc hs hcsi,
      rewrittenHeap_load h r c _ _,
      ⟨{ Model := r.Model, Contents := r.Contents, Config := some h.size, Tools := r.Tools },
        ?_, rfl⟩, ?_⟩
    · simp only [Heap.loadRequest, (rewrittenHeap_new h r c _ _).2.2.2]
    · rw [rewrittenHeap_readRequest]
      simp only [rewrittenInstruction, hsi, e1, e2, e3, e4, e5, e6, e7, e8, e9, e10, e11]
  | some existing =>
    rw [hsi] at hi
    refine ⟨_, promptBasedJSONRequestHeap_some lib h req r ca c _ existing hq hrc hcc hs hi
        (hnil existing hsi),
      rewrittenHeap_load h r c _ _,
      ⟨{ Model := r.Model, Contents := r.Contents, Config := some h.size, Tools := r.Tools },
        ?_, rfl⟩, ?_⟩
    · simp only [Heap.loadRequest, (rewrittenHeap_new h r c _ _).2.2.2]
    · rw [rewrittenHeap_readRequest]
      simp only [rewrittenInstruction, hsi, e1, e2, e3, e4, e5, e6, e7, e8, e9, e10, e11]

/-! ## Lemmas on the stream loop -/

theorem streamLoop_consumed {M : Type} (deps : StreamDeps M) (consumer : List Emission → Bool)
    (err : Option String) (events later : List StreamEvent) (message msg : M)
    (emitted : List Emission) (processed : Nat)
    (hacc : accumulateAll deps message events = .ok msg)
    (hcons : ∀ pre, pre <+: streamPartials events → pre ≠ [] → consumer (emitted ++ pre) = true) :
    streamLoop deps consumer err (events ++ later) message emitted processed
      = streamLoop deps consumer err later msg (emitted ++ streamPartials events)
          (processed + events.length) := by
  induction events generalizing message emitted processed with
  | nil =>
    simp only [accumulateAll, Except.ok.injEq] at hacc
    subst hacc
    simp [streamPartials]
  | cons event rest ih =>
    simp only [accumulateAll] at hacc
    cases hstep : deps.Accumulate message event with
    | error e => simp [hstep] at hacc
    | ok message2 =>
      simp only [hstep] at hacc
      have hlen : processed + (event :: rest).length = processed + 1 + rest.length := by
        simp only [List.length_cons]
        omega
      rw [hlen]
      cases event with
      | textDelta text =>
        have hp : streamPartials (.textDelta text :: rest)
            = .resp (StreamDeltaToPartialResponse text) :: streamPartials rest := rfl
        rw [hp] at hcons ⊢
        have h1 : consumer (emitted ++ [Emission.resp (StreamDeltaToPartialResponse text)]) = true :=
          hcons [_] (by simp) (by simp)
        conv_lhs => rw [List.cons_append, streamLoop]
        simp only [hstep, h1, if_true]
        rw [ih message2 (emitted ++ [Emission.resp (StreamDeltaToPartialResponse text)]) (processed + 1) hacc
          (by
            intro pre hpre hne
            have := hcons (Emission.resp (StreamDeltaToPartialResponse text) :: pre)
              (by simpa using hpre) (by simp)
            simpa using this)]
        simp only [List.append_assoc, List.singleton_append]
      | thinkingDelta thinking =>
        have hp : streamPartials (.thinkingDelta thinking :: rest)
            = .resp (StreamThinkingDeltaToPartialResponse thinking) :: streamPartials rest := rfl
        rw [hp] at hcons ⊢
        have h1 : consumer (emitted ++ [Emission.resp (StreamThinkingDeltaToPartialResponse thinking)])
            = true := hcons [_] (by simp) (by simp)
        conv_lhs => rw [List.cons_append, streamLoop]
        simp only [hstep, h1, if_true]
        rw [ih message2 (emitted ++ [Emission.resp (StreamThinkingDeltaToPartialResponse thinking)])
          (processed + 1) hacc
          (by
            intro pre hpre hne
            have := hcons (Emission.resp (StreamThinkingDeltaToPartialResponse thinking) :: pre)
              (by simpa using hpre) (by simp)
            simpa using this)]
        simp only [List.append_assoc, List.singleton_append]
      | otherDelta desc =>
        have hp : streamPartials (.otherDelta desc :: rest) = streamPartials rest := rfl
        rw [hp] at hcons ⊢
        conv_lhs => rw [List.cons_append, streamLoop]
        simp only [hstep]
        exact ih message2 emitted (processed + 1) hacc hcons
      | other desc =>
        have hp : streamPartials (.other desc :: rest) = streamPartials rest := rfl
        rw [hp] at hcons ⊢
        conv_lhs => rw [List.cons_append, streamLoop]
        simp only [hstep]
        exact ih message2 emitted (processed + 1) hacc hcons

theorem isComplete_partialOf (event : StreamEvent) (x : Emission)
    (h : partialOf event = some x) : x.isComplete = false := by
  cases event with
  | textDelta text =>
    simp only [partialOf, Option.some.injEq] at h
    subst h
    rfl
  | thinkingDelta thinking =>
    simp only [partialOf, Option.some.injEq] at h
    subst h
    rfl
  | otherDelta desc => simp [partialOf] at h
  | other desc => simp [partialOf] at h

/-- On a stream that ends with an error, or on which the accumulation fails, no
run emits a response marked as the complete turn, whatever the consumer
does. -/
theorem streamLoop_no_complete {M : Type} (deps : StreamDeps M)
    (consumer : List Emission → Bool) (err : Option String) (events : List StreamEvent)
    (message : M) (emitted : List Emission) (processed : Nat)
    (hfail : err.isSome = true ∨ ∃ e, accumulateAll deps message events = .error e)
    (hem : ∀ x ∈ emitted, x.isComplete = false) :
    ∀ x ∈ (streamLoop deps consumer err events message emitted processed).emitted,
      x.isComplete = false := by
  induction events generalizing message emitted processed with
  | nil =>
    rcases hfail with hfail | ⟨e, he⟩
    · cases err with
      | none => cases hfail
      | some e =>
        intro x hx
        simp only [streamLoop, List.mem_append, List.mem_singleton] at hx
        rcases hx with hx | hx
        · exact hem x hx
        · rw [hx]
          rfl
    · simp [accumulateAll] at he
  | cons event rest ih =>
    rw [streamLoop]
    cases hstep : deps.Accumulate message event with
    | error e =>
      intro x hx
      simp only [List.mem_append, List.mem_singleton] at hx
      rcases hx with hx | hx
      · exact hem x hx
      · rw [hx]
        rfl
    | ok message2 =>
      have hfail2 : err.isSome = true ∨ ∃ e, accumulateAll deps message2 rest = .error e := by
        rcases hfail with hfail | ⟨e, he⟩
        · exact Or.inl hfail
        · simp only [accumulateAll, hstep] at he
          exact Or.inr ⟨e, he⟩
      cases event with
      | textDelta text =>
        have hem2 : ∀ x ∈ emitted ++ [Emission.resp (StreamDeltaToPartialResponse text)],
            x.isComplete = false := by
          intro x hx
          simp only [List.mem_append, List.mem_singleton] at hx
          rcases hx with hx | hx
          · exact hem x hx
          · rw [hx]
            rfl
        simp only
        split
        · exact ih message2 _ _ hfail2 hem2
        · exact hem2
      | thinkingDelta thinking =>
        have hem2 : ∀ x ∈ emitted ++ [Emission.resp (StreamThinkingDeltaToPartialResponse thinking)],
            x.isComplete = false := by
          intro x hx
          simp only [List.mem_append, List.mem_singleton] at hx
          rcases hx with hx | hx
          · exact hem x hx
          · rw [hx]
            rfl
        simp only
        split
        · exact ih message2 _ _ hfail2 hem2
        · exact hem2
      | otherDelta desc => exact ih message2 _ _ hfail2 hem
      | other desc => exact ih message2 _ _ hfail2 hem

theorem streamPartials_not_complete (events : List StreamEvent) :
    ∀ x ∈ streamPartials events, x.isComplete = false := by
  intro x hx
  obtain ⟨event, -, he⟩ := List.mem_filterMap.mp hx
  exact isComplete_partialOf event x he

/-! ## Lemmas on the request builders -/

theorem baseParams_maxTokens (lib : GoLib) (m : anthropicModel)
    (messages : List MessageParam) (config : GenerateContentConfig) :
    (baseParams lib m messages config).MaxTokens
      = if config.MaxOutputTokens > 0 then config.MaxOutputTokens else m.defaultMaxTokens := by
  obtain ⟨si, temp, topP, topK, stops, maxOut, tools, toolCfg, schema, others⟩ := config
  cases si <;> cases temp <;> cases topP <;> cases topK
    <;> by_cases hs : stops.length > 0
    <;> by_cases hm : maxOut > 0
    <;> simp [baseParams, hs, hm]

theorem baseBetaParams_maxTokens (lib : GoLib) (m : anthropicModel)
    (messages : List BetaMessageParam) (config : GenerateContentConfig) :
    (baseBetaParams lib m messages config).MaxTokens
      = if config.MaxOutputTokens > 0 then config.MaxOutputTokens else m.defaultMaxTokens := by
  obtain ⟨si, temp, topP, topK, stops, maxOut, tools, toolCfg, schema, others⟩ := config
  cases si <;> cases temp <;> cases topP <;> cases topK <;> cases schema
    <;> by_cases hs : stops.length > 0
    <;> by_cases hm : maxOut > 0
    <;> simp [baseBetaParams, hs, hm]

theorem convertRequest_config (lib : GoLib) (m : anthropicModel) (req : LLMRequest)
    (messages : List MessageParam) (config : GenerateContentConfig)
    (hmsg : ContentsToMessages lib req.Contents = .ok messages)
    (hcfg : req.Config = some config) :
    convertRequest lib m req
      = match (if config.Tools.length > 0 then
                match ToolsToAnthropicTools lib config.Tools with
                | none => none
                | some tools => some { baseParams lib m messages config with Tools := tools }
              else some (baseParams lib m messages config) : Option MessageNewParams) with
        | none => none
        | some params =>
          match config.ToolConfig with
          | none => some (.ok params)
          | some toolConfig =>
            match ToolConfigToToolChoice (some toolConfig) with
            | (_, some err) => some (.error err)
            | (toolChoice, none) =>
              if toolChoice.OfAuto.isSome ∨ toolChoice.OfAny.isSome ∨ toolChoice.OfTool.isSome then
                some (.ok { params with ToolChoice := toolChoice })
              else some (.ok params) := by
  unfold convertRequest baseParams
  rw [hmsg, hcfg]

theorem convertRequest_maxTokens (lib : GoLib) (m : anthropicModel) (req : LLMRequest)
    (params : MessageNewParams) (h : convertRequest lib m req = some (.ok params)) :
    params.MaxTokens = requestMaxTokens m req := by
  unfold requestMaxTokens
  cases hmsg : ContentsToMessages lib req.Contents with
  | error e => simp [convertRequest, hmsg] at h
  | ok messages =>
    cases hcfg : req.Config with
    | none =>
      simp only [convertRequest, hmsg, hcfg, Option.some.injEq, Except.ok.injEq] at h
      rw [← h]
    | some config =>
      rw [convertRequest_config lib m req messages config hmsg hcfg] at h
      simp only
      rw [← baseParams_maxTokens lib m messages config]
      split at h
      · cases h
      · rename_i withParams hwith
        have hmax : withParams.MaxTokens = (baseParams lib m messages config).MaxTokens := by
          split at hwith
          · split at hwith
            · cases hwith
            · simp only [Option.some.injEq] at hwith
              rw [← hwith]
          · simp only [Option.some.injEq] at hwith
            rw [← hwith]
        split at h
        · simp only [Option.some.injEq, Except.ok.injEq] at h
          rw [← h, hmax]
        · split at h
          · cases h
          · split at h
            · simp only [Option.some.injEq, Except.ok.injEq] at h
              rw [← h]
              exact hmax
            · simp only [Option.some.injEq, Except.ok.injEq] at h
              rw [← h, hmax]

theorem convertBetaRequest_config (lib : GoLib) (m : anthropicModel) (req : LLMRequest)
    (messages : List BetaMessageParam) (config : GenerateContentConfig)
    (hmsg : ContentsToBetaMessages lib req.Contents = .ok messages)
    (hcfg : req.Config = some config) :
    convertBetaRequest lib m req
      = match (if config.Tools.length > 0 then
                match ToolsToBetaAnthropicTools lib config.Tools with
                | none => none
                | some tools => some { baseBetaParams lib m messages config with Tools := tools }
              else some (baseBetaParams lib m messages config) : Option BetaMessageNewParams) with
        | none => none
        | some params =>
          match config.ToolConfig with
          | none => some (.ok params)
          | some toolConfig =>
            match ToolConfigToBetaToolChoice (some toolConfig) with
            | (_, some err) => some (.error err)
            | (toolChoice, none) =>
              if toolChoice.OfAuto.isSome ∨ toolChoice.OfAny.isSome ∨ toolChoice.OfTool.isSome then
                some (.ok { params with ToolChoice := toolChoice })
              else some (.ok params) := by
  unfold convertBetaRequest baseBetaParams
  rw [hmsg, hcfg]

theorem convertBetaRequest_maxTokens (lib : GoLib) (m : anthropicModel) (req : LLMRequest)
    (params : BetaMessageNewParams) (h : convertBetaRequest lib m req = some (.ok params)) :
    params.MaxTokens = requestMaxTokens m req := by
  unfold requestMaxTokens
  cases hmsg : ContentsToBetaMessages lib req.Contents with
  | error e => simp [convertBetaRequest, hmsg] at h
  | ok messages =>
    cases hcfg : req.Config with
    | none =>
      simp only [convertBetaRequest, hmsg, hcfg, Option.some.injEq, Except.ok.injEq] at h
      rw [← h]
    | some config =>
      rw [convertBetaRequest_config lib m req messages config hmsg hcfg] at h
      simp only
      rw [← baseBetaParams_maxTokens lib m messages config]
      split at h
      · cases h
      · rename_i withParams hwith
        have hmax : withParams.MaxTokens = (baseBetaParams lib m messages config).MaxTokens := by
          split at hwith
          · split at hwith
            · cases hwith
            · simp only [Option.some.injEq] at hwith
              rw [← hwith]
          · simp only [Option.some.injEq] at hwith
            rw [← hwith]
        split at h
        · simp only [Option.some.injEq, Except.ok.injEq] at h
          rw [← h, hmax]
        · split at h
          · cases h
          · split at h
            · simp only [Option.some.injEq, Except.ok.injEq] at h
              rw [← h]
              exact hmax
            · simp only [Option.some.injEq, Except.ok.injEq] at h
              rw [← h, hmax]

theorem NewModel_defaultMaxTokens (decls : VariantDecls) (getenv : String → String)
    (modelName : String) (cfg : Option Config) (m : anthropicModel)
    (h : NewModel decls getenv modelName cfg = .ok m) :
    m.defaultMaxTokens = configMaxTokens cfg ∧ m.name = modelName := by
  unfold NewModel at h
  simp only at h
  split at h
  · cases h
  · simp only [Except.ok.injEq] at h
    rw [← h]
    cases cfg with
    | none => exact ⟨rfl, rfl⟩
    | some c => exact ⟨rfl, rfl⟩

theorem accepted_concat (consumer : List Emission → Bool) (emitted : List Emission)
    (y : Emission)
    (hinv : ∀ pre x suf, emitted = pre ++ x :: suf →
      consumer (pre ++ [x]) = true ∧ ∃ event, partialOf event = some x) :
    ∀ pre x suf, emitted ++ [y] = pre ++ x :: suf → suf ≠ [] →
      consumer (pre ++ [x]) = true ∧ ∃ event, partialOf event = some x := by
  intro pre x suf h hne
  rcases List.eq_nil_or_concat suf with hnil | ⟨suf2, z, hsuf⟩
  · exact absurd hnil hne
  · rw [hsuf] at h
    have h2 : emitted ++ [y] = (pre ++ x :: suf2) ++ [z] := by
      rw [h]
      simp
    exact hinv pre x suf2 (List.append_inj_left' h2 rfl)

theorem accepted_snoc (consumer : List Emission → Bool) (emitted : List Emission)
    (y : Emission)
    (hinv : ∀ pre x suf, emitted = pre ++ x :: suf →
      consumer (pre ++ [x]) = true ∧ ∃ event, partialOf event = some x)
    (hy : consumer (emitted ++ [y]) = true) (hp : ∃ event, partialOf event = some y) :
    ∀ pre x suf, emitted ++ [y] = pre ++ x :: suf →
      consumer (pre ++ [x]) = true ∧ ∃ event, partialOf event = some x := by
  intro pre x suf h
  by_cases hne : suf = []
  · subst hne
    have h2 : emitted ++ [y] = pre ++ [x] := h
    have h3 := List.append_inj_left' h2 rfl
    have h4 := List.append_inj_right' h2 rfl
    simp only [List.cons.injEq, and_true] at h4
    subst h3
    subst h4
    exact ⟨hy, hp⟩
  · exact accepted_concat consumer emitted y hinv pre x suf h hne

/-- In a run of the loop every emission that is followed by another one is a
partial response the consumer accepted. -/
theorem streamLoop_stops {M : Type} (deps : StreamDeps M) (consumer : List Emission → Bool)
    (err : Option String) (events : List StreamEvent) (message : M)
    (emitted : List Emission) (processed : Nat)
    (hinv : ∀ pre x suf, emitted = pre ++ x :: suf →
      consumer (pre ++ [x]) = true ∧ ∃ event, partialOf event = some x) :
    ∀ pre x suf,
      (streamLoop deps consumer err events message emitted processed).emitted = pre ++ x :: suf →
      suf ≠ [] → consumer (pre ++ [x]) = true ∧ ∃ event, partialOf event = some x := by
  induction events generalizing message emitted processed with
  | nil =>
    cases err with
    | some e =>
      simp only [streamLoop]
      exact accepted_concat consumer emitted _ hinv
    | none =>
      simp only [streamLoop]
      cases deps.MessageToLLMResponse message with
      | error e => exact accepted_concat consumer emitted _ hinv
      | ok finalResp => exact accepted_concat consumer emitted _ hinv
  | cons event rest ih =>
    rw [streamLoop]
    cases deps.Accumulate message event with
    | error e => exact accepted_concat consumer emitted _ hinv
    | ok message2 =>
      cases event with
      | textDelta text =>
        simp only
        by_cases hc : consumer (emitted ++ [Emission.resp (StreamDeltaToPartialResponse text)])
            = true
        · rw [if_pos hc]
          exact ih message2 _ _
            (accepted_snoc consumer emitted _ hinv hc ⟨.textDelta text, rfl⟩)
        · rw [if_neg hc]
          exact accepted_concat consumer emitted _ hinv
      | thinkingDelta thinking =>
        simp only
        by_cases hc : consumer
            (emitted ++ [Emission.resp (StreamThinkingDeltaToPartialResponse thinking)]) = true
        · rw [if_pos hc]
          exact ih message2 _ _
            (accepted_snoc consumer emitted _ hinv hc ⟨.thinkingDelta thinking, rfl⟩)
        · rw [if_neg hc]
          exact accepted_concat consumer emitted _ hinv
      | otherDelta desc => exact ih message2 _ _ hinv
      | other desc => exact ih message2 _ _ hinv



theorem lookup_goMapSet (r : GoMap) (k key : String) (v : GoValue) :
    (goMapSet r k v).lookup key = if key = k then some v else r.lookup key := by
  induction r with
  | nil =>
    by_cases h : key = k
    · subst h
      simp [goMapSet, List.lookup]
    · have hb : (key == k) = false := by
        cases hq : (key == k) with
        | false => rfl
        | true => exact absurd (beq_iff_eq.mp hq) h
      simp [goMapSet, List.lookup, hb, h]
  | cons kv rest ih =>
    obtain ⟨k1, v1⟩ := kv
    simp only [goMapSet]
    by_cases h1 : k1 = k
    · subst h1
      rw [if_pos rfl]
      by_cases h : key = k1
      · subst h
        simp [List.lookup]
      · have hb : (key == k1) = false := by
          cases hq : (key == k1) with
          | false => rfl
          | true => exact absurd (beq_iff_eq.mp hq) h
        simp [List.lookup, hb, h]
    · rw [if_neg h1]
      by_cases h : key = k1
      · subst h
        have hne : ¬ key = k := fun hk => h1 hk
        simp [List.lookup, hne]
      · have hb : (key == k1) = false := by
          cases hq : (key == k1) with
          | false => rfl
          | true => exact absurd (beq_iff_eq.mp hq) h
        simp only [List.lookup, hb]
        exact ih

theorem lookup_goMapSetIf (c : Prop) [Decidable c] (r : GoMap) (k key : String)
    (v : GoValue) :
    (goMapSetIf c r k v).lookup key = if key = k ∧ c then some v else r.lookup key := by
  unfold goMapSetIf
  by_cases hc : c
  · simp [hc, lookup_goMapSet]
  · simp [hc]

theorem lookup_goMapSetSome (r : GoMap) (k key : String) (v : Option GoValue) :
    (goMapSetSome r k v).lookup key
      = if key = k ∧ v.isSome = true then v else r.lookup key := by
  cases v with
  | none => simp [goMapSetSome]
  | some v => simp [goMapSetSome, lookup_goMapSet]

theorem schemaToMapCore_lookup (lib : GoLib) (schema : Schema) :
    (schemaToMapCore lib schema).lookup "type"
        = (if schema.Type_ ≠ "" then some (.str (stringsToLower lib schema.Type_)) else none)
    ∧ (schemaToMapCore lib schema).lookup "properties"
        = (if schemaMapLen schema.Properties > 0 then
            some (.map (schemaPropertiesToMap lib schema.Properties))
          else none)
    ∧ (schemaToMapCore lib schema).lookup "items"
        = schema.Items.map (fun it => GoValue.map (SchemaToMap lib (some it)))
    ∧ (schemaToMapCore lib schema).lookup "required"
        = (if schema.Required.length > 0 then some (.strings (some schema.Required))
          else none) := by
  cases schema with
  | mk type description enum format items properties required nullable default minimum maximum minLength maxLength minItems maxItems pattern anyOf =>
  cases items with
  | none =>
    rw [schemaToMapCore]
    refine ⟨?_, ?_, ?_, ?_⟩ <;> split <;>
      simp [lookup_goMapSetIf, lookup_goMapSetSome, List.lookup]
  | some it =>
    rw [schemaToMapCore]
    refine ⟨?_, ?_, ?_, ?_⟩ <;> split <;>
      simp [lookup_goMapSetIf, lookup_goMapSetSome, List.lookup, SchemaToMap]

theorem schemaPropertiesLoop_eq (lib : GoLib) (props : List (String × Option Schema)) :
    schemaPropertiesLoop lib props
      = props.filterMap
          (fun kv => kv.2.map (fun s => (kv.1, GoValue.map (SchemaToMap lib (some s))))) := by
  induction props with
  | nil => simp [schemaPropertiesLoop]
  | cons kv rest ih =>
    obtain ⟨name, s⟩ := kv
    cases s with
    | none =>
      rw [schemaPropertiesLoop, ih]
      simp
    | some s =>
      rw [schemaPropertiesLoop, ih]
      simp [SchemaToMap]

/-! ## Lemmas on the blocks of the assembled messages -/

theorem messageBlocks_mergeFrom (rest : List MessageParam) (last : MessageParam) :
    messageBlocks (mergeFrom last rest) = last.Content ++ messageBlocks rest := by
  induction rest generalizing last with
  | nil => simp [mergeFrom, messageBlocks]
  | cons msg rest ih =>
    unfold mergeFrom
    split
    · rw [ih]
      simp [messageBlocks]
    · have h1 : messageBlocks (last :: mergeFrom msg rest)
          = last.Content ++ messageBlocks (mergeFrom msg rest) := by
        simp [messageBlocks]
      rw [h1, ih]
      simp [messageBlocks]

theorem messageBlocks_merge (messages : List MessageParam) :
    messageBlocks (mergeConsecutiveMessages messages) = messageBlocks messages := by
  cases messages with
  | nil => rw [mergeConsecutiveMessages_nil]
  | cons msg rest =>
    rw [mergeConsecutiveMessages_cons, messageBlocks_mergeFrom]
    simp [messageBlocks]

theorem contentToMessage_none_blocks (lib : GoLib) (content : Content)
    (h : contentToMessage lib (some content) = .ok none) :
    translatedBlocks lib content.Parts = [] := by
  rw [contentToMessage_unfold] at h
  split at h
  · rename_i hlen
    rw [List.length_eq_zero.mp hlen]
    rfl
  · split at h
    · cases h
    · split at h
      · cases h
      · rename_i blocks hparts
        split at h
        · rename_i hzero
          have := convertParts_ok lib content.Parts [] blocks hparts
          rw [List.nil_append] at this
          rw [← this]
          exact List.length_eq_zero.mp hzero
        · cases h

theorem convertContents_blocks (lib : GoLib) (contents : List (Option Content))
    (acc ms : List MessageParam) (h : convertContents lib contents acc = .ok ms) :
    messageBlocks ms = messageBlocks acc ++ turnBlocks lib contents := by
  induction contents generalizing acc with
  | nil =>
    simp only [convertContents, Except.ok.injEq] at h
    rw [← h]
    simp [turnBlocks]
  | cons c rest ih =>
    cases c with
    | none =>
      simp only [convertContents] at h
      rw [ih acc h]
      simp [turnBlocks]
    | some content =>
      simp only [convertContents] at h
      cases hc : contentToMessage lib (some content) with
      | error e => simp [hc] at h
      | ok res =>
        cases res with
        | none =>
          simp only [hc] at h
          rw [ih acc h]
          have := contentToMessage_none_blocks lib content hc
          simp [turnBlocks, this]
        | some msg =>
          simp only [hc] at h
          rw [ih _ h]
          obtain ⟨-, -, hparts, -⟩ := contentToMessage_some lib content msg hc
          have := convertParts_ok lib content.Parts [] msg.Content hparts
          rw [List.nil_append] at this
          simp [turnBlocks, messageBlocks, this]

/-! ## Lemmas on the agreement of the two surfaces -/

theorem mapBetaImageMediaType_eq (mimeType : String) :
    mapBetaImageMediaType mimeType = mapImageMediaType mimeType := rfl

theorem mapBetaRole_eq (lib : GoLib) (role : String) :
    mapBetaRole lib role = mapRole lib role := rfl

theorem partToBetaContentBlock_eq (lib : GoLib) (part : Option Part) :
    partToBetaContentBlock lib part
      = match PartToContentBlock lib part with
        | .error err => .error err
        | .ok block => .ok (block.map betaOfBlock) := by
  cases part with
  | none => rfl
  | some part =>
    unfold partToBetaContentBlock PartToContentBlock
    simp only
    by_cases htext : part.Text ≠ ""
    · rw [if_pos htext, if_pos htext]
      by_cases hth : part.Thought = true
      · by_cases hsig : part.ThoughtSignature.length > 0
        · simp [hth, hsig, betaOfBlock]
        · simp [hth, hsig, betaOfBlock, NewTextBlock]
      · simp [hth, betaOfBlock, NewTextBlock]
    · rw [if_neg htext, if_neg htext]
      by_cases h1 : part.InlineData.isSome = true
      · rw [if_pos h1, if_pos h1]
        cases hblob : part.InlineData with
        | none => rfl
        | some blob =>
          simp only [inlineDataToBetaBlock, inlineDataToBlock, mapBetaImageMediaType_eq]
          split
          · cases mapImageMediaType (stringsToLower lib blob.MIMEType) with
            | error e => rfl
            | ok mediaType => rfl
          · split <;> rfl
      · rw [if_neg h1, if_neg h1]
        by_cases h2 : part.FileData.isSome = true
        · rw [if_pos h2, if_pos h2]
          cases hfile : part.FileData with
          | none => rfl
          | some fileData =>
            simp only [fileDataToBetaBlock, fileDataToBlock]
            split
            · rfl
            · split <;> rfl
        · rw [if_neg h2, if_neg h2]
          by_cases h3 : part.FunctionResponse.isSome = true
          · rw [if_pos h3, if_pos h3]
            cases hresp : part.FunctionResponse with
            | none => rfl
            | some resp =>
              simp only [functionResponseToBetaBlock, functionResponseToBlock]
              split
              · rfl
              · cases resp.Response with
                | none => rfl
                | some payload =>
                  simp only
                  cases lib.jsonMarshal payload with
                  | error e => rfl
                  | ok json => rfl
          · rw [if_neg h3, if_neg h3]
            by_cases h4 : part.FunctionCall.isSome = true
            · rw [if_pos h4, if_pos h4]
              cases hcall : part.FunctionCall with
              | none => rfl
              | some call => rfl
            · rw [if_neg h4, if_neg h4]
              split <;> rfl

theorem convertBetaParts_eq (lib : GoLib) (parts : List (Option Part))
    (acc : List ContentBlockParamUnion) :
    convertBetaParts lib parts (acc.map betaOfBlock)
      = match convertParts lib parts acc with
        | .error err => .error err
        | .ok blocks => .ok (blocks.map betaOfBlock) := by
  induction parts generalizing acc with
  | nil => rfl
  | cons p rest ih =>
    cases p with
    | none =>
      simp only [convertBetaParts, convertParts]
      exact ih acc
    | some part =>
      simp only [convertBetaParts, convertParts, partToBetaContentBlock_eq]
      cases PartToContentBlock lib (some part) with
      | error e => rfl
      | ok block =>
        cases block with
        | none => exact ih acc
        | some b =>
          have := ih (acc ++ [b])
          simp only [List.map_append, List.map_cons, List.map_nil] at this
          exact this

theorem contentToBetaMessage_eq (lib : GoLib) (content : Option Content) :
    contentToBetaMessage lib content
      = match contentToMessage lib content with
        | .error err => .error err
        | .ok msg => .ok (msg.map betaOfMessage) := by
  cases content with
  | none => rfl
  | some content =>
    unfold contentToBetaMessage contentToMessage
    simp only
    split
    · rfl
    · have hparts := convertBetaParts_eq lib content.Parts []
      simp only [List.map_nil] at hparts
      rw [hparts, mapBetaRole_eq]
      have hroles : BetaMessageParamRoleUser = MessageParamRoleUser
          ∧ BetaMessageParamRoleAssistant = MessageParamRoleAssistant := ⟨rfl, rfl⟩
      rw [hroles.1, hroles.2]
      generalize (if (scanToolParts content.Parts (false, false)).1 = true then
          (Except.ok MessageParamRoleUser : Except String MessageParamRole)
        else if (scanToolParts content.Parts (false, false)).2 = true then
          Except.ok MessageParamRoleAssistant
        else mapRole lib content.Role) = resolved
      cases resolved with
      | error e => rfl
      | ok role =>
        simp only
        cases convertParts lib content.Parts [] with
        | error e => rfl
        | ok blocks =>
          simp only [List.length_map]
          split <;> rfl

theorem betaMergeLoop_eq (rest : List MessageParam) (i : Nat) (merged : List MessageParam) :
    betaMergeLoop (rest.map betaOfMessage) i (merged.map betaOfMessage)
      = (mergeLoop rest i merged).map betaOfMessage := by
  induction rest generalizing i merged with
  | nil => rfl
  | cons msg rest ih =>
    simp only [List.map_cons, betaMergeLoop, mergeLoop]
    split
    · have := ih (i + 1) (merged ++ [msg])
      simp only [List.map_append, List.map_cons, List.map_nil] at this
      exact this
    · rw [List.getLast?_map]
      cases hlast : merged.getLast? with
      | none => exact ih (i + 1) merged
      | some last =>
        simp only [Option.map_some']
        have hrole : ((betaOfMessage last).Role = (betaOfMessage msg).Role)
            = (last.Role = msg.Role) := rfl
        simp only [hrole]
        split
        · have := ih (i + 1)
            (merged.dropLast ++ [{ last with Content := last.Content ++ msg.Content }])
          simp only [List.map_append, List.map_cons, List.map_nil, List.map_dropLast] at this
          rw [← this]
          simp [betaOfMessage]
        · have := ih (i + 1) (merged ++ [msg])
          simp only [List.map_append, List.map_cons, List.map_nil] at this
          exact this

theorem mergeConsecutiveBetaMessages_eq (messages : List MessageParam) :
    mergeConsecutiveBetaMessages (messages.map betaOfMessage)
      = (mergeConsecutiveMessages messages).map betaOfMessage := by
  unfold mergeConsecutiveBetaMessages mergeConsecutiveMessages
  rw [List.length_map]
  split
  · rfl
  · exact betaMergeLoop_eq messages 0 []

theorem convertBetaContents_eq (lib : GoLib) (contents : List (Option Content))
    (acc : List MessageParam) :
    convertBetaContents lib contents (acc.map betaOfMessage)
      = match convertContents lib contents acc with
        | .error err => .error err
        | .ok ms => .ok (ms.map betaOfMessage) := by
  induction contents generalizing acc with
  | nil => rfl
  | cons c rest ih =>
    cases c with
    | none =>
      simp only [convertBetaContents, convertContents]
      exact ih acc
    | some content =>
      simp only [convertBetaContents, convertContents, contentToBetaMessage_eq]
      cases contentToMessage lib (some content) with
      | error e => rfl
      | ok msg =>
        cases msg with
        | none => exact ih acc
        | some m =>
          have := ih (acc ++ [m])
          simp only [List.map_append, List.map_cons, List.map_nil] at this
          exact this

/-- The assembler of the structured-output surface is the standard assembler
followed by the change of surface. -/
theorem ContentsToBetaMessages_eq (lib : GoLib) (contents : List (Option Content)) :
    ContentsToBetaMessages lib contents
      = match ContentsToMessages lib contents with
        | .error err => .error err
        | .ok ms => .ok (ms.map betaOfMessage) := by
  unfold ContentsToBetaMessages ContentsToMessages
  split
  · rfl
  · have := convertBetaContents_eq lib contents []
    simp only [List.map_nil] at this
    rw [this]
    cases convertContents lib contents [] with
    | error e => rfl
    | ok ms =>
      simp only
      rw [mergeConsecutiveBetaMessages_eq]

theorem BlockAgrees_betaOfBlock (block : ContentBlockParamUnion) :
    BlockAgrees block (betaOfBlock block) := by
  cases block with
  | OfText text => rfl
  | OfThinking thinking signature => exact ⟨rfl, rfl⟩
  | OfImage source =>
    cases source with
    | OfBase64 data mediaType => exact ⟨rfl, rfl⟩
    | OfURL url => rfl
  | OfDocument source =>
    cases source with
    | OfBase64 data => rfl
    | OfURL url => rfl
  | OfToolUse id input name => exact ⟨rfl, rfl, rfl⟩
  | OfToolResult toolUseID content isError => exact ⟨rfl, rfl⟩

theorem MessageAgrees_betaOfMessage (ms : List MessageParam) :
    List.Forall₂ MessageAgrees ms (ms.map betaOfMessage) := by
  rw [List.forall₂_map_right_iff, List.forall₂_same]
  intro m _
  refine ⟨rfl, ?_⟩
  show List.Forall₂ BlockAgrees m.Content (m.Content.map betaOfBlock)
  rw [List.forall₂_map_right_iff, List.forall₂_same]
  intro b _
  exact BlockAgrees_betaOfBlock b

theorem FunctionDeclarationToBetaTool_eq (lib : GoLib) (fd : FunctionDeclaration) :
    FunctionDeclarationToBetaTool lib fd = (FunctionDeclarationToTool lib fd).map betaOfTool := by
  obtain ⟨name, description, parameters, jsonSchema⟩ := fd
  unfold FunctionDeclarationToBetaTool FunctionDeclarationToTool
  cases parameters with
  | some p =>
    simp only [betaOfTool, Option.map_some']
    by_cases h1 : (schemaPropertiesToMap lib p.Properties).isSome = true
      <;> by_cases h2 : p.Required.length > 0 <;> simp [h1, h2]
  | none =>
    cases jsonSchema with
    | null => rfl
    | ofMap schema =>
      simp only [betaOfTool, Option.map_some']
      cases goMapGet schema "properties" <;> rfl
    | ofSchema schema =>
      cases schema with
      | none => rfl
      | some s =>
        simp only [betaOfTool, Option.map_some']
        by_cases h1 : (jsonSchemaToProperties (some s)).isSome = true
          <;> by_cases h2 : s.Required.length > 0 <;> simp [h1, h2]
    | other desc => rfl

theorem ToolConfigToBetaToolChoice_eq (config : Option ToolConfig) :
    (ToolConfigToBetaToolChoice config).2 = (ToolConfigToToolChoice config).2
      ∧ ChoiceAgrees (ToolConfigToToolChoice config).1 (ToolConfigToBetaToolChoice config).1 := by
  unfold ToolConfigToBetaToolChoice ToolConfigToToolChoice ChoiceAgrees
  cases config with
  | none => exact ⟨rfl, rfl, rfl, rfl, rfl⟩
  | some config =>
    obtain ⟨fccOpt⟩ := config
    cases fccOpt with
    | none => exact ⟨rfl, rfl, rfl, rfl, rfl⟩
    | some fcc =>
      obtain ⟨mode, names⟩ := fcc
      simp only
      by_cases h1 : names.length > 1
      · rw [if_pos h1, if_pos h1]
        exact ⟨rfl, rfl, rfl, rfl, rfl⟩
      · rw [if_neg h1, if_neg h1]
        by_cases h2 : mode = FunctionCallingConfigModeNone
        · rw [if_pos h2, if_pos h2]
          exact ⟨rfl, rfl, rfl, rfl, rfl⟩
        · rw [if_neg h2, if_neg h2]
          by_cases h3 : mode = FunctionCallingConfigModeAuto
          · rw [if_pos h3, if_pos h3]
            exact ⟨rfl, rfl, rfl, rfl, rfl⟩
          · rw [if_neg h3, if_neg h3]
            by_cases h4 : mode = FunctionCallingConfigModeAny
            · rw [if_pos h4, if_pos h4]
              cases names with
              | nil => exact ⟨rfl, rfl, rfl, rfl, rfl⟩
              | cons n rest =>
                cases rest with
                | nil => exact ⟨rfl, rfl, rfl, rfl, rfl⟩
                | cons n2 rest2 => exact ⟨rfl, rfl, rfl, rfl, rfl⟩
            · rw [if_neg h4, if_neg h4]
              exact ⟨rfl, rfl, rfl, rfl, rfl⟩

theorem FunctionDeclarationToTool_ofTool (lib : GoLib) (fd : FunctionDeclaration)
    (t : ToolUnionParam) (h : FunctionDeclarationToTool lib fd = some t) :
    ∃ p, t.OfTool = some p := by
  unfold FunctionDeclarationToTool at h
  simp only at h
  split at h
  · cases h
  · simp only [Option.some.injEq] at h
    rw [← h]
    exact ⟨_, rfl⟩

/-! ## Claims -/

/-- C1: whenever `ContentsToMessages` succeeds, no two adjacent messages of the
returned list have the same role. -/
theorem ContentsToMessages_roles_alternate (lib : GoLib) (contents : List (Option Content))
    (ms : List MessageParam) (h : ContentsToMessages lib contents = .ok ms) :
    ∀ (i : Nat) (hi : i + 1 < ms.length), ms[i].Role ≠ ms[i + 1].Role := by
  obtain ⟨messages, _, rfl⟩ := ContentsToMessages_ok lib contents ms h
  intro i hi
  have hc := List.chain'_iff_get.mp (mergeConsecutiveMessages_chain messages) i (by omega)
  simpa using hc

/-- Witness of C1: three turns user, user, model give two messages user,
assistant. -/
theorem ContentsToMessages_roles_alternate_witness :
    ContentsToMessages sampleLib
        [some ⟨"user", [some { Text := "a" }]⟩, some ⟨"user", [some { Text := "b" }]⟩,
          some ⟨"model", [some { Text := "c" }]⟩]
      = .ok [⟨"user", [.OfText "a", .OfText "b"]⟩, ⟨"assistant", [.OfText "c"]⟩]
    ∧ ∀ (i : Nat) (hi : i + 1 < ([⟨"user", [.OfText "a", .OfText "b"]⟩,
          ⟨"assistant", [.OfText "c"]⟩] : List MessageParam).length),
        ([⟨"user", [.OfText "a", .OfText "b"]⟩,
          ⟨"assistant", [.OfText "c"]⟩] : List MessageParam)[i].Role
        ≠ ([⟨"user", [.OfText "a", .OfText "b"]⟩,
          ⟨"assistant", [.OfText "c"]⟩] : List MessageParam)[i + 1].Role :=
  ⟨rfl, ContentsToMessages_roles_alternate sampleLib
    [some ⟨"user", [some { Text := "a" }]⟩, some ⟨"user", [some { Text := "b" }]⟩,
      some ⟨"model", [some { Text := "c" }]⟩]
    [⟨"user", [.OfText "a", .OfText "b"]⟩, ⟨"assistant", [.OfText "c"]⟩] rfl⟩

/-- C2: two consecutive turns that resolve to the same role and each translate
to at least one block come back as exactly one message of that role, whose
content is the blocks of the parts of the first turn, in order, followed by the
blocks of the parts of the second turn, in order. -/
theorem ContentsToMessages_merges_same_role (lib : GoLib) (t1 t2 : Content)
    (m1 m2 : MessageParam)
    (h1 : contentToMessage lib (some t1) = .ok (some m1))
    (h2 : contentToMessage lib (some t2) = .ok (some m2))
    (hrole : m1.Role = m2.Role) :
    ContentsToMessages lib [some t1, some t2]
      = .ok [{ Role := m1.Role,
               Content := translatedBlocks lib t1.Parts ++ translatedBlocks lib t2.Parts }] := by
  have hb1 := convertParts_ok lib t1.Parts [] m1.Content
    (contentToMessage_some lib t1 m1 h1).2.2.1
  have hb2 := convertParts_ok lib t2.Parts [] m2.Content
    (contentToMessage_some lib t2 m2 h2).2.2.1
  simp only [List.nil_append] at hb1 hb2
  have hc : convertContents lib [some t1, some t2] [] = .ok [m1, m2] := by
    simp [convertContents, h1, h2]
  unfold ContentsToMessages
  rw [if_neg (by simp), hc]
  simp [mergeConsecutiveMessages_cons, mergeFrom, hrole, hb1, hb2]

/-- Witness of C2: a user turn with two text parts around a nil part, followed
by a turn of role `USER` with one text part. -/
theorem ContentsToMessages_merges_same_role_witness :
    ContentsToMessages sampleLib
        [some ⟨"user", [some { Text := "a" }, none, some { Text := "b" }]⟩,
          some ⟨"USER", [some { Text := "c" }]⟩]
      = .ok [{ Role := "user",
               Content := translatedBlocks sampleLib
                   [some { Text := "a" }, none, some { Text := "b" }]
                 ++ translatedBlocks sampleLib [some { Text := "c" }] }]
    ∧ translatedBlocks sampleLib [some { Text := "a" }, none, some { Text := "b" }]
        ++ translatedBlocks sampleLib [some { Text := "c" }]
      = [.OfText "a", .OfText "b", .OfText "c"] :=
  ⟨ContentsToMessages_merges_same_role sampleLib
      ⟨"user", [some { Text := "a" }, none, some { Text := "b" }]⟩
      ⟨"USER", [some { Text := "c" }]⟩
      ⟨"user", [.OfText "a", .OfText "b"]⟩ ⟨"user", [.OfText "c"]⟩ rfl rfl rfl,
    rfl⟩

/-- C3: a tool-result part (empty text, no inline or file data) whose
`FunctionResponse.ID` is empty makes `PartToContentBlock` and
`partToBetaContentBlock` return the correlation error and no block, whatever
the name, the payload and the library are. -/
theorem PartToContentBlock_empty_id_error (lib : GoLib) (part : Part)
    (resp : FunctionResponse) (htext : part.Text = "") (hinline : part.InlineData = none)
    (hfile : part.FileData = none) (hresp : part.FunctionResponse = some resp)
    (hid : resp.ID = "") :
    PartToContentBlock lib (some part)
        = .error ("FunctionResponse.ID is required for tool call correlation (function: "
            ++ resp.Name ++ ")")
      ∧ partToBetaContentBlock lib (some part)
        = .error ("FunctionResponse.ID is required for tool call correlation (function: "
            ++ resp.Name ++ ")") := by
  constructor
  · simp [PartToContentBlock, functionResponseToBlock, htext, hinline, hfile, hresp, hid]
  · simp [partToBetaContentBlock, functionResponseToBetaBlock, htext, hinline, hfile, hresp,
      hid]

/-- Witness of C3: a tool result named `lookup` with a non-empty payload and no
id. -/
theorem PartToContentBlock_empty_id_error_witness :
    PartToContentBlock sampleLib
        (some { FunctionResponse := some ⟨"", "lookup", some [("ok", .bool true)]⟩ })
        = .error ("FunctionResponse.ID is required for tool call correlation (function: "
            ++ "lookup" ++ ")")
      ∧ partToBetaContentBlock sampleLib
        (some { FunctionResponse := some ⟨"", "lookup", some [("ok", .bool true)]⟩ })
        = .error ("FunctionResponse.ID is required for tool call correlation (function: "
            ++ "lookup" ++ ")") :=
  PartToContentBlock_empty_id_error sampleLib
    { FunctionResponse := some ⟨"", "lookup", some [("ok", .bool true)]⟩ }
    ⟨"", "lookup", some [("ok", .bool true)]⟩ rfl rfl rfl rfl rfl

/-- C4: a tool call whose arguments are absent (nil) or an empty mapping becomes
a tool-use block whose input is the explicit empty object, with the id and the
name of the call; for non-empty arguments the input is the arguments unchanged.
Both the standard and the beta converter do so. -/
theorem functionCallToBlock_input (id name : String) :
    functionCallToBlock (some ⟨id, name, none⟩) = .ok (some (.OfToolUse id (some []) name))
      ∧ functionCallToBlock (some ⟨id, name, some []⟩)
        = .ok (some (.OfToolUse id (some []) name))
      ∧ functionCallToBetaBlock (some ⟨id, name, none⟩)
        = .ok (some (.OfToolUse id name (some [])))
      ∧ functionCallToBetaBlock (some ⟨id, name, some []⟩)
        = .ok (some (.OfToolUse id name (some [])))
      ∧ ∀ (kv : String × GoValue) (kvs : GoMap),
          functionCallToBlock (some ⟨id, name, some (kv :: kvs)⟩)
            = .ok (some (.OfToolUse id (some (kv :: kvs)) name))
          ∧ functionCallToBetaBlock (some ⟨id, name, some (kv :: kvs)⟩)
            = .ok (some (.OfToolUse id name (some (kv :: kvs)))) := by
  refine ⟨rfl, rfl, rfl, rfl, ?_⟩
  intro kv kvs
  simp [functionCallToBlock, functionCallToBetaBlock, NewToolUseBlock, goMapLen]

/-- C5: for every turn for which `contentToMessage` returns a message, the
role of the message is `user` if any part carries a tool result (whatever the
role string of the turn and whether or not a part carries a tool call),
otherwise `assistant` if any part carries a tool call, otherwise the mapping of
the role string of the turn. -/
theorem contentToMessage_tool_role (lib : GoLib) (content : Content) (m : MessageParam)
    (h : contentToMessage lib (some content) = .ok (some m)) :
    (hasFunctionResponse content = true → m.Role = MessageParamRoleUser)
      ∧ (hasFunctionResponse content = false → hasFunctionCall content = true →
          m.Role = MessageParamRoleAssistant)
      ∧ (hasFunctionResponse content = false → hasFunctionCall content = false →
          mapRole lib content.Role = .ok m.Role) := by
  obtain ⟨_, hrole, _, _⟩ := contentToMessage_some lib content m h
  refine ⟨?_, ?_, ?_⟩
  · intro hfr
    rw [hfr] at hrole
    simp only [if_true] at hrole
    exact (Except.ok.inj hrole).symm
  · intro hfr hfc
    rw [hfr, hfc] at hrole
    simp only [if_true, Bool.false_eq_true, if_false] at hrole
    exact (Except.ok.inj hrole).symm
  · intro hfr hfc
    rw [hfr, hfc] at hrole
    simpa using hrole

/-- Witness of C5: a turn of the unknown role `tool` that carries a tool call
and a tool result becomes a `user` message. -/
theorem contentToMessage_tool_role_witness :
    contentToMessage sampleLib
        (some ⟨"tool", [some { FunctionCall := some ⟨"call_1", "lookup", none⟩ },
          some { FunctionResponse := some ⟨"call_1", "lookup", none⟩ }]⟩)
      = .ok (some ⟨"user", [.OfToolUse "call_1" (some []) "lookup",
          .OfToolResult "call_1" [""] (some false)]⟩)
    ∧ hasFunctionResponse
        ⟨"tool", [some { FunctionCall := some ⟨"call_1", "lookup", none⟩ },
          some { FunctionResponse := some ⟨"call_1", "lookup", none⟩ }]⟩ = true
    ∧ (⟨"user", [.OfToolUse "call_1" (some []) "lookup",
          .OfToolResult "call_1" [""] (some false)]⟩ : MessageParam).Role
        = MessageParamRoleUser :=
  ⟨rfl, rfl,
    (contentToMessage_tool_role sampleLib
      ⟨"tool", [some { FunctionCall := some ⟨"call_1", "lookup", none⟩ },
        some { FunctionResponse := some ⟨"call_1", "lookup", none⟩ }]⟩
      ⟨"user", [.OfToolUse "call_1" (some []) "lookup",
        .OfToolResult "call_1" [""] (some false)]⟩ rfl).1 rfl⟩

/-- C6, as stated, fails: `USER` is none of the strings `user`, `model`,
`assistant`, yet the role mapping lower-cases it first and a turn of role `USER`
becomes a `user` message. -/
theorem mapRole_upper_case_counterexample :
    "USER" ≠ "user" ∧ "USER" ≠ "model" ∧ "USER" ≠ "assistant"
      ∧ mapRole sampleLib "USER" = .ok MessageParamRoleUser
      ∧ contentToMessage sampleLib (some ⟨"USER", [some { Text := "hi" }]⟩)
        = .ok (some ⟨"user", [.OfText "hi"]⟩) := by
  refine ⟨by decide, by decide, by decide, rfl, rfl⟩

/-- C6, amended: for every turn with a non-empty part list and no tool-call or
tool-result part, a role whose lower-casing is `user` maps to user, one whose
lower-casing is `model` or `assistant` maps to assistant, and a role whose
lower-casing is none of the three makes `contentToMessage`, `mapRole` and
`mapBetaRole` fail with the error `unsupported role: ` followed by the role. -/
theorem mapRole_unsupported (lib : GoLib) (content : Content)
    (hne : content.Parts ≠ []) (hfr : hasFunctionResponse content = false)
    (hfc : hasFunctionCall content = false) :
    (stringsToLower lib content.Role = "user" →
        mapRole lib content.Role = .ok MessageParamRoleUser
          ∧ mapBetaRole lib content.Role = .ok BetaMessageParamRoleUser
          ∧ ∀ m, contentToMessage lib (some content) = .ok (some m) →
              m.Role = MessageParamRoleUser)
      ∧ (stringsToLower lib content.Role = "model"
            ∨ stringsToLower lib content.Role = "assistant" →
        mapRole lib content.Role = .ok MessageParamRoleAssistant
          ∧ mapBetaRole lib content.Role = .ok BetaMessageParamRoleAssistant
          ∧ ∀ m, contentToMessage lib (some content) = .ok (some m) →
              m.Role = MessageParamRoleAssistant)
      ∧ (knownRole lib content.Role = false →
        mapRole lib content.Role = .error ("unsupported role: " ++ content.Role)
          ∧ mapBetaRole lib content.Role = .error ("unsupported role: " ++ content.Role)
          ∧ contentToMessage lib (some content)
              = .error ("unsupported role: " ++ content.Role)) := by
  have hlen : ¬ content.Parts.length = 0 := by
    intro h0
    exact hne (List.eq_nil_of_length_eq_zero h0)
  have hmsg : ∀ (role : MessageParamRole), mapRole lib content.Role = .ok role →
      ∀ m, contentToMessage lib (some content) = .ok (some m) → m.Role = role := by
    intro role hrole m hm
    have h3 := (contentToMessage_some lib content m hm).2.1
    rw [hfr, hfc] at h3
    simp only [Bool.false_eq_true, if_false] at h3
    rw [hrole] at h3
    exact (Except.ok.inj h3).symm
  refine ⟨?_, ?_, ?_⟩
  · intro hu
    have h1 : mapRole lib content.Role = .ok MessageParamRoleUser := by
      simp [mapRole, hu]
    exact ⟨h1, by simp [mapBetaRole, hu], hmsg _ h1⟩
  · intro hma
    have hnu : stringsToLower lib content.Role ≠ "user" := by
      rcases hma with h | h <;> rw [h] <;> decide
    have h1 : mapRole lib content.Role = .ok MessageParamRoleAssistant := by
      simp [mapRole, hnu, hma]
    exact ⟨h1, by simp [mapBetaRole, hnu, hma], hmsg _ h1⟩
  · intro hk
    simp only [knownRole, Bool.or_eq_false_iff, beq_eq_false_iff_ne, ne_eq] at hk
    obtain ⟨⟨hu, hm⟩, ha⟩ := hk
    have h1 : mapRole lib content.Role = .error ("unsupported role: " ++ content.Role) := by
      simp [mapRole, hu, hm, ha]
    refine ⟨h1, by simp [mapBetaRole, hu, hm, ha], ?_⟩
    rw [contentToMessage_unfold, if_neg hlen, hfr, hfc, h1]
    simp

/-- Witness of C6: a text turn of role `system`. -/
theorem mapRole_unsupported_witness :
    knownRole sampleLib "system" = false
      ∧ contentToMessage sampleLib (some ⟨"system", [some { Text := "hi" }]⟩)
        = .error ("unsupported role: " ++ "system") :=
  ⟨rfl,
    ((mapRole_unsupported sampleLib ⟨"system", [some { Text := "hi" }]⟩
      (by simp) rfl rfl).2.2 rfl).2.2⟩

/-- C7, as stated, fails: the only part of the turn below translates to no
block, yet the turn is not dropped without error, because its role `system` is
mapped, and rejected, before the parts are translated. -/
theorem contentToMessage_empty_turn_counterexample :
    PartToContentBlock sampleLib (some {}) = .ok none
      ∧ contentToMessage sampleLib (some ⟨"system", [some {}]⟩)
        = .error "unsupported role: system"
      ∧ ContentsToMessages sampleLib [some ⟨"system", [some {}]⟩]
        = .error "failed to convert content: unsupported role: system" :=
  ⟨rfl, rfl, rfl⟩

/-- C7, amended: whenever `ContentsToMessages` succeeds, every returned message
has at least one content block; and a turn whose part list is empty, or whose
role lower-cases to `user`, `model` or `assistant` and whose parts all translate
to no block, yields no message and no error, so that the result for a sequence
with this turn is the result for the sequence without it. -/
theorem ContentsToMessages_no_empty_message (lib : GoLib) :
    (∀ (contents : List (Option Content)) (ms : List MessageParam),
        ContentsToMessages lib contents = .ok ms → ∀ m ∈ ms, m.Content ≠ [])
      ∧ ∀ content : Content,
          (content.Parts = []
            ∨ (knownRole lib content.Role = true
                ∧ ∀ p ∈ content.Parts, PartToContentBlock lib p = .ok none)) →
          contentToMessage lib (some content) = .ok none
            ∧ ∀ pre post : List (Option Content),
                ContentsToMessages lib (pre ++ some content :: post)
                  = ContentsToMessages lib (pre ++ post) := by
  constructor
  · intro contents ms h
    obtain ⟨messages, hconv, rfl⟩ := ContentsToMessages_ok lib contents ms h
    exact mergeConsecutiveMessages_content_ne_nil messages
      (convertContents_content_ne_nil lib contents messages hconv)
  · intro content hdrop
    have hnone : contentToMessage lib (some content) = .ok none := by
      rw [contentToMessage_unfold]
      rcases hdrop with hnil | ⟨hrole, hparts⟩
      · simp [hnil]
      · obtain ⟨hfr, hfc⟩ := hasTool_false_of_all_none lib content hparts
        obtain ⟨r, hr⟩ := mapRole_of_knownRole lib content.Role hrole
        rw [hfr, hfc, hr, convertParts_all_none lib content.Parts [] hparts]
        simp
    refine ⟨hnone, ?_⟩
    intro pre post
    have hstep : ∀ acc, convertContents lib (some content :: post) acc
        = convertContents lib post acc := by
      intro acc
      simp [convertContents, hnone]
    rw [ContentsToMessages_eq, ContentsToMessages_eq, convertContents_append,
      convertContents_append]
    cases convertContents lib pre [] with
    | error err => rfl
    | ok acc => simp only [hstep]

/-- Witness of C7: between two user turns, a `model` turn made of an empty part
and a nil part leaves no trace. -/
theorem ContentsToMessages_no_empty_message_witness :
    ContentsToMessages sampleLib
        ([some ⟨"user", [some { Text := "a" }]⟩] ++ some ⟨"model", [some {}, none]⟩
          :: [some ⟨"user", [some { Text := "b" }]⟩])
      = ContentsToMessages sampleLib
        ([some ⟨"user", [some { Text := "a" }]⟩] ++ [some ⟨"user", [some { Text := "b" }]⟩])
    ∧ ContentsToMessages sampleLib
        ([some ⟨"user", [some { Text := "a" }]⟩] ++ [some ⟨"user", [some { Text := "b" }]⟩])
      = .ok [⟨"user", [.OfText "a", .OfText "b"]⟩] :=
  ⟨((ContentsToMessages_no_empty_message sampleLib).2 ⟨"model", [some {}, none]⟩
      (Or.inr ⟨rfl, by
        intro p hp
        simp only [List.mem_cons, List.mem_singleton, List.not_mem_nil, or_false] at hp
        rcases hp with rfl | rfl <;> rfl⟩)).2
      [some ⟨"user", [some { Text := "a" }]⟩] [some ⟨"user", [some { Text := "b" }]⟩],
    rfl⟩

/-- C8, as stated, fails: `tool` is an unknown role, yet a turn of that role
that carries a tool result is converted to a `user` message; and `image/bmp` is
a MIME type the inline translator rejects, yet a part with text and such inline
data is converted to a text block. -/
theorem ContentsToMessages_unsupported_counterexample :
    mapRole sampleLib "tool" = .error "unsupported role: tool"
      ∧ ContentsToMessages sampleLib
          [some ⟨"tool", [some { FunctionResponse := some ⟨"call_1", "lookup", none⟩ }]⟩]
        = .ok [⟨"user", [.OfToolResult "call_1" [""] (some false)]⟩]
      ∧ inlineDataToBlock sampleLib (some ⟨"image/bmp", []⟩)
        = .error "unsupported image media type: image/bmp"
      ∧ ContentsToMessages sampleLib
          [some ⟨"user", [some { Text := "see", InlineData := some ⟨"image/bmp", []⟩ }]⟩]
        = .ok [⟨"user", [.OfText "see"]⟩] :=
  ⟨rfl, rfl, rfl, rfl⟩

/-- C8, amended: a turn sequence is rejected, with an error and no message
list, whenever one of its non-nil turns has a role that must be mapped and is
unknown (`unsupportedRole`: non-empty part list, no tool part, lower-cased role
none of `user`, `model`, `assistant`), or has a part with no text whose first
populated variant is an unsupported MIME type or an unsupported modality
(`unsupportedPart`). -/
theorem ContentsToMessages_unsupported_error (lib : GoLib) (pre post : List (Option Content))
    (content : Content)
    (h : unsupportedRole lib content = true
      ∨ ∃ part, some part ∈ content.Parts ∧ unsupportedPart lib part = true) :
    ∃ err, ContentsToMessages lib (pre ++ some content :: post) = .error err := by
  have hturn : ∃ e, contentToMessage lib (some content) = .error e := by
    rcases h with hrole | ⟨part, hmem, hpart⟩
    · simp only [unsupportedRole, Bool.and_eq_true, Bool.not_eq_true', List.isEmpty_eq_false]
        at hrole
      obtain ⟨⟨⟨hne, hfr⟩, hfc⟩, hk⟩ := hrole
      simp only [knownRole, Bool.or_eq_false_iff, beq_eq_false_iff_ne, ne_eq] at hk
      obtain ⟨⟨hu, hm⟩, ha⟩ := hk
      have hlen : ¬ content.Parts.length = 0 := by
        intro h0
        exact hne (List.eq_nil_of_length_eq_zero h0)
      refine ⟨"unsupported role: " ++ content.Role, ?_⟩
      rw [contentToMessage_unfold, if_neg hlen, hfr, hfc]
      simp [mapRole, hu, hm, ha]
    · obtain ⟨err, herr⟩ := PartToContentBlock_unsupported lib part hpart
      exact contentToMessage_error_of_part lib content part hmem err herr
  obtain ⟨e, he⟩ := hturn
  obtain ⟨e2, he2⟩ := convertContents_error lib pre post content e he []
  rw [ContentsToMessages_eq, he2]
  exact ⟨_, rfl⟩

/-- Witness of C8: a valid user turn followed by a turn with a part of inline
data of type `text/plain`. -/
theorem ContentsToMessages_unsupported_error_witness :
    unsupportedPart sampleLib { InlineData := some ⟨"text/plain", []⟩ } = true
      ∧ ∃ err, ContentsToMessages sampleLib
          ([some ⟨"user", [some { Text := "a" }]⟩]
            ++ some ⟨"user", [some { InlineData := some ⟨"text/plain", []⟩ }]⟩ :: [])
          = .error err :=
  ⟨rfl, ContentsToMessages_unsupported_error sampleLib
    [some ⟨"user", [some { Text := "a" }]⟩] []
    ⟨"user", [some { InlineData := some ⟨"text/plain", []⟩ }]⟩
    (Or.inr ⟨{ InlineData := some ⟨"text/plain", []⟩ }, List.mem_singleton.mpr rfl, rfl⟩)⟩

/-- C9: for every inline blob, with `m` its lower-cased MIME type:
`image/jpeg`, `image/png`, `image/gif` and `image/webp` give a base64-sourced
image block tagged with the matching media type, `application/pdf` gives a
base64-sourced document block, every other `image/*` type and every other type
gives an error; so `inlineDataToBlock` succeeds exactly when `m` is one of the
five. -/
theorem inlineDataToBlock_dispatch (lib : GoLib) (blob : Blob) :
    (stringsToLower lib blob.MIMEType = "image/jpeg" →
        inlineDataToBlock lib (some blob)
          = .ok (some (.OfImage (.OfBase64 (base64EncodeToString blob.Data)
              Base64ImageSourceMediaTypeImageJPEG))))
      ∧ (stringsToLower lib blob.MIMEType = "image/png" →
        inlineDataToBlock lib (some blob)
          = .ok (some (.OfImage (.OfBase64 (base64EncodeToString blob.Data)
              Base64ImageSourceMediaTypeImagePNG))))
      ∧ (stringsToLower lib blob.MIMEType = "image/gif" →
        inlineDataToBlock lib (some blob)
          = .ok (some (.OfImage (.OfBase64 (base64EncodeToString blob.Data)
              Base64ImageSourceMediaTypeImageGIF))))
      ∧ (stringsToLower lib blob.MIMEType = "image/webp" →
        inlineDataToBlock lib (some blob)
          = .ok (some (.OfImage (.OfBase64 (base64EncodeToString blob.Data)
              Base64ImageSourceMediaTypeImageWebP))))
      ∧ (stringsToLower lib blob.MIMEType = "application/pdf" →
        inlineDataToBlock lib (some blob)
          = .ok (some (.OfDocument (.OfBase64 (base64EncodeToString blob.Data)))))
      ∧ (inlineMIMETypes.contains (stringsToLower lib blob.MIMEType) = false →
        inlineDataToBlock lib (some blob)
          = if stringsHasPrefixOf (stringsToLower lib blob.MIMEType) "image/" then
              .error ("unsupported image media type: " ++ stringsToLower lib blob.MIMEType)
            else
              .error ("unsupported MIME type for inline data: "
                ++ stringsToLower lib blob.MIMEType))
      ∧ ((∃ r, inlineDataToBlock lib (some blob) = .ok r)
          ↔ inlineMIMETypes.contains (stringsToLower lib blob.MIMEType) = true) := by
  refine ⟨?_, ?_, ?_, ?_, ?_, ?_, ?_⟩
  · intro h
    exact inlineDataToBlock_image lib blob _ (by rw [h]; decide) (by rw [h]; rfl)
  · intro h
    exact inlineDataToBlock_image lib blob _ (by rw [h]; decide) (by rw [h]; rfl)
  · intro h
    exact inlineDataToBlock_image lib blob _ (by rw [h]; decide) (by rw [h]; rfl)
  · intro h
    exact inlineDataToBlock_image lib blob _ (by rw [h]; decide) (by rw [h]; rfl)
  · exact inlineDataToBlock_pdf lib blob
  · exact inlineDataToBlock_error lib blob
  · rcases inlineDataToBlock_cases lib blob with ⟨hin, _, hok⟩ | ⟨hpdf, hok⟩ | ⟨hno, err, herr⟩
    · refine ⟨fun _ => ?_, fun _ => ⟨_, hok⟩⟩
      simp only [inlineMIMETypes, imageMIMETypes, List.contains_eq_any_beq, List.any_cons,
        List.any_nil, Bool.or_false, Bool.or_eq_true] at hin ⊢
      rcases hin with h | h | h | h
      · exact Or.inl h
      · exact Or.inr (Or.inl h)
      · exact Or.inr (Or.inr (Or.inl h))
      · exact Or.inr (Or.inr (Or.inr (Or.inl h)))
    · refine ⟨fun _ => ?_, fun _ => ⟨_, hok⟩⟩
      rw [hpdf]
      decide
    · constructor
      · rintro ⟨r, hr⟩
        rw [herr] at hr
        cases hr
      · intro hyes
        rw [hno] at hyes
        cases hyes

/-- Witness of C9: a PNG blob with an upper-case MIME type, and a BMP blob. -/
theorem inlineDataToBlock_dispatch_witness :
    inlineDataToBlock sampleLib (some ⟨"IMAGE/PNG", [77, 97, 110]⟩)
        = .ok (some (.OfImage (.OfBase64 "TWFu" "image/png")))
      ∧ inlineDataToBlock sampleLib (some ⟨"image/bmp", [77, 97, 110]⟩)
        = .error "unsupported image media type: image/bmp" :=
  ⟨(inlineDataToBlock_dispatch sampleLib ⟨"IMAGE/PNG", [77, 97, 110]⟩).2.1 rfl,
    (inlineDataToBlock_dispatch sampleLib ⟨"image/bmp", [77, 97, 110]⟩).2.2.2.2.2.1 rfl⟩

/-- C10, as stated, fails: for the MIME type `image/bmp` the inline translator
fails while the URI translator succeeds with a URL-sourced image block. -/
theorem fileDataToBlock_counterexample :
    inlineDataToBlock sampleLib (some ⟨"image/bmp", [77, 97, 110]⟩)
        = .error "unsupported image media type: image/bmp"
      ∧ fileDataToBlock sampleLib (some ⟨"image/bmp", "https://example.com/a.bmp"⟩)
        = .ok (some (.OfImage (.OfURL "https://example.com/a.bmp"))) :=
  ⟨rfl, rfl⟩

/-- C10, amended: for every MIME type, URI and data, the URI translator fails
only when the inline translator fails on the same MIME type, and where the
inline translator yields an image (a document) block the URI translator yields
an image (a document) block sourced by the URL of the reference. The URI
translator fails exactly when the lower-cased MIME type neither starts with
`image/` nor is `application/pdf`: an `image/*` type outside jpeg, png, gif and
webp is rejected inline and accepted as a URL-sourced image. -/
theorem fileDataToBlock_dispatch (lib : GoLib) (mimeType uri : String) (data : List Byte) :
    ((∃ err, fileDataToBlock lib (some ⟨mimeType, uri⟩) = .error err) →
        ∃ err, inlineDataToBlock lib (some ⟨mimeType, data⟩) = .error err)
      ∧ (∀ src, inlineDataToBlock lib (some ⟨mimeType, data⟩) = .ok (some (.OfImage src)) →
          fileDataToBlock lib (some ⟨mimeType, uri⟩) = .ok (some (.OfImage (.OfURL uri))))
      ∧ (∀ src, inlineDataToBlock lib (some ⟨mimeType, data⟩) = .ok (some (.OfDocument src)) →
          fileDataToBlock lib (some ⟨mimeType, uri⟩) = .ok (some (.OfDocument (.OfURL uri))))
      ∧ ((∃ err, fileDataToBlock lib (some ⟨mimeType, uri⟩) = .error err)
          ↔ (stringsHasPrefixOf (stringsToLower lib mimeType) "image/" = false
              ∧ stringsToLower lib mimeType ≠ "application/pdf"))
      ∧ (stringsHasPrefixOf (stringsToLower lib mimeType) "image/" = true →
          imageMIMETypes.contains (stringsToLower lib mimeType) = false →
          fileDataToBlock lib (some ⟨mimeType, uri⟩) = .ok (some (.OfImage (.OfURL uri)))
            ∧ inlineDataToBlock lib (some ⟨mimeType, data⟩)
              = .error ("unsupported image media type: " ++ stringsToLower lib mimeType)) := by
  have hfile_img : stringsHasPrefixOf (stringsToLower lib mimeType) "image/" = true →
      fileDataToBlock lib (some ⟨mimeType, uri⟩) = .ok (some (.OfImage (.OfURL uri))) := by
    intro hpre
    simp [fileDataToBlock, hpre]
  have hfile_pdf : stringsToLower lib mimeType = "application/pdf" →
      fileDataToBlock lib (some ⟨mimeType, uri⟩) = .ok (some (.OfDocument (.OfURL uri))) := by
    intro hpdf
    have hpre : stringsHasPrefixOf "application/pdf" "image/" = false := by decide
    simp [fileDataToBlock, hpdf, hpre]
  have hfile_err : (∃ err, fileDataToBlock lib (some ⟨mimeType, uri⟩) = .error err)
      ↔ (stringsHasPrefixOf (stringsToLower lib mimeType) "image/" = false
          ∧ stringsToLower lib mimeType ≠ "application/pdf") := by
    constructor
    · rintro ⟨err, herr⟩
      constructor
      · cases hpre : stringsHasPrefixOf (stringsToLower lib mimeType) "image/" with
        | false => rfl
        | true =>
          rw [hfile_img hpre] at herr
          cases herr
      · intro hpdf
        rw [hfile_pdf hpdf] at herr
        cases herr
    · rintro ⟨hpre, hpdf⟩
      refine ⟨"unsupported MIME type for file data: " ++ stringsToLower lib mimeType, ?_⟩
      simp [fileDataToBlock, hpre, hpdf]
  have hcases := inlineDataToBlock_cases lib ⟨mimeType, data⟩
  simp only at hcases
  refine ⟨?_, ?_, ?_, hfile_err, ?_⟩
  · intro hferr
    obtain ⟨hpre, hpdf⟩ := hfile_err.mp hferr
    rcases hcases with ⟨_, hpre2, _⟩ | ⟨hpdf2, _⟩ | ⟨_, herr⟩
    · rw [hpre] at hpre2
      cases hpre2
    · exact absurd hpdf2 hpdf
    · exact herr
  · intro src hsrc
    rcases hcases with ⟨_, hpre, _⟩ | ⟨_, hok⟩ | ⟨_, err, herr⟩
    · exact hfile_img hpre
    · rw [hok] at hsrc
      cases hsrc
    · rw [herr] at hsrc
      cases hsrc
  · intro src hsrc
    rcases hcases with ⟨_, _, hok⟩ | ⟨hpdf, _⟩ | ⟨_, err, herr⟩
    · rw [hok] at hsrc
      cases hsrc
    · exact hfile_pdf hpdf
    · rw [herr] at hsrc
      cases hsrc
  · intro hpre himg
    refine ⟨hfile_img hpre, ?_⟩
    have hmap := mapImageMediaType_error (stringsToLower lib mimeType) himg
    simp [inlineDataToBlock, hpre, hmap]

/-- Witness of C10: a PNG reference and a BMP reference. -/
theorem fileDataToBlock_dispatch_witness :
    inlineDataToBlock sampleLib (some ⟨"image/png", [77, 97, 110]⟩)
        = .ok (some (.OfImage (.OfBase64 "TWFu" "image/png")))
      ∧ fileDataToBlock sampleLib (some ⟨"image/png", "https://example.com/a.png"⟩)
        = .ok (some (.OfImage (.OfURL "https://example.com/a.png")))
      ∧ fileDataToBlock sampleLib (some ⟨"image/bmp", "https://example.com/a.bmp"⟩)
        = .ok (some (.OfImage (.OfURL "https://example.com/a.bmp"))) :=
  ⟨rfl,
    (fileDataToBlock_dispatch sampleLib "image/png" "https://example.com/a.png"
      [77, 97, 110]).2.1 (.OfBase64 "TWFu" "image/png") rfl,
    ((fileDataToBlock_dispatch sampleLib "image/bmp" "https://example.com/a.bmp"
      [77, 97, 110]).2.2.2.2 rfl rfl).1⟩

/-- C11: for every part with non-empty text, `PartToContentBlock` (and
`partToBetaContentBlock`) returns a thinking block, holding the text and the
base64 encoding of the signature, when the part is marked as a thought and
carries a non-empty signature, and in every other case, a thought without
signature included, a plain text block holding the same text. -/
theorem PartToContentBlock_text (lib : GoLib) (part : Part) (htext : part.Text ≠ "") :
    (part.Thought = true ∧ part.ThoughtSignature ≠ [] →
        PartToContentBlock lib (some part)
            = .ok (some (.OfThinking part.Text (base64EncodeToString part.ThoughtSignature)))
          ∧ partToBetaContentBlock lib (some part)
            = .ok (some (.OfThinking part.Text (base64EncodeToString part.ThoughtSignature))))
      ∧ (¬ (part.Thought = true ∧ part.ThoughtSignature ≠ []) →
        PartToContentBlock lib (some part) = .ok (some (.OfText part.Text))
          ∧ partToBetaContentBlock lib (some part) = .ok (some (.OfText part.Text))) := by
  constructor
  · rintro ⟨hth, hsig⟩
    have hlen : part.ThoughtSignature.length > 0 := List.length_pos.mpr hsig
    simp [PartToContentBlock, partToBetaContentBlock, htext, hth, hlen]
  · intro hnot
    by_cases hth : part.Thought = true
    · have hsig : part.ThoughtSignature = [] := by
        by_contra hne
        exact hnot ⟨hth, hne⟩
      simp [PartToContentBlock, partToBetaContentBlock, htext, hth, hsig, NewTextBlock]
    · simp [PartToContentBlock, partToBetaContentBlock, htext, hth, NewTextBlock]

/-- Witness of C11: a signed thought, and a thought without signature. -/
theorem PartToContentBlock_text_witness :
    PartToContentBlock sampleLib
        (some { Text := "plan", Thought := true, ThoughtSignature := [77, 97, 110] })
      = .ok (some (.OfThinking "plan" "TWFu"))
    ∧ PartToContentBlock sampleLib (some { Text := "plan", Thought := true })
      = .ok (some (.OfText "plan")) :=
  ⟨((PartToContentBlock_text sampleLib
      { Text := "plan", Thought := true, ThoughtSignature := [77, 97, 110] }
      (by decide)).1 ⟨rfl, by simp⟩).1,
    ((PartToContentBlock_text sampleLib { Text := "plan", Thought := true }
      (by decide)).2 (by simp)).1⟩

/-- C12, as stated, fails: a tool result with a non-empty id whose payload
holds a channel is not turned into a block, because `json.Marshal` rejects the
payload and `functionResponseToBlock` returns the wrapped error. -/
theorem functionResponseToBlock_marshal_counterexample :
    functionResponseToBlock sampleLib
        (some ⟨"call_1", "lookup", some [("done", .other "chan int")]⟩)
      = .error "failed to marshal function response: json: unsupported type: chan int" :=
  rfl

/-- C12, amended: for every tool result with a non-empty id, when the payload is
nil `functionResponseToBlock` returns a tool-result block that references
exactly that id, is flagged as not an error and has the empty string as
content; when `json.Marshal` renders the payload, the block is the same with
the rendering as content; when `json.Marshal` fails, the result is the error
`failed to marshal function response: ` followed by its message, and no
block. -/
theorem functionResponseToBlock_payload (lib : GoLib) (resp : FunctionResponse)
    (hid : resp.ID ≠ "") :
    (resp.Response = none →
        functionResponseToBlock lib (some resp)
          = .ok (some (.OfToolResult resp.ID [""] (some false))))
      ∧ (∀ payload json, resp.Response = some payload → lib.jsonMarshal payload = .ok json →
          functionResponseToBlock lib (some resp)
            = .ok (some (.OfToolResult resp.ID [json] (some false))))
      ∧ (∀ payload err, resp.Response = some payload → lib.jsonMarshal payload = .error err →
          functionResponseToBlock lib (some resp)
            = .error ("failed to marshal function response: " ++ err)) := by
  refine ⟨?_, ?_, ?_⟩
  · intro hnil
    simp [functionResponseToBlock, hid, hnil, NewToolResultBlock]
  · intro payload json hp hj
    simp [functionResponseToBlock, hid, hp, hj, NewToolResultBlock]
  · intro payload err hp hj
    simp [functionResponseToBlock, hid, hp, hj]

/-- Witness of C12: a tool result with a nil payload and one with the empty
map as payload. -/
theorem functionResponseToBlock_payload_witness :
    functionResponseToBlock sampleLib (some ⟨"call_1", "lookup", none⟩)
        = .ok (some (.OfToolResult "call_1" [""] (some false)))
      ∧ functionResponseToBlock sampleLib (some ⟨"call_1", "lookup", some []⟩)
        = .ok (some (.OfToolResult "call_1" ["{}"] (some false))) :=
  ⟨(functionResponseToBlock_payload sampleLib ⟨"call_1", "lookup", none⟩ (by decide)).1 rfl,
    (functionResponseToBlock_payload sampleLib ⟨"call_1", "lookup", some []⟩
      (by decide)).2.1 [] "{}" rfl rfl⟩

/-- C13: a part whose only populated variant is executable code or a
code-execution result makes `PartToContentBlock` return an error, and every turn
sequence that has such a part in a non-nil turn makes `ContentsToMessages` fail:
the part is never dropped silently. -/
theorem PartToContentBlock_code_error (lib : GoLib) (part : Part)
    (htext : part.Text = "") (hinline : part.InlineData = none)
    (hfile : part.FileData = none) (hresp : part.FunctionResponse = none)
    (hcall : part.FunctionCall = none)
    (hcode : part.ExecutableCode.isSome = true ∨ part.CodeExecutionResult.isSome = true) :
    PartToContentBlock lib (some part)
        = .error "ExecutableCode and CodeExecutionResult are not supported by Anthropic"
      ∧ ∀ (pre post : List (Option Content)) (content : Content),
          some part ∈ content.Parts →
          ∃ err, ContentsToMessages lib (pre ++ some content :: post) = .error err := by
  have hpart : PartToContentBlock lib (some part)
      = .error "ExecutableCode and CodeExecutionResult are not supported by Anthropic" := by
    simp [PartToContentBlock, htext, hinline, hfile, hresp, hcall, hcode]
  refine ⟨hpart, ?_⟩
  intro pre post content hmem
  obtain ⟨e, he⟩ := contentToMessage_error_of_part lib content part hmem _ hpart
  obtain ⟨e2, he2⟩ := convertContents_error lib pre post content e he []
  rw [ContentsToMessages_eq, he2]
  exact ⟨_, rfl⟩

/-- Witness of C13: a model turn whose second part is executable code, after a
valid user turn. -/
theorem PartToContentBlock_code_error_witness :
    PartToContentBlock sampleLib (some { ExecutableCode := some ⟨"print(1)", "PYTHON"⟩ })
        = .error "ExecutableCode and CodeExecutionResult are not supported by Anthropic"
      ∧ ∃ err, ContentsToMessages sampleLib
          ([some ⟨"user", [some { Text := "run it" }]⟩]
            ++ some ⟨"model", [some { Text := "ok" },
                some { ExecutableCode := some ⟨"print(1)", "PYTHON"⟩ }]⟩ :: [])
          = .error err :=
  ⟨(PartToContentBlock_code_error sampleLib
      { ExecutableCode := some ⟨"print(1)", "PYTHON"⟩ } rfl rfl rfl rfl rfl (Or.inl rfl)).1,
    (PartToContentBlock_code_error sampleLib
      { ExecutableCode := some ⟨"print(1)", "PYTHON"⟩ } rfl rfl rfl rfl rfl (Or.inl rfl)).2
      [some ⟨"user", [some { Text := "run it" }]⟩] []
      ⟨"model", [some { Text := "ok" },
        some { ExecutableCode := some ⟨"print(1)", "PYTHON"⟩ }]⟩
      (List.mem_cons_of_mem _ (List.mem_singleton.mpr rfl))⟩

/-- C14: a tool-choice policy in mode `ANY` with exactly one allowed function
name `n` gives, without error, the directive that forces the tool named `n`:
`OfTool` with that name, and neither `OfAuto` nor `OfAny`. -/
theorem ToolConfigToToolChoice_single_name (n : String) :
    ToolConfigToToolChoice (some ⟨some ⟨FunctionCallingConfigModeAny, [n]⟩⟩)
      = ({ OfAuto := none, OfAny := none, OfTool := some { Name := n }, OfNone := none },
          none) := by
  rfl

/-- C15: a tool-choice policy in mode `ANY` with `k ≥ 2` allowed function names
gives the zero directive together with an error whose message holds the decimal
rendering of `k`. -/
theorem ToolConfigToToolChoice_many_names (names : List String) (hk : 2 ≤ names.length) :
    ToolConfigToToolChoice (some ⟨some ⟨FunctionCallingConfigModeAny, names⟩⟩)
      = ({ OfAuto := none, OfAny := none, OfTool := none, OfNone := none },
          some ("Anthropic does not support multiple AllowedFunctionNames (got "
            ++ toString names.length
            ++ "); use a single function name or remove the restriction")) := by
  have h1 : names.length > 1 := hk
  simp [ToolConfigToToolChoice, h1]

/-- Witness of C15: two allowed names. -/
theorem ToolConfigToToolChoice_many_names_witness :
    ToolConfigToToolChoice (some ⟨some ⟨FunctionCallingConfigModeAny, ["search", "fetch"]⟩⟩)
      = ({ OfAuto := none, OfAny := none, OfTool := none, OfNone := none },
          some ("Anthropic does not support multiple AllowedFunctionNames (got "
            ++ toString ["search", "fetch"].length
            ++ "); use a single function name or remove the restriction"))
    ∧ toString ["search", "fetch"].length = "2" :=
  ⟨ToolConfigToToolChoice_many_names ["search", "fetch"] (by decide), by decide⟩

/-- C16, as stated, fails: in mode `AUTO` (and likewise in mode `NONE` or an
unrecognized mode) two allowed function names give an error, not a directive:
the count is checked before the mode is looked at. -/
theorem ToolConfigToToolChoice_mode_counterexample :
    ToolConfigToToolChoice (some ⟨some ⟨FunctionCallingConfigModeAuto, ["search", "fetch"]⟩⟩)
      = ({}, some "Anthropic does not support multiple AllowedFunctionNames (got 2); use a single function name or remove the restriction") := by
  decide

/-- C16, amended: `ToolConfigToToolChoice` returns an error exactly when a
function-calling config is given with more than one allowed function name,
whatever its mode; with at most one allowed name every mode gives a directive
without error, and so does a nil policy or a policy without function-calling
config. -/
theorem ToolConfigToToolChoice_error_iff (mode : FunctionCallingConfigMode)
    (names : List String) :
    ((ToolConfigToToolChoice (some ⟨some ⟨mode, names⟩⟩)).2 ≠ none ↔ 1 < names.length)
      ∧ (ToolConfigToToolChoice none).2 = none
      ∧ (ToolConfigToToolChoice (some ⟨none⟩)).2 = none := by
  refine ⟨?_, rfl, rfl⟩
  by_cases h : names.length > 1
  · simp [ToolConfigToToolChoice, h]
  · have hnone : (ToolConfigToToolChoice (some ⟨some ⟨mode, names⟩⟩)).2 = none := by
      simp only [ToolConfigToToolChoice, if_neg h]
      split_ifs
      · rfl
      · rfl
      · split <;> rfl
      · rfl
    have h2 : ¬ 1 < names.length := h
    simp [hnone, h2]

/-- C17: with no allowed function names, the directive is the omitted one for
mode `NONE`, auto for mode `AUTO`, any for mode `ANY`, and auto for every other
mode; a nil policy and a policy without function-calling config give the
omitted directive. No error is returned in any of these cases. -/
theorem ToolConfigToToolChoice_no_names (mode : FunctionCallingConfigMode) :
    ToolConfigToToolChoice (some ⟨some ⟨FunctionCallingConfigModeNone, []⟩⟩) = ({}, none)
      ∧ ToolConfigToToolChoice (some ⟨some ⟨FunctionCallingConfigModeAuto, []⟩⟩)
        = ({ OfAuto := some {} }, none)
      ∧ ToolConfigToToolChoice (some ⟨some ⟨FunctionCallingConfigModeAny, []⟩⟩)
        = ({ OfAny := some {} }, none)
      ∧ (mode ≠ FunctionCallingConfigModeNone → mode ≠ FunctionCallingConfigModeAuto →
          mode ≠ FunctionCallingConfigModeAny →
          ToolConfigToToolChoice (some ⟨some ⟨mode, []⟩⟩) = ({ OfAuto := some {} }, none))
      ∧ ToolConfigToToolChoice none = ({}, none)
      ∧ ToolConfigToToolChoice (some ⟨none⟩) = ({}, none) := by
  refine ⟨rfl, rfl, rfl, ?_, rfl, rfl⟩
  intro h1 h2 h3
  simp [ToolConfigToToolChoice, h1, h2, h3]

/-- Witness of C17: the unrecognized mode `VALIDATED`. -/
theorem ToolConfigToToolChoice_no_names_witness :
    ToolConfigToToolChoice (some ⟨some ⟨"VALIDATED", []⟩⟩) = ({ OfAuto := some {} }, none) :=
  (ToolConfigToToolChoice_no_names "VALIDATED").2.2.2.1 (by decide) (by decide) (by decide)

/-- Witness of C16: in mode `NONE`, three allowed names give an error. -/
theorem ToolConfigToToolChoice_error_iff_witness :
    (ToolConfigToToolChoice
      (some ⟨some ⟨FunctionCallingConfigModeNone, ["a", "b", "c"]⟩⟩)).2 ≠ none :=
  (ToolConfigToToolChoice_error_iff FunctionCallingConfigModeNone ["a", "b", "c"]).1.mpr
    (by decide)

/-- C18: when the structured `Parameters` schema of a function declaration is
set, the tool does not depend on `ParametersJsonSchema`: two declarations that
differ only in that field give the same tool. When neither is set, the tool has
the empty properties mapping and no required list. -/
theorem FunctionDeclarationToTool_precedence (lib : GoLib) (fd : FunctionDeclaration)
    (j1 j2 : ParametersJsonSchemaValue) :
    (fd.Parameters.isSome = true →
        FunctionDeclarationToTool lib { fd with ParametersJsonSchema := j1 }
          = FunctionDeclarationToTool lib { fd with ParametersJsonSchema := j2 })
      ∧ (fd.Parameters = none →
        FunctionDeclarationToTool lib { fd with ParametersJsonSchema := .null }
          = some { OfTool := some { Name := fd.Name, Description := some fd.Description,
                                    InputSchema := { Properties := some [],
                                                     Required := none } } }) := by
  constructor
  · intro hp
    obtain ⟨parameters, hparam⟩ := Option.isSome_iff_exists.mp hp
    simp only [FunctionDeclarationToTool, hparam]
  · intro hp
    simp only [FunctionDeclarationToTool, hp]

/-- Witness of C18: a declaration with a structured schema, once with a JSON
schema map that names another property and once without. -/
theorem FunctionDeclarationToTool_precedence_witness :
    FunctionDeclarationToTool sampleLib
        { Name := "lookup", Description := "Looks up", Parameters := some sampleObjectSchema,
          ParametersJsonSchema := .ofMap (some [("properties", .map (some [("other", .null)]))]) }
      = FunctionDeclarationToTool sampleLib
        { Name := "lookup", Description := "Looks up", Parameters := some sampleObjectSchema,
          ParametersJsonSchema := .null }
    ∧ FunctionDeclarationToTool sampleLib
        { Name := "lookup", Description := "Looks up", Parameters := some sampleObjectSchema,
          ParametersJsonSchema := .null }
      = some ⟨some ⟨"lookup", some "Looks up",
          ⟨some [("q", .map (some [("type", .str "string")]))], some ["q"]⟩⟩⟩ :=
  ⟨(FunctionDeclarationToTool_precedence sampleLib
      { Name := "lookup", Description := "Looks up", Parameters := some sampleObjectSchema }
      (.ofMap (some [("properties", .map (some [("other", .null)]))])) .null).1 rfl,
    rfl⟩

/-- C19, the code at the failing inputs: a declaration whose JSON schema map has
a `properties` entry that is a nil `map[string]any` gives a tool whose
properties mapping is that nil map, and a declaration whose JSON schema is a nil
`*jsonschema.Schema` gives no tool at all (the Go code panics). In every other
case the tool is returned and its properties mapping is non-nil. -/
theorem FunctionDeclarationToTool_nil_properties :
    FunctionDeclarationToTool sampleLib
        { Name := "ping",
          ParametersJsonSchema :=
            .ofMap (some [("type", .str "object"), ("properties", .map none)]) }
      = some ⟨some ⟨"ping", some "", ⟨none, none⟩⟩⟩
    ∧ FunctionDeclarationToTool sampleLib { Name := "ping", ParametersJsonSchema := .ofSchema none }
      = none
    ∧ ∀ (lib : GoLib) (fd : FunctionDeclaration),
        (fd.Parameters.isSome = true
          ∨ match fd.ParametersJsonSchema with
            | .ofMap schema => goMapGet schema "properties" ≠ .map none
            | .ofSchema schema => schema.isSome = true
            | _ => True) →
        ∃ tool props, FunctionDeclarationToTool lib fd = some { OfTool := some tool }
          ∧ tool.InputSchema.Properties = some props := by
  refine ⟨rfl, rfl, ?_⟩
  intro lib fd h
  have key : ∃ props req, FunctionDeclarationToTool lib fd
      = some ⟨some ⟨fd.Name, some fd.Description, ⟨some props, req⟩⟩⟩ := by
    cases hp : fd.Parameters with
    | some parameters =>
      simp only [FunctionDeclarationToTool, hp]
      cases hprops : schemaPropertiesToMap lib parameters.Properties with
      | none =>
        simp only [Option.isSome_none, Bool.false_eq_true, if_false]
        split <;> exact ⟨_, _, rfl⟩
      | some props =>
        simp only [Option.isSome_some, if_true]
        split <;> exact ⟨_, _, rfl⟩
    | none =>
      rw [hp] at h
      simp only [Option.isSome_none, Bool.false_eq_true, false_or] at h
      cases hj : fd.ParametersJsonSchema with
      | null =>
        simp only [FunctionDeclarationToTool, hp, hj]
        exact ⟨_, _, rfl⟩
      | other desc =>
        simp only [FunctionDeclarationToTool, hp, hj]
        exact ⟨_, _, rfl⟩
      | ofMap schema =>
        rw [hj] at h
        simp only at h
        simp only [FunctionDeclarationToTool, hp, hj]
        cases hg : goMapGet schema "properties" with
        | map props =>
          cases props with
          | none => exact absurd hg h
          | some kvs => exact ⟨_, _, rfl⟩
        | null => exact ⟨_, _, rfl⟩
        | bool b => exact ⟨_, _, rfl⟩
        | int n => exact ⟨_, _, rfl⟩
        | float x => exact ⟨_, _, rfl⟩
        | str x => exact ⟨_, _, rfl⟩
        | list x => exact ⟨_, _, rfl⟩
        | strings x => exact ⟨_, _, rfl⟩
        | maps x => exact ⟨_, _, rfl⟩
        | other x => exact ⟨_, _, rfl⟩
      | ofSchema schema =>
        rw [hj] at h
        simp only at h
        obtain ⟨js, rfl⟩ := Option.isSome_iff_exists.mp h
        simp only [FunctionDeclarationToTool, hp, hj]
        cases hprops : jsonSchemaToProperties (some js) with
        | none =>
          simp only [Option.isSome_none, Bool.false_eq_true, if_false]
          split <;> exact ⟨_, _, rfl⟩
        | some props =>
          simp only [Option.isSome_some, if_true]
          split <;> exact ⟨_, _, rfl⟩
  obtain ⟨props, req, hk⟩ := key
  exact ⟨_, props, hk, rfl⟩

/-- Claim C20, counterexample: the white space around the fences is matched by
the class `\s` of the pattern, which has neither the vertical tab nor the
no-break space, while the text of the group is trimmed by `strings.TrimSpace`,
which removes both. With a vertical tab before the opening fence, or a no-break
space after the closing one, the text `x` between the fences is not extracted:
the fenced text comes back unchanged. With no padding and the text `t` made of a
vertical tab and `x`, the result is `x`, not `t` without the white space of the
pattern around it (which is `t` itself). -/
theorem stripMarkdownText_padding_counterexample :
    (unicodeIsSpace '\x0b' = true ∧ isRegexSpace '\x0b' = false)
      ∧ (unicodeIsSpace '\u00a0' = true ∧ isRegexSpace '\u00a0' = false)
      ∧ ¬ "```".data <:+: "x".data
      ∧ stringsTrimSpace "x" = "x"
      ∧ stripMarkdownText ("\x0b" ++ "```json\n" ++ "x" ++ "\n```" ++ "")
          = "\x0b```json\nx\n```"
      ∧ stripMarkdownText ("" ++ "```\n" ++ "x" ++ "\n```" ++ "\u00a0")
          = "```\nx\n```\u00a0"
      ∧ ¬ "```".data <:+: "\x0bx".data
      ∧ "\x0bx".data.all (fun c => !isRegexSpace c) = true
      ∧ stripMarkdownText ("" ++ "```json\n" ++ "\x0bx" ++ "\n```" ++ "") = "x" := by
  decide

/-- Claim C20, amended: for every text `t` (with or without a triple backtick in
it), fence stripping of the text made of optional white space of the class `\s`
of the pattern (tab, newline, form feed, carriage return, space), an opening
fence `` ```json `` or `` ``` ``, a newline, `t`, a newline, a closing fence and
optional white space of the same class yields `strings.TrimSpace` of `t`: the
text `t` without the Unicode white space at its beginning and at its end. -/
theorem stripMarkdownText_fenced (ws1 t ws2 : String) (hws1 : AllRegexSpace ws1.data)
    (hws2 : AllRegexSpace ws2.data) :
    stripMarkdownText (ws1 ++ "```json\n" ++ t ++ "\n```" ++ ws2) = stringsTrimSpace t
      ∧ stripMarkdownText (ws1 ++ "```\n" ++ t ++ "\n```" ++ ws2) = stringsTrimSpace t := by
  constructor
  · obtain ⟨n, core, hrun, htrim⟩ :=
      markdownFenceRegex_fenced ws1.data "json".data t.data ws2.data hws1 hws2 (Or.inl rfl)
    have hdata : (ws1 ++ "```json\n" ++ t ++ "\n```" ++ ws2).data
        = ws1.data ++ ("```".data ++ ("json".data
            ++ ('\n' :: (t.data ++ ('\n' :: ("```".data ++ ws2.data)))))) := by
      simp [String.data_append]
    rw [← hdata] at hrun
    rw [stripMarkdownText_of_strict _ n core hrun]
    simp only [stringsTrimSpace, htrim]
  · obtain ⟨n, core, hrun, htrim⟩ :=
      markdownFenceRegex_fenced ws1.data [] t.data ws2.data hws1 hws2 (Or.inr rfl)
    have hdata : (ws1 ++ "```\n" ++ t ++ "\n```" ++ ws2).data
        = ws1.data ++ ("```".data ++ ([]
            ++ ('\n' :: (t.data ++ ('\n' :: ("```".data ++ ws2.data)))))) := by
      simp [String.data_append]
    rw [← hdata] at hrun
    rw [stripMarkdownText_of_strict _ n core hrun]
    simp only [stringsTrimSpace, htrim]

/-- Witness of C20: the fenced text of the specification, as a text and as the
only part of a response. -/
theorem stripMarkdownText_fenced_witness :
    stripMarkdownText ("" ++ "```json\n" ++ "\x7b\"k\":\"v\"\x7d" ++ "\n```" ++ "")
        = stringsTrimSpace "\x7b\"k\":\"v\"\x7d"
      ∧ stringsTrimSpace "\x7b\"k\":\"v\"\x7d" = "\x7b\"k\":\"v\"\x7d"
      ∧ "" ++ "```json\n" ++ "\x7b\"k\":\"v\"\x7d" ++ "\n```" ++ "" = "```json\n\x7b\"k\":\"v\"\x7d\n```"
      ∧ stripMarkdownFromResponse
          (some { Content := some ⟨"model", [some { Text := "```json\n\x7b\"k\":\"v\"\x7d\n```" }]⟩ })
        = some { Content := some ⟨"model", [some { Text := "\x7b\"k\":\"v\"\x7d" }]⟩ } :=
  ⟨(stripMarkdownText_fenced "" "\x7b\"k\":\"v\"\x7d" "" (fun _ h => by simp at h)
      (fun _ h => by simp at h)).1,
    by decide, by decide, by rfl⟩

/-- Claim C21: in every response, a part whose text does not hold two
occurrences of the triple backtick that do not overlap is left unchanged by
`stripMarkdownFromResponse`: the response returned has the same part at the
same place. -/
theorem stripMarkdownFromResponse_unfenced (resp : LLMResponse) (content : Content)
    (i : Nat) (part : Part) (hc : resp.Content = some content)
    (hi : content.Parts[i]? = some (some part)) (h : ¬ HasTwoFences part.Text.data) :
    ∃ resp2 content2, stripMarkdownFromResponse (some resp) = some resp2
      ∧ resp2.Content = some content2 ∧ content2.Parts.length = content.Parts.length
      ∧ content2.Parts[i]? = some (some part) := by
  simp only [stripMarkdownFromResponse, hc]
  split_ifs with h0
  · exact ⟨resp, content, rfl, hc, rfl, hi⟩
  · refine ⟨_, _, rfl, rfl, by simp, ?_⟩
    simp only [List.getElem?_map, hi, Option.map_some']
    rw [stripMarkdownPart_unfenced part h]

theorem stripMarkdownFromResponse_unfenced_witness :
    ∃ resp2 content2,
      stripMarkdownFromResponse
          (some { Content := some { Role := "model",
                                    Parts := [some { Text := "```json\n\x7b\"key\": \"value\"\x7d" }] } })
        = some resp2
      ∧ resp2.Content = some content2 ∧ content2.Parts.length = 1
      ∧ content2.Parts[0]? = some (some { Text := "```json\n\x7b\"key\": \"value\"\x7d" }) :=
  stripMarkdownFromResponse_unfenced
    { Content := some { Role := "model",
                        Parts := [some { Text := "```json\n\x7b\"key\": \"value\"\x7d" }] } }
    { Role := "model", Parts := [some { Text := "```json\n\x7b\"key\": \"value\"\x7d" }] }
    0 { Text := "```json\n\x7b\"key\": \"value\"\x7d" } rfl rfl
    (fun h => absurd (count_of_HasTwoFences _ h) (by decide))

/-- Claim C22, counterexample: the text of six backticks, `x` and six backticks
is stripped to `x` between two fences, and stripping that once more gives
`x`. -/
theorem stripMarkdownFromResponse_twice_counterexample :
    responseTexts (stripMarkdownFromResponse
        (some { Content := some { Role := "model", Parts := [some { Text := "``````x``````" }] } }))
      = ["```x```"]
    ∧ responseTexts (stripMarkdownFromResponse (stripMarkdownFromResponse
        (some { Content := some { Role := "model", Parts := [some { Text := "``````x``````" }] } })))
      = ["x"] := by
  decide

/-- Claim C22, amended: on every response none of whose texts holds four
occurrences of the triple backtick that do not overlap, stripping the stripped
response gives the same response as stripping once. -/
theorem stripMarkdownFromResponse_idempotent (resp : Option LLMResponse)
    (h : ∀ r content part, resp = some r → r.Content = some content
      → some part ∈ content.Parts → ¬ HasFourFences part.Text.data) :
    stripMarkdownFromResponse (stripMarkdownFromResponse resp)
      = stripMarkdownFromResponse resp := by
  cases resp with
  | none => rfl
  | some r =>
    cases hc : r.Content with
    | none => simp [stripMarkdownFromResponse, hc]
    | some content =>
      by_cases h0 : content.Parts.length = 0
      · simp [stripMarkdownFromResponse, hc, h0]
      · have hmap : (content.Parts.map stripMarkdownPart).map stripMarkdownPart
            = content.Parts.map stripMarkdownPart := by
          rw [List.map_map]
          apply List.map_congr_left
          intro part hpart
          exact stripMarkdownPart_idem part (fun p hp => h r content p rfl hc (hp ▸ hpart))
        simp only [stripMarkdownFromResponse, hc, h0, if_false, List.length_map, hmap]

theorem stripMarkdownFromResponse_idempotent_witness :
    stripMarkdownFromResponse (stripMarkdownFromResponse
        (some { Content := some { Role := "model",
                                  Parts := [some { Text := "```json\n[1]\n```" }] } }))
      = stripMarkdownFromResponse
        (some { Content := some { Role := "model",
                                  Parts := [some { Text := "```json\n[1]\n```" }] } }) :=
  stripMarkdownFromResponse_idempotent _ (by
    intro r content part hr hc hpart hfour
    cases hr
    cases hc
    have hp : part = { Text := "```json\n[1]\n```" } := by simpa using hpart
    subst hp
    exact absurd (count_of_HasFourFences _ hfour) (by decide))

/-- Claim C23: a part whose text is prose without backtick (with a character
outside the white space), the fence with the `json` tag and a line break, a
body that begins with an opening brace and ends with a closing brace (or
brackets) and holds no triple backtick, a line break, the closing fence and any
text: the strict pattern does not match, and `stripMarkdownFromResponse`
replaces the text of the part by exactly the body. -/
theorem stripMarkdownFromResponse_first_block (resp : LLMResponse) (content : Content)
    (i : Nat) (part : Part) (pre body post : List Char)
    (hc : resp.Content = some content) (hi : content.Parts[i]? = some (some part))
    (htext : part.Text = String.mk (pre ++ "```json\n".data ++ body ++ "\n```".data ++ post))
    (hpre : ∃ c ∈ pre, isRegexSpace c = false) (hbt : ∀ c ∈ pre, c ≠ '`')
    (hbody : (∃ inner, body = '{' :: (inner ++ ['}'])) ∨ (∃ inner, body = '[' :: (inner ++ [']'])))
    (hno : ¬ "```".data <:+: body) :
    FindStringSubmatch markdownFenceRegex part.Text = []
      ∧ ∃ resp2 content2, stripMarkdownFromResponse (some resp) = some resp2
        ∧ resp2.Content = some content2
        ∧ content2.Parts[i]? = some (some { part with Text := String.mk body }) := by
  obtain ⟨h1, h2⟩ := stripMarkdownText_extract pre body post hpre hbt hbody hno
  rw [← htext] at h1 h2
  refine ⟨h1, ?_⟩
  have hlen : ¬ content.Parts.length = 0 := by
    intro h0
    rw [List.length_eq_zero.mp h0] at hi
    simp at hi
  have hne : ¬ part.Text = "" := by
    intro h0
    obtain ⟨c, hcm, -⟩ := hpre
    have hdata : part.Text.data = [] := by rw [h0]
    rw [htext] at hdata
    simp only [List.append_assoc, List.append_eq_nil] at hdata
    rw [hdata.1] at hcm
    cases hcm
  simp only [stripMarkdownFromResponse, hc, hlen, if_false]
  refine ⟨_, _, rfl, rfl, ?_⟩
  simp only [List.getElem?_map, hi, Option.map_some', stripMarkdownPart, hne, if_false, h2]

theorem stripMarkdownFromResponse_first_block_witness :
    FindStringSubmatch markdownFenceRegex
        "Here it is:\n```json\n\x7b\"a\": 1\x7d\n```\nand more ```json\n[2]\n```" = []
      ∧ ∃ resp2 content2,
        stripMarkdownFromResponse
            (some { Content := some { Role := "model", Parts := [some {
              Text := "Here it is:\n```json\n\x7b\"a\": 1\x7d\n```\nand more ```json\n[2]\n```" }] } })
          = some resp2
        ∧ resp2.Content = some content2
        ∧ content2.Parts[0]? = some (some { Text := "\x7b\"a\": 1\x7d" }) :=
  stripMarkdownFromResponse_first_block
    { Content := some { Role := "model", Parts := [some {
        Text := "Here it is:\n```json\n\x7b\"a\": 1\x7d\n```\nand more ```json\n[2]\n```" }] } }
    { Role := "model", Parts := [some {
        Text := "Here it is:\n```json\n\x7b\"a\": 1\x7d\n```\nand more ```json\n[2]\n```" }] }
    0 { Text := "Here it is:\n```json\n\x7b\"a\": 1\x7d\n```\nand more ```json\n[2]\n```" }
    "Here it is:\n".data "\x7b\"a\": 1\x7d".data "\nand more ```json\n[2]\n```".data
    rfl rfl rfl ⟨'H', by decide, by decide⟩ (by decide) (Or.inl ⟨"\"a\": 1".data, rfl⟩)
    (fun h => absurd (count_of_fence_inside _ h) (by decide))

/-- Claim C24, counterexample: for the schema of type `OBJECT` whose default is
a channel, `json.MarshalIndent` fails, the schema is rendered as the empty
object, and the system instruction the fallback builds holds no rendering of
the type. -/
theorem promptBasedJSONRequest_type_counterexample :
    (rewrittenConfig sampleLib
        { Contents := [some { Role := "user", Parts := [some { Text := "Hello" }] }],
          Config := some { ResponseSchema := some sampleChannelSchema } }).map systemText
      = some (jsonInstruction "\x7b\x7d")
    ∧ ¬ ("\"type\": \"object\"".data <:+: (jsonInstruction "\x7b\x7d").data) := by
  refine ⟨by rfl, ?_⟩
  intro h
  have hmem : '"' ∈ (jsonInstruction "\x7b\x7d").data := by
    obtain ⟨s, t, hst⟩ := h
    rw [← hst]
    simp
  revert hmem
  decide

/-- Claim C24, amended: for every request with a config whose system instruction,
if any, has no nil part, the text of the system instruction the fallback builds
contains the literal directive; and when the response schema has a type and
`json.MarshalIndent` renders the schema map without error, writing the string
under `type` as Go does for a string that needs no escaping, the text contains
that rendering of the lower-cased type. -/
theorem promptBasedJSONRequest_contains_type (lib : GoLib) (req : LLMRequest)
    (config : GenerateContentConfig) (hcfg : req.Config = some config)
    (hnil : ∀ existing, config.SystemInstruction = some existing → none ∉ existing.Parts) :
    ∃ modifiedConfig, rewrittenConfig lib req = some modifiedConfig
      ∧ "Respond ONLY with the JSON object, no markdown code fences, no explanations.".data
          <:+: (systemText modifiedConfig).data
      ∧ ∀ schema out, config.ResponseSchema = some schema → schema.Type_ ≠ ""
          → lib.jsonMarshalIndent (SchemaToMap lib (some schema)) = .ok out
          → (∀ value, goMapGet (SchemaToMap lib (some schema)) "type" = .str value
              → ("\"type\": \"" ++ value ++ "\"").data <:+: out.data)
          → ("\"type\": \"" ++ stringsToLower lib schema.Type_ ++ "\"").data
              <:+: (systemText modifiedConfig).data := by
  obtain ⟨pre, hpre⟩ := systemText_rewritten lib config
  refine ⟨_, by rw [rewrittenConfig, promptBasedJSONRequest_eq lib req config hcfg hnil], ?_, ?_⟩
  · rw [hpre, jsonInstruction_eq]
    exact ⟨pre.data ++ ("You must respond with valid JSON that conforms to the following JSON schema:\n\n".data
      ++ ((SchemaToJSONString lib config.ResponseSchema).data ++ "\n\n".data)), [],
      by simp only [String.data_append, List.append_assoc, List.append_nil]⟩
  · intro schema out hschema htype hout hlib
    obtain ⟨s, t, hst⟩ := hlib _ (schemaToMapCore_type lib schema htype)
    have hjson : SchemaToJSONString lib config.ResponseSchema = out := by
      rw [SchemaToJSONString, hschema, hout]
    rw [hpre, jsonInstruction_eq, hjson]
    refine ⟨pre.data ++ ("You must respond with valid JSON that conforms to the following JSON schema:\n\n".data
      ++ s), t ++ ("\n\n".data
      ++ "Respond ONLY with the JSON object, no markdown code fences, no explanations.".data), ?_⟩
    simp only [String.data_append, List.append_assoc, ← hst]
theorem promptBasedJSONRequest_contains_type_witness :
    ∃ modifiedConfig, rewrittenConfig sampleLib sampleFallbackRequest = some modifiedConfig
      ∧ "Respond ONLY with the JSON object, no markdown code fences, no explanations.".data
          <:+: (systemText modifiedConfig).data
      ∧ "\"type\": \"object\"".data <:+: (systemText modifiedConfig).data := by
  obtain ⟨modifiedConfig, h1, h2, h3⟩ :=
    promptBasedJSONRequest_contains_type sampleLib sampleFallbackRequest sampleFallbackConfig rfl
      (by
        intro existing he
        cases he
        simp)
  refine ⟨modifiedConfig, h1, h2, ?_⟩
  exact h3 sampleBareObjectSchema "\x7b\n  \"type\": \"object\"\n\x7d" rfl (by decide) rfl
    (by
      intro value hv
      have h0 : goMapGet (SchemaToMap sampleLib (some sampleBareObjectSchema)) "type"
          = .str "object" := by rfl
      rw [h0] at hv
      cases hv
      exact ⟨"\x7b\n  ".data, "\n\x7d".data, by rfl⟩)

/-- Claim C25, counterexample: the existing system instruction has one part
with empty text; the new text is the JSON instruction alone, with no blank line
before it. -/
theorem promptBasedJSONRequest_blank_line_counterexample :
    systemText sampleEmptyInstructionConfig = ""
    ∧ (rewrittenConfig sampleLib
        { Contents := [some { Role := "user", Parts := [some { Text := "Hello" }] }],
          Config := some sampleEmptyInstructionConfig }).map systemText
      = some (jsonInstruction "\x7b\n  \"type\": \"object\"\n\x7d")
    ∧ jsonInstruction "\x7b\n  \"type\": \"object\"\n\x7d"
      ≠ systemText sampleEmptyInstructionConfig ++ "\n\n"
          ++ jsonInstruction "\x7b\n  \"type\": \"object\"\n\x7d" := by
  refine ⟨by rfl, by rfl, by decide⟩

/-- Claim C25, amended: for every request with a config whose system instruction,
if any, has no nil part, the new system instruction is a single text part. With
an existing instruction its text is the non-empty texts of the existing parts
in order, each followed by a blank line, and then the JSON instruction, and the
role is the existing one; in particular an existing instruction of one part
with non-empty text gives that text, a blank line and the JSON instruction.
Without existing instruction the text is exactly the JSON instruction. -/
theorem promptBasedJSONRequest_system_instruction (lib : GoLib) (req : LLMRequest)
    (config : GenerateContentConfig) (hcfg : req.Config = some config)
    (hnil : ∀ existing, config.SystemInstruction = some existing → none ∉ existing.Parts) :
    ∃ modifiedConfig, rewrittenConfig lib req = some modifiedConfig
      ∧ (config.SystemInstruction = none →
          modifiedConfig.SystemInstruction
            = some ⟨"", [some { Text := jsonInstruction
                                          (SchemaToJSONString lib config.ResponseSchema) }]⟩)
      ∧ (∀ existing, config.SystemInstruction = some existing →
          modifiedConfig.SystemInstruction
            = some ⟨existing.Role,
                [some { Text := blankLineJoined existing.Parts
                                  ++ jsonInstruction
                                      (SchemaToJSONString lib config.ResponseSchema) }]⟩)
      ∧ (∀ existing part, config.SystemInstruction = some existing →
          existing.Parts = [some part] → part.Text ≠ "" →
          modifiedConfig.SystemInstruction
            = some ⟨existing.Role,
                [some { Text := part.Text ++ "\n\n"
                                  ++ jsonInstruction
                                      (SchemaToJSONString lib config.ResponseSchema) }]⟩) := by
  refine ⟨_, by rw [rewrittenConfig, promptBasedJSONRequest_eq lib req config hcfg hnil], ?_, ?_, ?_⟩
  · intro hsi
    simp only [rewrittenInstruction, hsi]
  · intro existing hsi
    simp only [rewrittenInstruction, hsi]
  · intro existing part hsi hparts hne
    simp only [rewrittenInstruction, hsi, hparts, blankLineJoined, ne_eq, hne, not_false_eq_true,
      if_true, String.append_empty]

theorem promptBasedJSONRequest_system_instruction_witness :
    ∃ modifiedConfig, rewrittenConfig sampleLib sampleFallbackRequest = some modifiedConfig
      ∧ modifiedConfig.SystemInstruction
          = some ⟨"system",
              [some { Text := "You are a helpful assistant." ++ "\n\n"
                                ++ jsonInstruction "\x7b\n  \"type\": \"object\"\n\x7d" }]⟩ := by
  obtain ⟨modifiedConfig, h1, -, -, h4⟩ :=
    promptBasedJSONRequest_system_instruction sampleLib sampleFallbackRequest
      sampleFallbackConfig rfl
      (by
        intro existing he
        cases he
        simp)
  exact ⟨modifiedConfig, h1,
    h4 { Role := "system", Parts := [some { Text := "You are a helpful assistant." }] }
      { Text := "You are a helpful assistant." } rfl rfl (by decide)⟩

/-- Claim C26: for every heap and every request in it that reads as `request`,
with a config `config` whose system instruction, if any, has no nil part, the
rewrite returns, and no cell there was before is changed by it: the caller's
request, its config, the system instruction and its parts, and the response
schema are as they were, so the caller's request still reads as `request`. The
request the rewrite builds and its config are new cells; the config of the new
request has no response schema and agrees with the caller's on every other
field except the system instruction, and the new request has the model, the
turns and the tools of the caller's. -/
theorem promptBasedJSONRequest_keeps_caller (lib : GoLib) (h : Heap) (req : Nat)
    (request : LLMRequest) (config : GenerateContentConfig)
    (hreq : h.readRequest req = some request) (hcfg : request.Config = some config)
    (hnil : ∀ existing, config.SystemInstruction = some existing → none ∉ existing.Parts) :
    ∃ h2 modifiedReq modifiedCell modified modifiedConfig,
      promptBasedJSONRequestHeap lib h req = some (h2, modifiedReq)
      ∧ (∀ a, a < h.size → h2.load a = h.load a)
      ∧ h2.readRequest req = some request
      ∧ h.size ≤ modifiedReq
      ∧ h2.loadRequest modifiedReq = some modifiedCell
      ∧ (∃ a, modifiedCell.Config = some a ∧ h.size ≤ a)
      ∧ h2.readRequest modifiedReq = some modified
      ∧ modified.Config = some modifiedConfig
      ∧ modifiedConfig.ResponseSchema = none
      ∧ modifiedConfig.Temperature = config.Temperature
      ∧ modifiedConfig.TopP = config.TopP
      ∧ modifiedConfig.TopK = config.TopK
      ∧ modifiedConfig.StopSequences = config.StopSequences
      ∧ modifiedConfig.MaxOutputTokens = config.MaxOutputTokens
      ∧ modifiedConfig.Tools = config.Tools
      ∧ modifiedConfig.ToolConfig = config.ToolConfig
      ∧ modifiedConfig.Others = config.Others
      ∧ modified.Model = request.Model
      ∧ modified.Contents = request.Contents
      ∧ modified.Tools = request.Tools := by
  obtain ⟨h2, hrun, hkeep, ⟨cell, hcell, hcellcfg⟩, hread⟩ :=
    promptBasedJSONRequestHeap_eq lib h req request config hreq hcfg hnil
  refine ⟨h2, h.size + 3, cell, _, _, hrun, hkeep, h.readRequest_keeps h2 hkeep req request hreq,
    Nat.le_add_right _ _, hcell, ⟨h.size, hcellcfg, Nat.le_refl _⟩, hread, rfl, ?_⟩
  exact ⟨rfl, rfl, rfl, rfl, rfl, rfl, rfl, rfl, rfl, rfl, rfl, rfl⟩

/-- Witness of C26: the heap of five cells with the request of the test at the
address 4; the caller's config at the address 3 keeps its system instruction and
its response schema. -/
theorem promptBasedJSONRequest_keeps_caller_witness :
    ∃ h2 modifiedReq modifiedCell modified modifiedConfig,
      promptBasedJSONRequestHeap sampleLib sampleFallbackHeap 4 = some (h2, modifiedReq)
      ∧ (∀ a, a < sampleFallbackHeap.size → h2.load a = sampleFallbackHeap.load a)
      ∧ h2.readRequest 4 = some sampleFallbackRequest
      ∧ sampleFallbackHeap.size ≤ modifiedReq
      ∧ h2.loadRequest modifiedReq = some modifiedCell
      ∧ (∃ a, modifiedCell.Config = some a ∧ sampleFallbackHeap.size ≤ a)
      ∧ h2.readRequest modifiedReq = some modified
      ∧ modified.Config = some modifiedConfig
      ∧ modifiedConfig.ResponseSchema = none
      ∧ modifiedConfig.Temperature = some 1056964608
      ∧ modifiedConfig.TopP = none
      ∧ modifiedConfig.TopK = none
      ∧ modifiedConfig.StopSequences = []
      ∧ modifiedConfig.MaxOutputTokens = 1024
      ∧ modifiedConfig.Tools = []
      ∧ modifiedConfig.ToolConfig = none
      ∧ modifiedConfig.Others = []
      ∧ modified.Model = "claude-sonnet-4"
      ∧ modified.Contents
          = [some { Role := "user", Parts := [some { Text := "Hello" }] }]
      ∧ modified.Tools = none :=
  promptBasedJSONRequest_keeps_caller sampleLib sampleFallbackHeap 4 sampleFallbackRequest
    sampleFallbackConfig rfl rfl
    (by
      intro existing he
      cases he
      simp)

/-- Claim C27: for the request of one user turn with the single text part `hi`
and no config, `maybeAppendUserContent` followed by `convertRequest` gives,
for every model, the request with exactly one message, of role user, with
exactly the text block `hi`, the model's default as max tokens, no system
block, no temperature, top-p, top-k or stop sequence, no tool and the omitted
tool-choice directive. -/
theorem convertRequest_single_user_turn (lib : GoLib) (m : anthropicModel) :
    maybeAppendUserContent
        { Contents := [some { Role := "user", Parts := [some { Text := "hi" }] }] }
      = { Contents := [some { Role := "user", Parts := [some { Text := "hi" }] }] }
    ∧ convertRequest lib m
        (maybeAppendUserContent
          { Contents := [some { Role := "user", Parts := [some { Text := "hi" }] }] })
      = some (.ok
          { Model := m.name
            Messages := [{ Role := MessageParamRoleUser, Content := [.OfText "hi"] }]
            MaxTokens := m.defaultMaxTokens
            System := []
            Temperature := none
            TopP := none
            TopK := none
            StopSequences := []
            Tools := []
            ToolChoice := { OfAuto := none, OfAny := none, OfTool := none, OfNone := none } }) := by
  constructor
  · rfl
  · rfl

/-- Claim C28: when the request converts, the stream delivers its events without
error, every accumulation succeeds, the accumulated message converts, and the
consumer goes on after every partial response, `generateStream` emits the
partial response of each text delta and thinking delta, in the order of the
events, and then exactly one more response: the conversion of the accumulated
message with `TurnComplete` set. All events are taken from the stream. -/
theorem generateStream_emissions {M : Type} (lib : GoLib) (deps : StreamDeps M)
    (m : anthropicModel) (transport : MessageNewParams → EventStream) (req : LLMRequest)
    (consumer : List Emission → Bool) (params : MessageNewParams)
    (events : List StreamEvent) (msg : M) (final : LLMResponse)
    (hreq : convertRequest lib m req = some (.ok params))
    (hstream : transport params = ⟨events, none⟩)
    (hacc : accumulateAll deps deps.zero events = .ok msg)
    (hconv : deps.MessageToLLMResponse msg = .ok final)
    (hcons : ∀ pre, pre <+: streamPartials events → pre ≠ [] → consumer pre = true) :
    generateStream lib deps m transport req consumer
      = some { emitted := streamPartials events
                 ++ [Emission.resp { final with TurnComplete := true }],
               processed := events.length } := by
  have hloop := streamLoop_consumed deps consumer none events [] deps.zero msg [] 0 hacc
    (by simpa using hcons)
  simp only [generateStream, hreq, hstream]
  rw [List.append_nil] at hloop
  rw [hloop]
  simp [streamLoop, hconv]

theorem generateStream_emissions_witness :
    generateStream sampleLib sampleStreamDeps
        { name := "claude-sonnet-4", variant := "", defaultMaxTokens := 4096 }
        (fun _ => ⟨[.textDelta "He", .textDelta "llo", .other "message_stop"], none⟩)
        { Contents := [some { Role := "user", Parts := [some { Text := "hi" }] }] }
        (fun _ => true)
      = some
          { emitted :=
              [Emission.resp
                 { Content := some { Role := "model", Parts := [some { Text := "He" }] },
                   Partial := true, TurnComplete := false },
               Emission.resp
                 { Content := some { Role := "model", Parts := [some { Text := "llo" }] },
                   Partial := true, TurnComplete := false },
               Emission.resp
                 { Content := some { Role := "model", Parts := [some { Text := "Hello" }] },
                   Partial := false, TurnComplete := true }],
            processed := 3 } :=
  generateStream_emissions sampleLib sampleStreamDeps
    { name := "claude-sonnet-4", variant := "", defaultMaxTokens := 4096 }
    (fun _ => ⟨[.textDelta "He", .textDelta "llo", .other "message_stop"], none⟩)
    { Contents := [some { Role := "user", Parts := [some { Text := "hi" }] }] }
    (fun _ => true)
    { Model := "claude-sonnet-4",
      Messages := [{ Role := MessageParamRoleUser, Content := [.OfText "hi"] }],
      MaxTokens := 4096 }
    [.textDelta "He", .textDelta "llo", .other "message_stop"] "Hello"
    { Content := some { Role := "model", Parts := [some { Text := "Hello" }] } }
    rfl rfl rfl rfl (fun _ _ _ => rfl)

/-- Claim C29: when the request converts, (1) on a stream that ends with an
error after events that all accumulate, consumed to the end, the emissions are
the partial responses and then that error, and all events were taken; (2) on a
stream on which the accumulation of an event fails, consumed up to that event,
the emissions are the partial responses of the events before it and then that
error, and no event after it is taken; (3) in both cases, whatever the consumer
does, no emission is a response with `TurnComplete` set. -/
theorem generateStream_error {M : Type} (lib : GoLib) (deps : StreamDeps M)
    (m : anthropicModel) (transport : MessageNewParams → EventStream) (req : LLMRequest)
    (consumer : List Emission → Bool) (params : MessageNewParams)
    (hreq : convertRequest lib m req = some (.ok params)) :
    (∀ events e msg, transport params = ⟨events, some e⟩
        → accumulateAll deps deps.zero events = .ok msg
        → (∀ pre, pre <+: streamPartials events → pre ≠ [] → consumer pre = true)
        → generateStream lib deps m transport req consumer
            = some { emitted := streamPartials events ++ [Emission.err ("stream error: " ++ e)],
                     processed := events.length })
    ∧ (∀ before event after err e msg, transport params = ⟨before ++ event :: after, err⟩
        → accumulateAll deps deps.zero before = .ok msg
        → deps.Accumulate msg event = .error e
        → (∀ pre, pre <+: streamPartials before → pre ≠ [] → consumer pre = true)
        → generateStream lib deps m transport req consumer
            = some { emitted := streamPartials before
                       ++ [Emission.err ("failed to accumulate message: " ++ e)],
                     processed := before.length + 1 })
    ∧ (∀ run, generateStream lib deps m transport req consumer = some run
        → ((transport params).err.isSome = true
            ∨ ∃ e, accumulateAll deps deps.zero (transport params).events = .error e)
        → ∀ x ∈ run.emitted, x.isComplete = false) := by
  refine ⟨?_, ?_, ?_⟩
  · intro events e msg hstream hacc hcons
    have hloop := streamLoop_consumed deps consumer (some e) events [] deps.zero msg [] 0 hacc
      (by simpa using hcons)
    simp only [generateStream, hreq, hstream]
    rw [List.append_nil] at hloop
    rw [hloop]
    simp [streamLoop]
  · intro before event after err e msg hstream hacc hstep hcons
    have hloop := streamLoop_consumed deps consumer err before (event :: after) deps.zero msg
      [] 0 hacc (by simpa using hcons)
    simp only [generateStream, hreq, hstream]
    rw [hloop]
    simp [streamLoop, hstep]
  · intro run hrun hfail x hx
    simp only [generateStream, hreq, Option.some.injEq] at hrun
    rw [← hrun] at hx
    exact streamLoop_no_complete deps consumer _ _ deps.zero [] 0 hfail (by simp) x hx

theorem generateStream_error_witness :
    generateStream sampleLib sampleStreamDeps
        { name := "claude-sonnet-4", variant := "", defaultMaxTokens := 4096 }
        (fun _ => ⟨[.textDelta "He", .other "ping"], some "unexpected EOF"⟩)
        { Contents := [some { Role := "user", Parts := [some { Text := "hi" }] }] }
        (fun _ => true)
      = some
          { emitted :=
              [Emission.resp
                 { Content := some { Role := "model", Parts := [some { Text := "He" }] },
                   Partial := true, TurnComplete := false },
               Emission.err "stream error: unexpected EOF"],
            processed := 2 }
    ∧ generateStream sampleLib sampleStreamDeps
        { name := "claude-sonnet-4", variant := "", defaultMaxTokens := 4096 }
        (fun _ => ⟨[.textDelta "He", .otherDelta "bad", .textDelta "llo"], none⟩)
        { Contents := [some { Role := "user", Parts := [some { Text := "hi" }] }] }
        (fun _ => true)
      = some
          { emitted :=
              [Emission.resp
                 { Content := some { Role := "model", Parts := [some { Text := "He" }] },
                   Partial := true, TurnComplete := false },
               Emission.err "failed to accumulate message: unexpected delta: bad"],
            processed := 2 } :=
  ⟨(generateStream_error sampleLib sampleStreamDeps
      { name := "claude-sonnet-4", variant := "", defaultMaxTokens := 4096 }
      (fun _ => ⟨[.textDelta "He", .other "ping"], some "unexpected EOF"⟩)
      { Contents := [some { Role := "user", Parts := [some { Text := "hi" }] }] }
      (fun _ => true)
      { Model := "claude-sonnet-4",
        Messages := [{ Role := MessageParamRoleUser, Content := [.OfText "hi"] }],
        MaxTokens := 4096 }
      rfl).1 [.textDelta "He", .other "ping"] "unexpected EOF" "He" rfl rfl (fun _ _ _ => rfl),
   (generateStream_error sampleLib sampleStreamDeps
      { name := "claude-sonnet-4", variant := "", defaultMaxTokens := 4096 }
      (fun _ => ⟨[.textDelta "He", .otherDelta "bad", .textDelta "llo"], none⟩)
      { Contents := [some { Role := "user", Parts := [some { Text := "hi" }] }] }
      (fun _ => true)
      { Model := "claude-sonnet-4",
        Messages := [{ Role := MessageParamRoleUser, Content := [.OfText "hi"] }],
        MaxTokens := 4096 }
      rfl).2.1 [.textDelta "He"] (.otherDelta "bad") [.textDelta "llo"] none
        "unexpected delta: bad" "He" rfl rfl rfl (fun _ _ _ => rfl)⟩

/-- Claim C30, failing input: the last turn is a user turn whose one part has
empty text. `maybeAppendUserContent` appends nothing, the turn assembler drops
the turn, and the messages end with the assistant's. With a single user turn
without parts the message list is empty. -/
theorem maybeAppendUserContent_last_not_user (lib : GoLib) :
    (maybeAppendUserContent
        { Contents := [some { Role := "model", Parts := [some { Text := "done" }] },
                       some { Role := "user", Parts := [some { Text := "" }] }] }).Contents
      = [some { Role := "model", Parts := [some { Text := "done" }] },
         some { Role := "user", Parts := [some { Text := "" }] }]
    ∧ ContentsToMessages lib
        (maybeAppendUserContent
          { Contents := [some { Role := "model", Parts := [some { Text := "done" }] },
                         some { Role := "user", Parts := [some { Text := "" }] }] }).Contents
      = .ok [{ Role := MessageParamRoleAssistant, Content := [.OfText "done"] }]
    ∧ ContentsToMessages lib
        (maybeAppendUserContent { Contents := [some { Role := "user", Parts := [] }] }).Contents
      = .ok [] := by
  refine ⟨rfl, rfl, rfl⟩

/-- Claim C31: with the Vertex AI variant, `NewModel` fails with the message
`VertexProjectID is required ...` when neither the config nor the environment
gives a project id; with a project id and no location in the config or the
environment it fails with the message `VertexLocation is required for Vertex AI
(set GOOGLE_CLOUD_LOCATION)`, which does not contain `VertexRegion is
required`, the text the repository's test looks for. -/
theorem NewModel_vertex_missing_settings (decls : VariantDecls) (getenv : String → String)
    (modelName : String) (cfg : Config)
    (hvariant : (if cfg.Variant = "" then decls.GetVariant getenv else cfg.Variant)
      = decls.VariantVertexAI) :
    ((if cfg.VertexProjectID = "" then getenv "GOOGLE_CLOUD_PROJECT" else cfg.VertexProjectID) = ""
        → NewModel decls getenv modelName (some cfg)
            = .error "VertexProjectID is required for Vertex AI (set GOOGLE_CLOUD_PROJECT)")
    ∧ ((if cfg.VertexProjectID = "" then getenv "GOOGLE_CLOUD_PROJECT" else cfg.VertexProjectID) ≠ ""
        → (if cfg.VertexLocation = "" then getenv "GOOGLE_CLOUD_LOCATION" else cfg.VertexLocation) = ""
        → NewModel decls getenv modelName (some cfg)
            = .error "VertexLocation is required for Vertex AI (set GOOGLE_CLOUD_LOCATION)")
    ∧ "VertexProjectID is required".data
        <:+: "VertexProjectID is required for Vertex AI (set GOOGLE_CLOUD_PROJECT)".data
    ∧ ¬ ("VertexRegion is required".data
        <:+: "VertexLocation is required for Vertex AI (set GOOGLE_CLOUD_LOCATION)".data) := by
  refine ⟨?_, ?_, ⟨[], " for Vertex AI (set GOOGLE_CLOUD_PROJECT)".data, rfl⟩, ?_⟩
  · intro hproject
    simp only [NewModel, Option.getD_some, hvariant, hproject, if_true]
  · intro hproject hlocation
    simp only [NewModel, Option.getD_some, hvariant, hproject, hlocation, if_true, if_false]
  · intro h
    have hmem : 'R' ∈ "VertexLocation is required for Vertex AI (set GOOGLE_CLOUD_LOCATION)".data := by
      obtain ⟨s, t, hst⟩ := h
      rw [← hst]
      simp
    revert hmem
    decide

theorem NewModel_vertex_missing_settings_witness :
    NewModel sampleVariantDecls
        (fun key => if key = "GOOGLE_CLOUD_REGION" then "us-central1" else "")
        "claude-sonnet-4-20250514" (some { Variant := "vertex_ai" })
      = .error "VertexProjectID is required for Vertex AI (set GOOGLE_CLOUD_PROJECT)"
    ∧ NewModel sampleVariantDecls
        (fun key => if key = "GOOGLE_CLOUD_PROJECT" then "test-project" else "")
        "claude-sonnet-4-20250514" (some { Variant := "vertex_ai" })
      = .error "VertexLocation is required for Vertex AI (set GOOGLE_CLOUD_LOCATION)" :=
  ⟨(NewModel_vertex_missing_settings sampleVariantDecls
      (fun key => if key = "GOOGLE_CLOUD_REGION" then "us-central1" else "")
      "claude-sonnet-4-20250514" { Variant := "vertex_ai" } rfl).1 rfl,
   (NewModel_vertex_missing_settings sampleVariantDecls
      (fun key => if key = "GOOGLE_CLOUD_PROJECT" then "test-project" else "")
      "claude-sonnet-4-20250514" { Variant := "vertex_ai" } rfl).2.1 (by decide) rfl⟩

/-- Claim C32: a model that `NewModel` returns has as default the
`DefaultMaxTokens` of the config when that is not zero, and 4096 when it is
zero or no config is given; and every request that `convertRequest` or
`convertBetaRequest` builds for the model carries the `MaxOutputTokens` of the
request config when that is greater than zero, and the default of the model
otherwise (`configMaxTokens` and `requestMaxTokens` spell the two rules
out). -/
theorem built_request_maxTokens (lib : GoLib) (decls : VariantDecls)
    (getenv : String → String) (modelName : String) (cfg : Option Config)
    (m : anthropicModel) (req : LLMRequest)
    (hmodel : NewModel decls getenv modelName cfg = .ok m) :
    m.defaultMaxTokens = configMaxTokens cfg
    ∧ (∀ params, convertRequest lib m req = some (.ok params) →
        params.MaxTokens = requestMaxTokens m req)
    ∧ (∀ params, convertBetaRequest lib m req = some (.ok params) →
        params.MaxTokens = requestMaxTokens m req) :=
  ⟨(NewModel_defaultMaxTokens decls getenv modelName cfg m hmodel).1,
   fun params h => convertRequest_maxTokens lib m req params h,
   fun params h => convertBetaRequest_maxTokens lib m req params h⟩

theorem built_request_maxTokens_witness :
    NewModel sampleVariantDecls (fun _ => "") "claude-sonnet-4-20250514"
        (some { DefaultMaxTokens := 0 })
      = .ok { name := "claude-sonnet-4-20250514", variant := "anthropic_api",
              defaultMaxTokens := 4096 }
    ∧ ∃ params betaParams,
        convertRequest sampleLib
            { name := "claude-sonnet-4-20250514", variant := "anthropic_api",
              defaultMaxTokens := 4096 }
            { Contents := [some { Role := "user", Parts := [some { Text := "hi" }] }],
              Config := some { MaxOutputTokens := 256 } }
          = some (.ok params)
        ∧ params.MaxTokens = 256
        ∧ convertBetaRequest sampleLib
            { name := "claude-sonnet-4-20250514", variant := "anthropic_api",
              defaultMaxTokens := 4096 }
            { Contents := [some { Role := "user", Parts := [some { Text := "hi" }] }],
              Config := some { MaxOutputTokens := 256 } }
          = some (.ok betaParams)
        ∧ betaParams.MaxTokens = 256 := by
  have h := built_request_maxTokens sampleLib sampleVariantDecls (fun _ => "")
    "claude-sonnet-4-20250514" (some { DefaultMaxTokens := 0 })
    { name := "claude-sonnet-4-20250514", variant := "anthropic_api", defaultMaxTokens := 4096 }
    { Contents := [some { Role := "user", Parts := [some { Text := "hi" }] }],
      Config := some { MaxOutputTokens := 256 } }
    rfl
  exact ⟨rfl, _, _, rfl, h.2.1 _ rfl, rfl, h.2.2 _ rfl⟩

/-- Claim C33: `stripMarkdownFromResponse` returns on every response and leaves
the degenerate ones as they are: the nil response, a response with nil content
and a content without parts come back unchanged; in a content with parts every
nil part and every part with empty text is kept as it is, and every other part
has its text replaced by the stripped text, at the same place. -/
theorem stripMarkdownFromResponse_degenerate :
    stripMarkdownFromResponse none = none
    ∧ (∀ (isPartial turnComplete : Bool),
        stripMarkdownFromResponse
            (some { Content := none, Partial := isPartial, TurnComplete := turnComplete })
          = some { Content := none, Partial := isPartial, TurnComplete := turnComplete })
    ∧ (∀ (role : String) (isPartial turnComplete : Bool),
        stripMarkdownFromResponse
            (some { Content := some { Role := role, Parts := [] }, Partial := isPartial,
                    TurnComplete := turnComplete })
          = some { Content := some { Role := role, Parts := [] }, Partial := isPartial,
                   TurnComplete := turnComplete })
    ∧ (∀ (role : String) (part : Option Part) (parts : List (Option Part))
          (isPartial turnComplete : Bool),
        stripMarkdownFromResponse
            (some { Content := some { Role := role, Parts := part :: parts },
                    Partial := isPartial, TurnComplete := turnComplete })
          = some { Content := some { Role := role,
                                     Parts := (part :: parts).map stripMarkdownPart },
                   Partial := isPartial, TurnComplete := turnComplete })
    ∧ stripMarkdownPart none = none
    ∧ (∀ part : Part, stripMarkdownPart (some { part with Text := "" })
        = some { part with Text := "" })
    ∧ (∀ part : Part, stripMarkdownPart (some part)
        = some (if part.Text = "" then part
                else { part with Text := stripMarkdownText part.Text })) := by
  refine ⟨rfl, fun _ _ => rfl, fun _ _ _ => rfl, fun _ _ _ _ _ => rfl, rfl, fun _ => rfl, ?_⟩
  intro part
  simp only [stripMarkdownPart]
  split <;> rfl

/-- Claim C34: in every run of `generateStream`, an emission that is followed by
another emission is the partial response of an event and was accepted by the
consumer; it is neither an error nor a response marked as the complete turn.
So nothing is emitted after an emission the consumer rejected, after an error
or after the final response. -/
theorem generateStream_stops {M : Type} (lib : GoLib) (deps : StreamDeps M)
    (m : anthropicModel) (transport : MessageNewParams → EventStream) (req : LLMRequest)
    (consumer : List Emission → Bool) (run : StreamRun)
    (hrun : generateStream lib deps m transport req consumer = some run) :
    ∀ pre x suf, run.emitted = pre ++ x :: suf → suf ≠ [] →
      consumer (pre ++ [x]) = true
        ∧ (∃ event, partialOf event = some x)
        ∧ x.isComplete = false
        ∧ ∀ e, x ≠ Emission.err e := by
  have key : ∀ pre x suf, run.emitted = pre ++ x :: suf → suf ≠ [] →
      consumer (pre ++ [x]) = true ∧ ∃ event, partialOf event = some x := by
    unfold generateStream at hrun
    cases hreq : convertRequest lib m req with
    | none => simp [hreq] at hrun
    | some result =>
      cases result with
      | error e =>
        simp only [hreq, Option.some.injEq] at hrun
        intro pre x suf h hne
        rw [← hrun] at h
        have hlen := congrArg List.length h
        simp only [List.length_cons, List.length_nil, List.length_append] at hlen
        have : suf.length ≠ 0 := fun h0 => hne (List.length_eq_zero.mp h0)
        omega
      | ok params =>
        simp only [hreq, Option.some.injEq] at hrun
        rw [← hrun]
        exact streamLoop_stops deps consumer _ _ deps.zero [] 0
          (by
            intro pre x suf h
            exact absurd h (by simp))
  intro pre x suf h hne
  obtain ⟨h1, event, hevent⟩ := key pre x suf h hne
  refine ⟨h1, ⟨event, hevent⟩, isComplete_partialOf event x hevent, ?_⟩
  intro e he
  rw [he] at hevent
  cases event <;> simp [partialOf] at hevent

theorem generateStream_stops_witness :
    generateStream sampleLib sampleStreamDeps
        { name := "claude-sonnet-4", variant := "", defaultMaxTokens := 4096 }
        (fun _ => ⟨[.textDelta "He", .textDelta "llo", .textDelta "!", .other "message_stop"],
          none⟩)
        { Contents := [some { Role := "user", Parts := [some { Text := "hi" }] }] }
        (fun emitted => decide (emitted.length < 2))
      = some
          { emitted := [Emission.resp (StreamDeltaToPartialResponse "He"),
                        Emission.resp (StreamDeltaToPartialResponse "llo")],
            processed := 2 }
    ∧ (fun emitted : List Emission => decide (emitted.length < 2))
          ([] ++ [Emission.resp (StreamDeltaToPartialResponse "He")]) = true
    ∧ (∃ event, partialOf event = some (Emission.resp (StreamDeltaToPartialResponse "He")))
    ∧ (Emission.resp (StreamDeltaToPartialResponse "He")).isComplete = false
    ∧ ∀ e, Emission.resp (StreamDeltaToPartialResponse "He") ≠ Emission.err e :=
  ⟨rfl,
   generateStream_stops sampleLib sampleStreamDeps
     { name := "claude-sonnet-4", variant := "", defaultMaxTokens := 4096 }
     (fun _ => ⟨[.textDelta "He", .textDelta "llo", .textDelta "!", .other "message_stop"],
       none⟩)
     { Contents := [some { Role := "user", Parts := [some { Text := "hi" }] }] }
     (fun emitted => decide (emitted.length < 2))
     { emitted := [Emission.resp (StreamDeltaToPartialResponse "He"),
                   Emission.resp (StreamDeltaToPartialResponse "llo")],
       processed := 2 }
     rfl [] (Emission.resp (StreamDeltaToPartialResponse "He"))
     [Emission.resp (StreamDeltaToPartialResponse "llo")] rfl (by simp)⟩

/-- Claim C35: `SchemaToMap` is a total function; on a nil schema it returns the
nil map, and on any other schema a map that has the entry `type` exactly when
the type is set, holding the lower-cased type; the entry `properties` exactly
when the schema has at least one property, holding the map of
`schemaPropertiesToMap`, which has exactly the names whose schema is not nil,
each with `SchemaToMap` of that schema; the entry `items` exactly when `Items`
is set, holding `SchemaToMap` of it; and the entry `required` exactly when
`Required` is not empty, holding the list. -/
theorem SchemaToMap_entries (lib : GoLib) (schema : Schema) :
    SchemaToMap lib none = none
    ∧ (∃ m, SchemaToMap lib (some schema) = some m
        ∧ m.lookup "type"
            = (if schema.Type_ ≠ "" then some (.str (stringsToLower lib schema.Type_))
              else none)
        ∧ m.lookup "properties"
            = (if schemaMapLen schema.Properties > 0 then
                some (.map (schemaPropertiesToMap lib schema.Properties))
              else none)
        ∧ m.lookup "items"
            = schema.Items.map (fun it => GoValue.map (SchemaToMap lib (some it)))
        ∧ m.lookup "required"
            = (if schema.Required.length > 0 then some (.strings (some schema.Required))
              else none))
    ∧ schemaPropertiesToMap lib none = none
    ∧ (∀ props : List (String × Option Schema),
        schemaPropertiesToMap lib (some props)
          = some (props.filterMap
              (fun kv =>
                kv.2.map (fun s => (kv.1, GoValue.map (SchemaToMap lib (some s))))))) := by
  refine ⟨rfl, ⟨schemaToMapCore lib schema, rfl, schemaToMapCore_lookup lib schema⟩, ?_, ?_⟩
  · rw [schemaPropertiesToMap]
  · intro props
    rw [schemaPropertiesToMap, schemaPropertiesLoop_eq]

/-- Claim C36: `resolveThinkingBudget` gives -1 for a nil config; the explicit
budget whenever one is set, whatever the level and the flag; without explicit
budget 10000 for the level high, 1024 for the level low, and for any other
level 10000 when `IncludeThoughts` is set and -1 when it is not.
`ThinkingConfigToAnthropicThinking` returns the enabled variant with that
budget when the budget is at least 0 and the zero union otherwise, so thinking
is enabled exactly when the budget is at least 0. -/
theorem resolveThinkingBudget_cases :
    resolveThinkingBudget none = -1
    ∧ (∀ (budget : Int) (level : ThinkingLevel) (includeThoughts : Bool),
        resolveThinkingBudget
            (some { ThinkingBudget := some budget, ThinkingLevel := level,
                    IncludeThoughts := includeThoughts }) = budget)
    ∧ (∀ includeThoughts : Bool,
        resolveThinkingBudget
            (some { ThinkingBudget := none, ThinkingLevel := ThinkingLevelHigh,
                    IncludeThoughts := includeThoughts }) = 10000)
    ∧ (∀ includeThoughts : Bool,
        resolveThinkingBudget
            (some { ThinkingBudget := none, ThinkingLevel := ThinkingLevelLow,
                    IncludeThoughts := includeThoughts }) = 1024)
    ∧ (∀ level : ThinkingLevel, level ≠ ThinkingLevelHigh → level ≠ ThinkingLevelLow →
        resolveThinkingBudget
            (some { ThinkingBudget := none, ThinkingLevel := level, IncludeThoughts := true })
          = 10000
        ∧ resolveThinkingBudget
            (some { ThinkingBudget := none, ThinkingLevel := level, IncludeThoughts := false })
          = -1)
    ∧ (∀ cfg : Option ThinkingConfig, 0 ≤ resolveThinkingBudget cfg →
        ThinkingConfigToAnthropicThinking cfg
          = { OfEnabled := some { BudgetTokens := resolveThinkingBudget cfg },
              OfDisabled := none })
    ∧ (∀ cfg : Option ThinkingConfig, resolveThinkingBudget cfg < 0 →
        ThinkingConfigToAnthropicThinking cfg = { OfEnabled := none, OfDisabled := none })
    ∧ (∀ cfg : Option ThinkingConfig,
        (ThinkingConfigToAnthropicThinking cfg).OfEnabled.isSome = true
          ↔ 0 ≤ resolveThinkingBudget cfg) := by
  refine ⟨rfl, fun _ _ _ => rfl, fun _ => rfl, fun _ => rfl, ?_, ?_, ?_, ?_⟩
  · intro level hhigh hlow
    simp [resolveThinkingBudget, hhigh, hlow]
  · intro cfg h
    simp [ThinkingConfigToAnthropicThinking, ThinkingConfigParamOfEnabled, h]
  · intro cfg h
    have : ¬ resolveThinkingBudget cfg ≥ 0 := by omega
    simp [ThinkingConfigToAnthropicThinking, this]
  · intro cfg
    unfold ThinkingConfigToAnthropicThinking
    by_cases h : resolveThinkingBudget cfg ≥ 0
    · simp [ThinkingConfigParamOfEnabled, h]
    · simp [h]

theorem resolveThinkingBudget_cases_witness :
    (resolveThinkingBudget
          (some { ThinkingBudget := none, ThinkingLevel := "MEDIUM", IncludeThoughts := true })
        = 10000
      ∧ resolveThinkingBudget
          (some { ThinkingBudget := none, ThinkingLevel := "MEDIUM", IncludeThoughts := false })
        = -1)
    ∧ ThinkingConfigToAnthropicThinking (some { ThinkingBudget := some 0 })
        = { OfEnabled := some { BudgetTokens := 0 }, OfDisabled := none }
    ∧ ThinkingConfigToAnthropicThinking (some { ThinkingBudget := some (-1), IncludeThoughts := true })
        = { OfEnabled := none, OfDisabled := none } :=
  ⟨resolveThinkingBudget_cases.2.2.2.2.1 "MEDIUM" (by decide) (by decide),
   resolveThinkingBudget_cases.2.2.2.2.2.1 (some { ThinkingBudget := some 0 }) (by decide),
   resolveThinkingBudget_cases.2.2.2.2.2.2.1
     (some { ThinkingBudget := some (-1), IncludeThoughts := true }) (by decide)⟩

/-- Claim C37: when `ContentsToMessages` succeeds, the contents of the returned
messages, one after the other, are exactly the blocks obtained by translating
every part of every non-nil turn in order and keeping those that yield a
block. -/
theorem ContentsToMessages_blocks (lib : GoLib) (contents : List (Option Content))
    (ms : List MessageParam) (h : ContentsToMessages lib contents = .ok ms) :
    messageBlocks ms = turnBlocks lib contents := by
  obtain ⟨messages, hconv, hms⟩ := ContentsToMessages_ok lib contents ms h
  rw [hms, messageBlocks_merge, convertContents_blocks lib contents [] messages hconv]
  simp [messageBlocks]

theorem ContentsToMessages_blocks_witness :
    messageBlocks
        [{ Role := MessageParamRoleUser, Content := [.OfText "a", .OfText "b"] },
         { Role := MessageParamRoleAssistant, Content := [.OfText "c"] }]
      = turnBlocks sampleLib
          [some { Role := "user", Parts := [some { Text := "a" }, none, some { Text := "" }] },
           none,
           some { Role := "user", Parts := [] },
           some { Role := "USER", Parts := [some { Text := "b" }] },
           some { Role := "model", Parts := [some { Text := "c" }] }] :=
  ContentsToMessages_blocks sampleLib
    [some { Role := "user", Parts := [some { Text := "a" }, none, some { Text := "" }] },
     none,
     some { Role := "user", Parts := [] },
     some { Role := "USER", Parts := [some { Text := "b" }] },
     some { Role := "model", Parts := [some { Text := "c" }] }]
    [{ Role := MessageParamRoleUser, Content := [.OfText "a", .OfText "b"] },
     { Role := MessageParamRoleAssistant, Content := [.OfText "c"] }]
    rfl

/-- Claim C38: for every turn sequence `ContentsToBetaMessages` fails exactly
when `ContentsToMessages` fails, and with the same error; when both succeed
they return the same number of messages, and position by position the messages
have the same role and blocks of the same kind with the same text, signature,
payload, media type, URL, tool id, tool name and arguments. -/
theorem ContentsToBetaMessages_agrees (lib : GoLib) (contents : List (Option Content)) :
    ((∃ e, ContentsToBetaMessages lib contents = .error e)
        ↔ ∃ e, ContentsToMessages lib contents = .error e)
    ∧ (∀ e, ContentsToMessages lib contents = .error e →
        ContentsToBetaMessages lib contents = .error e)
    ∧ ∀ ms bs, ContentsToMessages lib contents = .ok ms →
        ContentsToBetaMessages lib contents = .ok bs →
        ms.length = bs.length ∧ List.Forall₂ MessageAgrees ms bs := by
  have heq := ContentsToBetaMessages_eq lib contents
  cases hstd : ContentsToMessages lib contents with
  | error e =>
    rw [hstd] at heq
    simp only at heq
    refine ⟨⟨fun _ => ⟨e, rfl⟩, fun _ => ⟨e, heq⟩⟩, ?_, ?_⟩
    · intro e2 he2
      cases he2
      exact heq
    · intro ms bs hms
      cases hms
  | ok ms0 =>
    rw [hstd] at heq
    simp only at heq
    refine ⟨⟨?_, ?_⟩, ?_, ?_⟩
    · rintro ⟨e, he⟩
      rw [heq] at he
      cases he
    · rintro ⟨e, he⟩
      cases he
    · intro e he
      cases he
    · intro ms bs hms hbs
      have h1 : ms0 = ms := Except.ok.inj hms
      subst h1
      rw [heq] at hbs
      have h2 := Except.ok.inj hbs
      subst h2
      exact ⟨by rw [List.length_map], MessageAgrees_betaOfMessage ms0⟩

theorem ContentsToBetaMessages_agrees_witness :
    ([{ Role := MessageParamRoleUser,
        Content := [.OfText "weather?", .OfToolResult "call-1" [""] (some false)] },
      { Role := MessageParamRoleAssistant,
        Content := [.OfThinking "hm" "AQ==", .OfToolUse "call-2" (some []) "lookup"] }]
        : List MessageParam).length
      = ([{ Role := BetaMessageParamRoleUser,
            Content := [.OfText "weather?", .OfToolResult "call-1" [""] none] },
          { Role := BetaMessageParamRoleAssistant,
            Content := [.OfThinking "hm" "AQ==", .OfToolUse "call-2" "lookup" (some [])] }]
        : List BetaMessageParam).length
    ∧ List.Forall₂ MessageAgrees
        [{ Role := MessageParamRoleUser,
           Content := [.OfText "weather?", .OfToolResult "call-1" [""] (some false)] },
         { Role := MessageParamRoleAssistant,
           Content := [.OfThinking "hm" "AQ==", .OfToolUse "call-2" (some []) "lookup"] }]
        [{ Role := BetaMessageParamRoleUser,
           Content := [.OfText "weather?", .OfToolResult "call-1" [""] none] },
         { Role := BetaMessageParamRoleAssistant,
           Content := [.OfThinking "hm" "AQ==", .OfToolUse "call-2" "lookup" (some [])] }] :=
  (ContentsToBetaMessages_agrees sampleLib
    [some { Role := "user", Parts := [some { Text := "weather?" }] },
     some { Role := "model",
            Parts := [some { FunctionResponse := some { ID := "call-1", Name := "lookup", Response := none } }] },
     some { Role := "model",
            Parts := [some { Text := "hm", Thought := true, ThoughtSignature := [1] },
                      some { FunctionCall := some { ID := "call-2", Name := "lookup", Args := none } }] }]).2.2
    _ _ rfl rfl

/-- Claim C39: for every tool-choice policy `ToolConfigToBetaToolChoice` returns
the error of `ToolConfigToToolChoice`, or none when that returns none, and a
directive of the same kind: omitted, auto, any, or tool with the same name. For
every function declaration `FunctionDeclarationToBetaTool` panics exactly when
`FunctionDeclarationToTool` does, and otherwise both tools have the same name,
description, properties and required list. -/
theorem FunctionDeclarationToBetaTool_agrees (lib : GoLib) (config : Option ToolConfig)
    (fd : FunctionDeclaration) :
    (ToolConfigToBetaToolChoice config).2 = (ToolConfigToToolChoice config).2
    ∧ (ToolConfigToToolChoice config).1.OfAuto.isSome
        = (ToolConfigToBetaToolChoice config).1.OfAuto.isSome
    ∧ (ToolConfigToToolChoice config).1.OfAny.isSome
        = (ToolConfigToBetaToolChoice config).1.OfAny.isSome
    ∧ ((ToolConfigToToolChoice config).1.OfTool.map fun t => t.Name)
        = ((ToolConfigToBetaToolChoice config).1.OfTool.map fun t => t.Name)
    ∧ (ToolConfigToToolChoice config).1.OfNone.isSome
        = (ToolConfigToBetaToolChoice config).1.OfNone.isSome
    ∧ (FunctionDeclarationToBetaTool lib fd = none ↔ FunctionDeclarationToTool lib fd = none)
    ∧ ∀ t b, FunctionDeclarationToTool lib fd = some t →
        FunctionDeclarationToBetaTool lib fd = some b →
        ∃ p q, t.OfTool = some p ∧ b.OfTool = some q
          ∧ p.Name = q.Name ∧ p.Description = q.Description
          ∧ p.InputSchema.Properties = q.InputSchema.Properties
          ∧ p.InputSchema.Required = q.InputSchema.Required := by
  obtain ⟨herr, hauto, hany, htool, hnone⟩ := ToolConfigToBetaToolChoice_eq config
  refine ⟨herr, hauto, hany, htool, hnone, ?_, ?_⟩
  · rw [FunctionDeclarationToBetaTool_eq]
    cases FunctionDeclarationToTool lib fd <;> simp
  · intro t b ht hb
    rw [FunctionDeclarationToBetaTool_eq, ht] at hb
    simp only [Option.map_some', Option.some.injEq] at hb
    obtain ⟨p, hp⟩ := FunctionDeclarationToTool_ofTool lib fd t ht
    rw [← hb]
    refine ⟨p, { Name := p.Name, Description := p.Description,
                 InputSchema := { Properties := p.InputSchema.Properties,
                                  Required := p.InputSchema.Required } }, hp, ?_,
      rfl, rfl, rfl, rfl⟩
    simp only [betaOfTool, hp, Option.map_some']

theorem FunctionDeclarationToBetaTool_agrees_witness :
    ∃ p q,
      ({ OfTool := some { Name := "search", Description := some "Search the web.",
                          InputSchema := { Properties :=
                                             some [("q", .map (some [("type", .str "string")]))],
                                           Required := some ["q"] } } } : ToolUnionParam).OfTool
        = some p
      ∧ ({ OfTool := some { Name := "search", Description := some "Search the web.",
                            InputSchema := { Properties :=
                                               some [("q", .map (some [("type", .str "string")]))],
                                             Required := some ["q"] } } }
          : BetaToolUnionParam).OfTool
        = some q
      ∧ p.Name = q.Name ∧ p.Description = q.Description
      ∧ p.InputSchema.Properties = q.InputSchema.Properties
      ∧ p.InputSchema.Required = q.InputSchema.Required :=
  (FunctionDeclarationToBetaTool_agrees sampleLib
    (some { FunctionCallingConfig := some { Mode := "ANY", AllowedFunctionNames := ["search"] } })
    { Name := "search", Description := "Search the web.",
      Parameters := some sampleObjectSchema }).2.2.2.2.2.2 _ _ rfl rfl

end AdkAnthropic
